import Mathlib

/-!
# Benchmark statistics and comparison engine (`tools/benchmark/utils.go`)

The Go code computes on `float64`.  The development embeds IEEE-754 binary64
arithmetic as computable Lean functions (type `F64`), and the functions of
`metrics.go` and `utils.go` on top of it.

Modelling choices:
* every `float64` operation rounds once, to nearest with ties to even, as the Go
  compiler emits it on amd64 (no fused multiply-add); infinities, NaN and the
  two zeros are kept, so a division by zero gives `±Inf` or NaN as in Go;
* a `map[string]interface{}` or `map[string]float64` with a fixed key set is a
  structure with one field a key, and a nil map or nil pointer result is `none`;
* a slice of `*PerformanceMetric` is a list of metrics (no nil element);
* the text built by `fmt.Sprintf` in `generateConclusion` is kept as the
  template chosen and the values formatted into it.
-/

set_option exponentiation.threshold 9000
set_option maxRecDepth 100000
set_option linter.unusedVariables false

/-! ## Definitions: IEEE-754 binary64 -/

/-- A binary64 value.  Every finite binary64 number is an integer multiple of
`2^-1074` (the smallest subnormal), so a finite value is kept as a sign and a
magnitude counted in units of `2^-1074`; `fin true 0` is the negative zero. -/
inductive F64 where
  | nan : F64
  | inf (neg : Bool) : F64
  | fin (neg : Bool) (mag : Nat) : F64
deriving DecidableEq, Repr

namespace F64

/-- The number one in units of `2^-1074`. -/
def one_u : Nat := 2 ^ 1074

/-- Magnitudes from `2^1024` (in units: `2^2098`) on overflow to infinity. -/
def ovf : Nat := 2 ^ 2098

/-- Nearest integer to `n / d`, ties to the even one. -/
def rne (n d : Nat) : Nat :=
  let q := n / d
  let r := n % d
  if 2 * r < d then q
  else if d < 2 * r then q + 1
  else if q % 2 = 0 then q else q + 1

/-- Binary search for the largest exponent `e' = e + (a number below 2^k)`
with `2^e' ≤ n`, deciding one bit of the exponent a step. -/
def ilog2Aux (n : Nat) : Nat → Nat → Nat
  | 0, e => e
  | k + 1, e => if 2 ^ (e + 2 ^ k) ≤ n then ilog2Aux n k (e + 2 ^ k) else ilog2Aux n k e

/-- Floor of the binary logarithm of `n` for `1 ≤ n < 2^8192` (`0` at `0`);
every exact sum, product, quotient and radicand of binary64 magnitudes lies
below `2^4200`. -/
def ilog2 (n : Nat) : Nat := ilog2Aux n 13 0

/-- Number of low bits a magnitude with integer part `q` loses to fit 53
significant bits. -/
def dropBits (q : Nat) : Nat := ilog2 q - 52

/-- The magnitude `n / d` (in units of `2^-1074`) rounded to the nearest
magnitude with at most 53 significant bits, ties to even. -/
def roundMag (n d : Nat) : Nat :=
  let s := dropBits (n / d)
  rne n (d * 2 ^ s) * 2 ^ s

/-- The binary64 value nearest to `± n / d` units; it is infinite when the
rounded magnitude reaches `2^1024`. -/
def mk (neg : Bool) (n d : Nat) : F64 :=
  let m := roundMag n d
  if m < ovf then fin neg m else inf neg

/-- Conversion `float64(n)` of a non-negative integer. -/
def ofNat (n : Nat) : F64 := mk false (n * one_u) 1

/-- Conversion `float64(i)` of a signed integer. -/
def ofInt (i : Int) : F64 := if i < 0 then mk true (i.natAbs * one_u) 1 else ofNat i.toNat

/-- The constant written `num / den` in decimal (a non-negative literal such
as `0.3 = 3/10`), rounded once to binary64 as the compiler does. -/
def lit (num den : Nat) : F64 := mk false (num * one_u) den

/-- The constant `math.MaxFloat64`, `(2^53 - 1) * 2^971`. -/
def maxFloat64 : F64 := fin false ((2 ^ 53 - 1) * 2 ^ 2045)

def isNaN : F64 → Bool
  | nan => true
  | _ => false

/-- A finite value other than the two zeros. -/
def isFiniteNonzero : F64 → Bool
  | fin _ m => m != 0
  | _ => false

/-- Unary minus. -/
def neg : F64 → F64
  | nan => nan
  | inf s => inf (!s)
  | fin s m => fin (!s) m

/-- Function `math.Abs`. -/
def abs : F64 → F64
  | nan => nan
  | inf _ => inf false
  | fin _ m => fin false m

/-- Signed integer value of a finite float, in units of `2^-1074`. -/
def sval (s : Bool) (m : Nat) : Int := if s then -(m : Int) else (m : Int)

/-- Operator `+`. -/
def add : F64 → F64 → F64
  | nan, _ => nan
  | _, nan => nan
  | inf a, inf b => if a = b then inf a else nan
  | inf a, fin _ _ => inf a
  | fin _ _, inf b => inf b
  | fin a m, fin b n =>
    if a = b then mk a (m + n) 1
    else if n < m then mk a (m - n) 1
    else if m < n then mk b (n - m) 1
    else fin false 0

/-- Operator `-`. -/
def sub (x y : F64) : F64 := add x (neg y)

/-- Operator `*`. -/
def mul : F64 → F64 → F64
  | nan, _ => nan
  | _, nan => nan
  | inf a, inf b => inf (a != b)
  | inf a, fin b n => if n = 0 then nan else inf (a != b)
  | fin a m, inf b => if m = 0 then nan else inf (a != b)
  | fin a m, fin b n => mk (a != b) (m * n) one_u

/-- Operator `/`. -/
def div : F64 → F64 → F64
  | nan, _ => nan
  | _, nan => nan
  | inf _, inf _ => nan
  | inf a, fin b _ => inf (a != b)
  | fin a _, inf b => fin (a != b) 0
  | fin a m, fin b n =>
    if n = 0 then (if m = 0 then nan else inf (a != b))
    else mk (a != b) (m * one_u) n

/-- Operator `<`. -/
def lt : F64 → F64 → Bool
  | nan, _ => false
  | _, nan => false
  | inf a, inf b => a && !b
  | inf a, fin _ _ => a
  | fin _ _, inf b => !b
  | fin a m, fin b n => decide (sval a m < sval b n)

/-- Operator `<=`. -/
def le : F64 → F64 → Bool
  | nan, _ => false
  | _, nan => false
  | inf a, inf b => a || !b
  | inf a, fin _ _ => a
  | fin _ _, inf b => !b
  | fin a m, fin b n => decide (sval a m ≤ sval b n)

/-- Operator `>`. -/
def gt (x y : F64) : Bool := lt y x

/-- Operator `>=`. -/
def ge (x y : F64) : Bool := le y x

/-- Operator `==` (the two zeros are equal, NaN equals nothing). -/
def eq : F64 → F64 → Bool
  | nan, _ => false
  | _, nan => false
  | inf a, inf b => a == b
  | inf _, fin _ _ => false
  | fin _ _, inf _ => false
  | fin a m, fin b n => decide (sval a m = sval b n)

/-- Operator `!=`. -/
def ne (x y : F64) : Bool := !eq x y

/-- The magnitude `m` rounded to a whole number of ones, halves upwards. -/
def roundInt (m : Nat) : Nat := (m + one_u / 2) / one_u * one_u

/-- Function `math.Round`: nearest integer, halves away from zero. -/
def round : F64 → F64
  | nan => nan
  | inf s => inf s
  | fin s m => fin s (roundInt m)

/-- Largest `r` below `2^(bits)` above the start value with `r * r ≤ n`, one bit
a step from bit `bits - 1` down. -/
def isqrtAux (n : Nat) : Nat → Nat → Nat
  | 0, r => r
  | bits + 1, r =>
    let c := r + 2 ^ bits
    if c * c ≤ n then isqrtAux n bits c else isqrtAux n bits r

/-- Integer square root (floor). -/
def isqrt (n : Nat) : Nat := isqrtAux n (ilog2 n / 2 + 1) 0

/-- Square root of the magnitude `m` units, in units, rounded to the nearest
magnitude with at most 53 significant bits (ties to even). -/
def sqrtMag (m : Nat) : Nat :=
  let n := m * one_u
  let s := dropBits (isqrt n)
  let q := isqrt (n / 4 ^ s)
  let lo := (2 * q + 1) * (2 * q + 1) * 4 ^ s
  if 4 * n < lo then q * 2 ^ s
  else if lo < 4 * n then (q + 1) * 2 ^ s
  else if q % 2 = 0 then q * 2 ^ s else (q + 1) * 2 ^ s

/-- Function `math.Sqrt`. -/
def sqrt : F64 → F64
  | nan => nan
  | inf s => if s then nan else inf false
  | fin s m => if m = 0 then fin s 0 else if s then nan else fin false (sqrtMag m)

/-- Whether a value is one a `float64` holds: a finite magnitude has at most
53 significant bits and lies below `2^1024`.  Every operation above returns
such a value. -/
def isBinary64 : F64 → Bool
  | fin _ m => decide (m % 2 ^ dropBits m = 0) && decide (m < ovf)
  | _ => true

/-- Whether a value is finite (function `math.IsInf` and `math.IsNaN` both false). -/
def isFinite : F64 → Bool
  | fin _ _ => true
  | _ => false

/-- The value of a finite `float64` as a whole number of units `2^-1074`
(zero for NaN and the infinities). -/
def units : F64 → Int
  | fin s m => sval s m
  | _ => 0

end F64


instance : Add F64 := ⟨F64.add⟩
instance : Sub F64 := ⟨F64.sub⟩
instance : Mul F64 := ⟨F64.mul⟩
instance : Div F64 := ⟨F64.div⟩
instance : Neg F64 := ⟨F64.neg⟩
instance (n : Nat) : OfNat F64 n := ⟨F64.ofNat n⟩
instance : OfScientific F64 :=
  ⟨fun m s e => if s then F64.lit m (10 ^ e) else F64.ofNat (m * 10 ^ e)⟩

/-! ## Definitions: `math.Pow(x, 2)` of the Go standard library -/

namespace F64

/-- Function `math.Frexp`: `x = frac × 2^exp` with `1/2 ≤ |frac| < 1`; zero,
infinities and NaN come back with exponent 0. -/
def frexp (x : F64) : F64 × Int :=
  match x with
  | fin s m =>
    if m = 0 then (x, 0)
    else
      let b := ilog2 m + 1
      (fin s (m * one_u / 2 ^ b), (b : Int) - 1074)
  | _ => (x, 0)

/-- Function `math.Ldexp`: `frac × 2^exp`, rounded once where the result is
subnormal, infinite on overflow. -/
def ldexp (frac : F64) (exp : Int) : F64 :=
  match frac with
  | fin s m =>
    if m = 0 then frac
    else if 0 ≤ exp then mk s (m * 2 ^ exp.toNat) 1
    else mk s m (2 ^ (-exp).toNat)
  | _ => frac

/-- The call `math.Pow(x, 2)`, along the path it takes through `math/pow.go`
of the Go standard library.  The special cases return `1` at `x = 1`, NaN at
NaN, `+0` at a zero and `+Inf` at an infinity.  Otherwise `Frexp` splits `x`
into a fraction `x1` and an exponent `xe`; the loop over the bits of the
exponent 2 squares the fraction (`x1 *= x1`, `xe <<= 1`, and `x1 += x1`,
`xe--` when `x1 < .5`), takes it as the answer (`a1 *= x1`, `ae += xe`), and
`Ldexp(a1, ae)` scales it back.  The square of the fraction is rounded to 53
bits, and `Ldexp` rounds again when the result is subnormal. -/
def pow2 (x : F64) : F64 :=
  match x with
  | nan => nan
  | inf _ => inf false
  | fin s m =>
    if m = 0 then fin false 0
    else if eq x 1 then 1
    else
      let a1 : F64 := 1.0
      let ae : Int := 0
      let x1 := (frexp x).1
      let xe := (frexp x).2
      let x1 := x1 * x1
      let xe := 2 * xe
      let xe := if lt x1 0.5 then xe - 1 else xe
      let x1 := if lt x1 0.5 then x1 + x1 else x1
      let a1 := a1 * x1
      let ae := ae + xe
      ldexp a1 ae

/-- Whether the square of a value is zero, infinite, NaN or at least `2^-1022`
(a normal number): the value is not finite, or its magnitude is zero or at
least `2^-511`, which is `2^563` units. -/
def squareIsNormal : F64 → Bool
  | fin _ m => decide (m = 0 ∨ 2 ^ 563 ≤ m)
  | _ => true

end F64


/-! ## Definitions: `tools/benchmark/metrics.go` -/

/-- One sample (`PerformanceMetric`); `Timestamp` is in nanoseconds. -/
structure PerformanceMetric where
  Timestamp : Int
  ComponentName : String
  ComponentType : String
  TestScenario : String
  FPS : F64
  MemoryUsageMB : F64
  MemoryAllocMB : F64
  NumGC : Nat
  GCTimeMS : F64
  CPUPercent : F64
  RenderTimeMS : F64
  UpdateTimeMS : F64
  Goroutines : Int
  NumCores : Int
deriving DecidableEq, Repr

/-- Type `SystemInfo`. -/
structure SystemInfo where
  GoVersion : String
  NumCPU : Int
  GOOS : String
  GOARCH : String
deriving DecidableEq, Repr

/-- Type `TestConfig`; the two durations are in nanoseconds. -/
structure TestConfig where
  SampleInterval : Int
  RecordingLength : Int
  TestName : String
  OutputPath : String
deriving DecidableEq, Repr

/-- Function `NewPerformanceMetric`; `now` is the reading of `time.Now()`, and
the fields it does not set have their zero value. -/
def NewPerformanceMetric (componentName componentType scenario : String) (now : Int) :
    PerformanceMetric :=
  { Timestamp := now, ComponentName := componentName, ComponentType := componentType,
    TestScenario := scenario, FPS := 0, MemoryUsageMB := 0, MemoryAllocMB := 0, NumGC := 0,
    GCTimeMS := 0, CPUPercent := 0, RenderTimeMS := 0, UpdateTimeMS := 0, Goroutines := 0,
    NumCores := 0 }

/-! ## Definitions: `tools/benchmark/utils.go` -/

/-- The map `calculateStatistics` returns, keys `avg`, `min`, `max`, `std`, `cv`. -/
structure Stats where
  avg : F64
  min : F64
  max : F64
  std : F64
  cv : F64
deriving DecidableEq, Repr

/-- Variables `sum`, `min`, `max` of the first loop of `calculateStatistics`. -/
structure StatsAcc where
  sum : F64
  min : F64
  max : F64
deriving DecidableEq, Repr

/-- Body of the first loop of `calculateStatistics`. -/
def statsStep (a : StatsAcc) (v : F64) : StatsAcc :=
  { sum := a.sum + v
    min := if F64.lt v a.min then v else a.min
    max := if F64.gt v a.max then v else a.max }

/-- Body of the second loop of `calculateStatistics`. -/
def varianceStep (avg : F64) (variance v : F64) : F64 :=
  let diff := v - avg
  variance + diff * diff

/-- Function `calculateStatistics`; `none` is the nil map. -/
def calculateStatistics (values : List F64) : Option Stats :=
  if values.length = 0 then none
  else
    let a := values.foldl statsStep { sum := 0, min := F64.maxFloat64, max := 0 }
    let avg := a.sum / F64.ofNat values.length
    let variance := values.foldl (varianceStep avg) 0
    let variance := variance / F64.ofNat values.length
    let std := F64.sqrt variance
    let cv := if F64.ne avg 0 then (std / avg) * 100 else 0.0
    some
      { avg := F64.round (avg * 100) / 100
        min := F64.round (a.min * 100) / 100
        max := F64.round (a.max * 100) / 100
        std := F64.round (std * 100) / 100
        cv := F64.round (cv * 100) / 100 }

/-- Reading key `k` of a statistics map: a nil map reads as zero. -/
def statsGet (m : Option Stats) (k : Stats → F64) : F64 :=
  match m with
  | some s => k s
  | none => 0

/-- The map `calculateComponentSummary` returns, one field a key. -/
structure Summary where
  component_type : String
  sample_count : Nat
  fps_avg : F64
  fps_min : F64
  fps_max : F64
  fps_std : F64
  fps_cv : F64
  memory_avg : F64
  memory_min : F64
  memory_max : F64
  memory_std : F64
  memory_cv : F64
  cpu_avg : F64
  cpu_min : F64
  cpu_max : F64
  cpu_std : F64
  cpu_cv : F64
  render_time_avg : F64
deriving DecidableEq, Repr

/-- Variables `fpsValues`, `memoryValues`, `cpuValues`, `totalRenderTime` of
the loop of `calculateComponentSummary`. -/
structure SeriesAcc where
  fpsValues : List F64
  memoryValues : List F64
  cpuValues : List F64
  totalRenderTime : F64
deriving DecidableEq, Repr

/-- Body of the loop of `calculateComponentSummary`. -/
def seriesStep (a : SeriesAcc) (metric : PerformanceMetric) : SeriesAcc :=
  { fpsValues := a.fpsValues ++ [metric.FPS]
    memoryValues := a.memoryValues ++ [metric.MemoryUsageMB]
    cpuValues := a.cpuValues ++ [metric.CPUPercent]
    totalRenderTime := a.totalRenderTime + metric.RenderTimeMS }

/-- Function `calculateComponentSummary`; `none` is the nil map. -/
def calculateComponentSummary (metrics : List PerformanceMetric) (componentType : String) :
    Option Summary :=
  if metrics.length = 0 then none
  else
    let a := metrics.foldl seriesStep
      { fpsValues := [], memoryValues := [], cpuValues := [], totalRenderTime := 0 }
    let fpsStats := calculateStatistics a.fpsValues
    let memoryStats := calculateStatistics a.memoryValues
    let cpuStats := calculateStatistics a.cpuValues
    let avgRenderTime := a.totalRenderTime / F64.ofNat metrics.length
    some
      { component_type := componentType
        sample_count := metrics.length
        fps_avg := statsGet fpsStats Stats.avg
        fps_min := statsGet fpsStats Stats.min
        fps_max := statsGet fpsStats Stats.max
        fps_std := statsGet fpsStats Stats.std
        fps_cv := statsGet fpsStats Stats.cv
        memory_avg := statsGet memoryStats Stats.avg
        memory_min := statsGet memoryStats Stats.min
        memory_max := statsGet memoryStats Stats.max
        memory_std := statsGet memoryStats Stats.std
        memory_cv := statsGet memoryStats Stats.cv
        cpu_avg := statsGet cpuStats Stats.avg
        cpu_min := statsGet cpuStats Stats.min
        cpu_max := statsGet cpuStats Stats.max
        cpu_std := statsGet cpuStats Stats.std
        cpu_cv := statsGet cpuStats Stats.cv
        render_time_avg := avgRenderTime }

/-- Function `calculatePerformanceScore`. -/
def calculatePerformanceScore (fpsRatio memoryRatio cpuRatio fpsCV memoryCV cpuCV : F64) : F64 :=
  let fpsScore := if F64.ge fpsRatio 1.0 then 100 else fpsRatio * 100
  let memoryScore := if F64.le memoryRatio 1.0 then 100 else (1.0 / memoryRatio) * 100
  let cpuScore := if F64.le cpuRatio 1.0 then 100 else (1.0 / cpuRatio) * 100
  let stabilityPenalty := (fpsCV * 0.5) + (memoryCV * 0.3) + (cpuCV * 0.2)
  let totalScore := (fpsScore * 0.3) + (memoryScore * 0.3) + (cpuScore * 0.4) - stabilityPenalty
  let totalScore := if F64.lt totalScore 0 then 0 else totalScore
  let totalScore := if F64.gt totalScore 100 then 100 else totalScore
  F64.round (totalScore * 10) / 10

/-- Function `calculateConfidenceLevel`. -/
def calculateConfidenceLevel (diffPercent cv : F64) : String :=
  if F64.eq cv 0 then "high"
  else
    let ratio := diffPercent / cv
    if F64.ge ratio 3 then "very high"
    else if F64.ge ratio 2 then "high"
    else if F64.ge ratio 1 then "medium"
    else "low"

/-- The map `analyzeSignificance` returns. -/
structure Significance where
  fps_significant : Bool
  memory_significant : Bool
  cpu_significant : Bool
  fps_confidence : String
  memory_confidence : String
  cpu_confidence : String
deriving DecidableEq, Repr

/-- Function `analyzeSignificance` (it reads the custom summary only). -/
def analyzeSignificance (customSummary nativeSummary : Summary)
    (fpsDiffPercent memoryDiffPercent cpuDiffPercent : F64) : Significance :=
  let customFPSCV := customSummary.fps_cv
  let customMemoryCV := customSummary.memory_cv
  let customCPUCV := customSummary.cpu_cv
  let isFPSSignificant := F64.gt (F64.abs fpsDiffPercent) (customFPSCV * 2)
  let isMemorySignificant := F64.gt (F64.abs memoryDiffPercent) (customMemoryCV * 2)
  let isCPUSignificant := F64.gt (F64.abs cpuDiffPercent) (customCPUCV * 2)
  { fps_significant := isFPSSignificant
    memory_significant := isMemorySignificant
    cpu_significant := isCPUSignificant
    fps_confidence := calculateConfidenceLevel (F64.abs fpsDiffPercent) customFPSCV
    memory_confidence := calculateConfidenceLevel (F64.abs memoryDiffPercent) customMemoryCV
    cpu_confidence := calculateConfidenceLevel (F64.abs cpuDiffPercent) customCPUCV }

/-- The map `classifyPerformance` returns. -/
structure Category where
  fps : String
  memory : String
  cpu : String
deriving DecidableEq, Repr

/-- Function `classifyPerformance` (the three ratios are not read). -/
def classifyPerformance (fpsRatio memoryRatio cpuRatio
    fpsDiffPercent memoryDiffPercent cpuDiffPercent : F64) : Category :=
  let fpsCategory :=
    if F64.ge fpsDiffPercent 10 then "excellent"
    else if F64.ge fpsDiffPercent 0 then "good"
    else if F64.ge fpsDiffPercent (-10) then "acceptable"
    else if F64.ge fpsDiffPercent (-30) then "poor"
    else "bad"
  let memoryCategory :=
    if F64.le memoryDiffPercent (-10) then "excellent"
    else if F64.le memoryDiffPercent 0 then "good"
    else if F64.le memoryDiffPercent 20 then "acceptable"
    else if F64.le memoryDiffPercent 50 then "poor"
    else "bad"
  let cpuCategory :=
    if F64.le cpuDiffPercent (-10) then "excellent"
    else if F64.le cpuDiffPercent 0 then "good"
    else if F64.le cpuDiffPercent 20 then "acceptable"
    else if F64.le cpuDiffPercent 50 then "poor"
    else "bad"
  { fps := fpsCategory, memory := memoryCategory, cpu := cpuCategory }

/-- The map `scientificComparison` returns. -/
structure Comparison where
  fps_ratio : F64
  memory_ratio : F64
  cpu_ratio : F64
  fps_diff_percent : F64
  memory_diff_percent : F64
  cpu_diff_percent : F64
  performance_score : F64
  significance : Significance
  performance_category : Category
deriving DecidableEq, Repr

/-- Function `scientificComparison`; `none` is the nil map. -/
def scientificComparison (customSummary nativeSummary : Option Summary) : Option Comparison :=
  match customSummary, nativeSummary with
  | some customSummary, some nativeSummary =>
    let customFPSAvg := customSummary.fps_avg
    let customMemoryAvg := customSummary.memory_avg
    let customCPUAvg := customSummary.cpu_avg
    let nativeFPSAvg := nativeSummary.fps_avg
    let nativeMemoryAvg := nativeSummary.memory_avg
    let nativeCPUAvg := nativeSummary.cpu_avg
    let fpsRatio := customFPSAvg / nativeFPSAvg
    let memoryRatio := customMemoryAvg / nativeMemoryAvg
    let cpuRatio := customCPUAvg / nativeCPUAvg
    let fpsDiffPercent := (customFPSAvg - nativeFPSAvg) / nativeFPSAvg * 100
    let memoryDiffPercent := (customMemoryAvg - nativeMemoryAvg) / nativeMemoryAvg * 100
    let cpuDiffPercent := (customCPUAvg - nativeCPUAvg) / nativeCPUAvg * 100
    let performanceScore := calculatePerformanceScore fpsRatio memoryRatio cpuRatio
      customSummary.fps_cv customSummary.memory_cv customSummary.cpu_cv
    let significance := analyzeSignificance customSummary nativeSummary
      fpsDiffPercent memoryDiffPercent cpuDiffPercent
    some
      { fps_ratio := F64.round (fpsRatio * 1000) / 1000
        memory_ratio := F64.round (memoryRatio * 1000) / 1000
        cpu_ratio := F64.round (cpuRatio * 1000) / 1000
        fps_diff_percent := F64.round (fpsDiffPercent * 100) / 100
        memory_diff_percent := F64.round (memoryDiffPercent * 100) / 100
        cpu_diff_percent := F64.round (cpuDiffPercent * 100) / 100
        performance_score := performanceScore
        significance := significance
        performance_category := classifyPerformance fpsRatio memoryRatio cpuRatio
          fpsDiffPercent memoryDiffPercent cpuDiffPercent }
  | _, _ => none

/-- The text `generateConclusion` returns, kept as the template chosen and the
values formatted into it. -/
inductive Conclusion where
  | insufficientData : Conclusion
  | excellent (score : F64) : Conclusion
  | good (score : F64) (fpsCategory memoryCategory cpuCategory : String) : Conclusion
  | fair (score fpsDiffPercent memoryDiffPercent cpuDiffPercent : F64) : Conclusion
  | poor (score : F64) : Conclusion
deriving DecidableEq, Repr

/-- Function `generateConclusion`. -/
def generateConclusion (comparison : Option Comparison) : Conclusion :=
  match comparison with
  | none => Conclusion.insufficientData
  | some comparison =>
    let performanceScore := comparison.performance_score
    if F64.ge performanceScore 90 then Conclusion.excellent performanceScore
    else if F64.ge performanceScore 80 then
      Conclusion.good performanceScore comparison.performance_category.fps
        comparison.performance_category.memory comparison.performance_category.cpu
    else if F64.ge performanceScore 70 then
      Conclusion.fair performanceScore comparison.fps_diff_percent
        comparison.memory_diff_percent comparison.cpu_diff_percent
    else Conclusion.poor performanceScore

/-- Type `ComponentComparison`. -/
structure ComponentComparison where
  CustomMetrics : List PerformanceMetric
  NativeMetrics : List PerformanceMetric
  CustomSummary : Option Summary
  NativeSummary : Option Summary
  Comparison : Option Comparison
  Conclusion : Conclusion
deriving DecidableEq, Repr

/-- Function `CompareComponents`; `none` is the nil result. -/
def CompareComponents (customMetrics nativeMetrics : List PerformanceMetric) :
    Option ComponentComparison :=
  if customMetrics.length = 0 ∨ nativeMetrics.length = 0 then none
  else
    let customSummary := calculateComponentSummary customMetrics "custom"
    let nativeSummary := calculateComponentSummary nativeMetrics "native"
    let comparison := scientificComparison customSummary nativeSummary
    let conclusion := generateConclusion comparison
    some
      { CustomMetrics := customMetrics
        NativeMetrics := nativeMetrics
        CustomSummary := customSummary
        NativeSummary := nativeSummary
        Comparison := comparison
        Conclusion := conclusion }

/-! ## Definitions: the statistics as the specification words them -/

/-- Sum of a series, accumulated left to right from zero. -/
def seriesSum (values : List F64) : F64 := values.foldl (fun s v => s + v) 0

/-- Arithmetic mean `sum / N`. -/
def seriesMean (values : List F64) : F64 := seriesSum values / F64.ofNat values.length

/-- Population variance: the sum of the squared deviations from the mean,
divided by `N`. -/
def populationVariance (values : List F64) : F64 :=
  seriesSum (values.map fun v => (v - seriesMean values) * (v - seriesMean values))
    / F64.ofNat values.length

/-- Rounding to 2 decimals, `math.Round(x*100) / 100`. -/
def round2 (x : F64) : F64 := F64.round (x * 100) / 100

/-- The margin `2^-11 = 0.00048828125`: the mean of `N ≤ 2^31` copies of a
value `c` with `N × |c| ≤ 2^40` lies within this margin of `c`. -/
def roundingMargin : F64 := 0.00048828125

/-- Rounding to 3 decimals, `math.Round(x*1000) / 1000`. -/
def round3 (x : F64) : F64 := F64.round (x * 1000) / 1000

/-- Rounding to 1 decimal, `math.Round(x*10) / 10`. -/
def round1 (x : F64) : F64 := F64.round (x * 10) / 10


/-! ## Definitions: the composite score as the specification words it -/

/-- Sub-score of a ratio where higher is better (FPS): 100 if the ratio is at
least 1, else `ratio × 100`. -/
def higherIsBetterScore (ratio : F64) : F64 :=
  if F64.ge ratio 1 then 100 else ratio * 100

/-- Sub-score of a ratio where lower is better (memory, CPU): 100 if the ratio
is at most 1, else `(1 / ratio) × 100`. -/
def lowerIsBetterScore (ratio : F64) : F64 :=
  if F64.le ratio 1 then 100 else 1 / ratio * 100

/-- Stability penalty `0.5 × fpsCV + 0.3 × memoryCV + 0.2 × cpuCV`. -/
def stabilityPenaltySpec (fpsCV memoryCV cpuCV : F64) : F64 :=
  0.5 * fpsCV + 0.3 * memoryCV + 0.2 * cpuCV

/-- Clamping to `[0, 100]`. -/
def clamp0to100 (x : F64) : F64 :=
  if F64.lt x 0 then 0 else if F64.gt x 100 then 100 else x

/-- Composite score: the weighted sum of the sub-scores minus the stability
penalty, clamped to `[0, 100]` and rounded to 1 decimal. -/
def performanceScoreSpec (fpsRatio memoryRatio cpuRatio fpsCV memoryCV cpuCV : F64) : F64 :=
  round1 (clamp0to100
    (0.3 * higherIsBetterScore fpsRatio + 0.3 * lowerIsBetterScore memoryRatio
      + 0.4 * lowerIsBetterScore cpuRatio - stabilityPenaltySpec fpsCV memoryCV cpuCV))

/-! ## Definitions: sample inputs -/

/-- A sample at 60 FPS and 10 MB with an idle CPU (`CPUPercent = 0`). -/
def idleSample : PerformanceMetric :=
  { Timestamp := 0, ComponentName := "Button", ComponentType := "custom",
    TestScenario := "static_render", FPS := 60, MemoryUsageMB := 10, MemoryAllocMB := 10,
    NumGC := 0, GCTimeMS := 0, CPUPercent := 0, RenderTimeMS := 16, UpdateTimeMS := 5,
    Goroutines := 4, NumCores := 8 }

/-- A sample at 60 FPS, 10 MB and 25 % CPU. -/
def busySample : PerformanceMetric :=
  { Timestamp := 0, ComponentName := "Button", ComponentType := "custom",
    TestScenario := "static_render", FPS := 60, MemoryUsageMB := 10, MemoryAllocMB := 10,
    NumGC := 0, GCTimeMS := 0, CPUPercent := 25, RenderTimeMS := 16, UpdateTimeMS := 5,
    Goroutines := 4, NumCores := 8 }

/-- A summary whose FPS coefficient of variation is 2.72; the other fields
are zero. -/
def sampleSummary : Summary :=
  { component_type := "custom", sample_count := 3,
    fps_avg := 0, fps_min := 0, fps_max := 0, fps_std := 0, fps_cv := 2.72,
    memory_avg := 0, memory_min := 0, memory_max := 0, memory_std := 0, memory_cv := 0,
    cpu_avg := 0, cpu_min := 0, cpu_max := 0, cpu_std := 0, cpu_cv := 0,
    render_time_avg := 0 }

/-! ## Definitions: `tools/benchmark/fps_calculator.go`

A `time.Time` is its reading of the monotonic clock in nanoseconds and a
`time.Duration` a number of nanoseconds; every call of `time.Now()` is an
argument of the function that makes it, in the order of the calls. -/

/-- The constant `time.Second`. -/
def Second : Int := 1000000000

/-- Type `FPSCalculator` (without its lock); `maxSamples` is a Go `int` that
`make` requires to be non-negative. -/
structure FPSCalculator where
  frameTimes : List Int
  maxSamples : Nat
  lastFPS : F64
  lastUpdate : Int
deriving DecidableEq, Repr

/-- Function `NewFPSCalculator`; `now` is the reading of `time.Now()`. -/
def NewFPSCalculator (maxSamples : Nat) (now : Int) : FPSCalculator :=
  { frameTimes := [], maxSamples := maxSamples, lastFPS := 60.0, lastUpdate := now }

/-- The loop of `calculateFPS`, from the newest timestamp (the head of
`newestFirst`) backwards: it counts the timestamps after `oneSecondAgo` and
stops at the first that is not. -/
def countFromNewest (oneSecondAgo : Int) : List Int → Nat
  | [] => 0
  | t :: older => if t > oneSecondAgo then countFromNewest oneSecondAgo older + 1 else 0

/-- Method `calculateFPS`; `now` is the reading of `time.Now()`. -/
def FPSCalculator.calculateFPS (f : FPSCalculator) (now : Int) : FPSCalculator :=
  if f.frameTimes.length < 2 then f
  else
    let oneSecondAgo := now + -Second
    let count := countFromNewest oneSecondAgo f.frameTimes.reverse
    if count > 0 then { f with lastFPS := F64.ofNat count } else f

/-- Method `FPSCalculator.AddFrame`; `now` is its reading of `time.Now()` and
`calcNow` the one `calculateFPS` makes when it is called. -/
def FPSCalculator.AddFrame (f : FPSCalculator) (now calcNow : Int) : FPSCalculator :=
  let f := { f with frameTimes := f.frameTimes ++ [now] }
  let f := if f.frameTimes.length > f.maxSamples
    then { f with frameTimes := f.frameTimes.drop 1 } else f
  if now - f.lastUpdate ≥ Second then
    { f.calculateFPS calcNow with lastUpdate := now }
  else f

/-- Method `GetFPS`: the value returned and the calculator afterwards;
`sinceNow` is the clock reading of `time.Since`, `calcNow` the one of
`calculateFPS` and `updateNow` the one stored in `lastUpdate`. -/
def FPSCalculator.GetFPS (f : FPSCalculator) (sinceNow calcNow updateNow : Int) :
    F64 × FPSCalculator :=
  let f := if sinceNow - f.lastUpdate > 2 * Second then
      { f.calculateFPS calcNow with lastUpdate := updateNow }
    else f
  (f.lastFPS, f)

/-- Method `FPSCalculator.Reset`; `now` is the reading of `time.Now()`. -/
def FPSCalculator.Reset (f : FPSCalculator) (now : Int) : FPSCalculator :=
  { f with frameTimes := [], lastFPS := 60.0, lastUpdate := now }

/-- The clock readings of one `AddFrame` call: `now`, then the reading inside
`calculateFPS`. -/
structure AddFrameClock where
  now : Int
  calcNow : Int
deriving DecidableEq, Repr

/-- A sequence of `AddFrame` calls, one clock record a call. -/
def FPSCalculator.addFrames (f : FPSCalculator) (calls : List AddFrameClock) : FPSCalculator :=
  calls.foldl (fun f c => f.AddFrame c.now c.calcNow) f

/-- The clock readings of one `GetFPS` call. -/
structure GetFPSClock where
  sinceNow : Int
  calcNow : Int
  updateNow : Int
deriving DecidableEq, Repr

/-- A sequence of `GetFPS` calls: the values returned, in call order, and the
calculator afterwards. -/
def FPSCalculator.getFPSs (f : FPSCalculator) : List GetFPSClock → List F64 × FPSCalculator
  | [] => ([], f)
  | c :: rest =>
    let r := f.GetFPS c.sinceNow c.calcNow c.updateNow
    let rs := FPSCalculator.getFPSs r.2 rest
    (r.1 :: rs.1, rs.2)

/-- A call of `AddFrame`, `GetFPS` or `Reset` with its clock readings. -/
inductive FPSCall where
  | addFrame (c : AddFrameClock) : FPSCall
  | getFPS (c : GetFPSClock) : FPSCall
  | reset (now : Int) : FPSCall
deriving DecidableEq, Repr

/-- The calculator after one call. -/
def FPSCalculator.call (f : FPSCalculator) : FPSCall → FPSCalculator
  | FPSCall.addFrame c => f.AddFrame c.now c.calcNow
  | FPSCall.getFPS c => (f.GetFPS c.sinceNow c.calcNow c.updateNow).2
  | FPSCall.reset now => f.Reset now

/-- The calculator after a sequence of calls. -/
def FPSCalculator.calls (f : FPSCalculator) (cs : List FPSCall) : FPSCalculator :=
  cs.foldl FPSCalculator.call f

/-! ## Definitions: `tools/benchmark/monitor.go` -/

/-- The fields of `runtime.MemStats` the package reads. -/
structure MemStats where
  Alloc : Nat
  TotalAlloc : Nat
  NumGC : Nat
  PauseTotalNs : Nat
deriving DecidableEq, Repr

/-- Type `Monitor` (without its lock).  The channel `stopChan` is kept as
whether it has been closed, the goroutines started by `go m.monitoringLoop()`
as their number, `proc` as the process id when the handle was obtained. -/
structure Monitor where
  isRunning : Bool
  stopChanClosed : Bool
  monitoringLoops : Nat
  metrics : List PerformanceMetric
  currentTestName : String
  currentScenario : String
  componentName : String
  componentType : String
  fpsCalculator : FPSCalculator
  lastMemStats : MemStats
  proc : Option Int
  lastCPUPercent : F64
  startTime : Int
  totalFrames : Int
  lastFrameTime : Int
  config : TestConfig
  systemInfo : SystemInfo
deriving DecidableEq, Repr

/-- What `NewMonitor` reads from its environment: the system information, the
process id and whether `process.NewProcess` found the process, and the three
readings of `time.Now()` in call order. -/
structure NewMonitorEnv where
  systemInfo : SystemInfo
  pid : Int
  procFound : Bool
  fpsNow : Int
  startNow : Int
  frameNow : Int
deriving DecidableEq, Repr

/-- Function `NewMonitor`. -/
def NewMonitor (testName : String) (env : NewMonitorEnv) : Monitor :=
  { isRunning := false
    stopChanClosed := false
    monitoringLoops := 0
    metrics := []
    currentTestName := testName
    currentScenario := ""
    componentName := ""
    componentType := ""
    fpsCalculator := NewFPSCalculator 120 env.fpsNow
    lastMemStats := { Alloc := 0, TotalAlloc := 0, NumGC := 0, PauseTotalNs := 0 }
    proc := if env.procFound then some env.pid else none
    lastCPUPercent := 0
    startTime := env.startNow
    totalFrames := 0
    lastFrameTime := env.frameNow
    config :=
      { SampleInterval := 100 * 1000000
        RecordingLength := 5 * Second
        TestName := testName
        OutputPath := "./benchmark_results" }
    systemInfo := env.systemInfo }

/-- What `Start` reads from its environment, in call order: `time.Now()`,
`runtime.ReadMemStats`, the `time.Now()` of `fpsCalculator.Reset`, and the
result of `proc.CPUPercent()` (`none` when it returns an error). -/
structure StartEnv where
  now : Int
  memStats : MemStats
  resetNow : Int
  cpuPercent : Option F64
deriving DecidableEq, Repr

/-- Method `Start`. -/
def Monitor.Start (m : Monitor) (env : StartEnv) : Monitor :=
  if m.isRunning then m
  else
    let m := { m with isRunning := true, metrics := [], startTime := env.now, totalFrames := 0 }
    let m := { m with lastMemStats := env.memStats }
    let m := { m with fpsCalculator := m.fpsCalculator.Reset env.resetNow }
    let m :=
      match m.proc, env.cpuPercent with
      | some _, some percent => { m with lastCPUPercent := percent }
      | _, _ => m
    { m with monitoringLoops := m.monitoringLoops + 1 }

/-- Method `Stop`; closing a channel that is closed already panics. -/
def Monitor.Stop (m : Monitor) : Except String Monitor :=
  if !m.isRunning then Except.ok m
  else
    let m := { m with isRunning := false }
    if m.stopChanClosed then Except.error "close of closed channel"
    else Except.ok { m with stopChanClosed := true }

/-- A call of `Start` or `Stop`. -/
inductive MonitorCall where
  | start (env : StartEnv) : MonitorCall
  | stop : MonitorCall
deriving DecidableEq, Repr

/-- A sequence of `Start` and `Stop` calls on one Monitor; it ends at the
first call that panics. -/
def Monitor.calls (m : Monitor) : List MonitorCall → Except String Monitor
  | [] => Except.ok m
  | MonitorCall.start env :: rest => Monitor.calls (m.Start env) rest
  | MonitorCall.stop :: rest =>
    match m.Stop with
    | Except.ok m' => Monitor.calls m' rest
    | Except.error e => Except.error e

/-- Method `Duration.Seconds` of package `time`: the whole seconds and the
remaining nanoseconds (division truncating towards zero), converted and added. -/
def Seconds (d : Int) : F64 :=
  F64.ofInt (d.tdiv Second) + F64.ofInt (d.tmod Second) / 1e9

/-- Method `estimateCPUPercent`; `currentMemStats` is what its
`runtime.ReadMemStats` reads.  The difference of the two `uint64` pause
totals wraps modulo `2^64`. -/
def Monitor.estimateCPUPercent (m : Monitor) (currentMemStats : MemStats) : F64 :=
  let gcPauseDiff :=
    F64.ofNat ((currentMemStats.PauseTotalNs + (2 ^ 64 - m.lastMemStats.PauseTotalNs % 2 ^ 64))
      % 2 ^ 64) / 1000000000
  let estimatedCPUTime := gcPauseDiff * 10
  let timeInterval : F64 := 0.1
  let cpuPercent := (estimatedCPUTime / timeInterval) * 100
  let cpuPercent := if F64.lt cpuPercent 0 then 0 else cpuPercent
  let cpuPercent := if F64.gt cpuPercent 100 then 100 else cpuPercent
  cpuPercent

/-- What `collectRealMetrics` reads from its environment, in call order:
`time.Now()`, `runtime.ReadMemStats`, the clock readings of `GetFPS`, the
result of `proc.CPUPercent()` (`none` when it returns an error), what
`runtime.ReadMemStats` reads inside `estimateCPUPercent`,
`runtime.NumGoroutine()` and `runtime.NumCPU()`. -/
structure CollectEnv where
  now : Int
  memStats : MemStats
  fps : GetFPSClock
  cpuPercent : Option F64
  estimateMemStats : MemStats
  goroutines : Int
  numCPU : Int
deriving DecidableEq, Repr

/-- Method `collectRealMetrics`: the metric filled in and the Monitor
afterwards.  The fields assigned to `metric` are kept as local values, written
into the metric at the end; `cpu` is the pair of the value read for
`metric.CPUPercent` and of `m.lastCPUPercent` after the read. -/
def Monitor.collectRealMetrics (m : Monitor) (metric : PerformanceMetric) (env : CollectEnv) :
    PerformanceMetric × Monitor :=
  let now := env.now
  let memStats := env.memStats
  let memoryUsageMB := F64.ofNat memStats.Alloc / 1024 / 1024
  let memoryAllocMB := F64.ofNat memStats.TotalAlloc / 1024 / 1024
  let numGC := memStats.NumGC
  let gcTimeMS := F64.ofNat memStats.PauseTotalNs / 1000000
  let r := m.fpsCalculator.GetFPS env.fps.sinceNow env.fps.calcNow env.fps.updateNow
  let currentFPS := r.1
  let currentFPS :=
    if F64.le currentFPS 0 && decide (m.totalFrames > 0) then
      let elapsed := Seconds (now - m.startTime)
      if F64.gt elapsed 0.1 then F64.ofInt m.totalFrames / elapsed else currentFPS
    else currentFPS
  let currentFPS := if F64.lt currentFPS 0.1 then 0.1 else currentFPS
  let fps := currentFPS
  let cpu : F64 × F64 :=
    match m.proc, env.cpuPercent with
    | some _, some cpuPercent => (cpuPercent, cpuPercent)
    | some _, none => (m.lastCPUPercent, m.lastCPUPercent)
    | none, _ => (m.estimateCPUPercent env.estimateMemStats, m.lastCPUPercent)
  let cpuPercent := cpu.1
  let cpuPercent := if F64.lt cpuPercent 0 then 0 else cpuPercent
  let cpuPercent := if F64.gt cpuPercent 100 then 100 else cpuPercent
  let renderTimeMS := if F64.gt fps 0 then 1000.0 / fps else 16.67
  let updateTimeMS := renderTimeMS * 0.3
  ({ metric with
      MemoryUsageMB := memoryUsageMB
      MemoryAllocMB := memoryAllocMB
      NumGC := numGC
      GCTimeMS := gcTimeMS
      FPS := fps
      CPUPercent := cpuPercent
      RenderTimeMS := renderTimeMS
      UpdateTimeMS := updateTimeMS
      Goroutines := env.goroutines
      NumCores := env.numCPU },
   { m with fpsCalculator := r.2, lastCPUPercent := cpu.2, lastMemStats := memStats })

/-- What a snapshot reads: the `time.Now()` of `NewPerformanceMetric`, then
the environment of `collectRealMetrics`. -/
structure SnapshotEnv where
  metricNow : Int
  collect : CollectEnv
deriving DecidableEq, Repr

/-- Method `recordSnapshot`. -/
def Monitor.recordSnapshot (m : Monitor) (env : SnapshotEnv) : Monitor :=
  let metric :=
    NewPerformanceMetric m.componentName m.componentType m.currentScenario env.metricNow
  let r := m.collectRealMetrics metric env.collect
  { r.2 with metrics := r.2.metrics ++ [r.1] }

/-- Method `recordMetrics`, what the sampling loop runs at each tick. -/
def Monitor.recordMetrics (m : Monitor) (env : SnapshotEnv) : Monitor :=
  if m.currentScenario == "" then m
  else
    let metric :=
      NewPerformanceMetric m.componentName m.componentType m.currentScenario env.metricNow
    let r := m.collectRealMetrics metric env.collect
    { r.2 with metrics := r.2.metrics ++ [r.1] }

/-- Method `StartRecording`; `now` is its reading of `time.Now()`. -/
def Monitor.StartRecording (m : Monitor) (componentName componentType scenario : String)
    (now : Int) (env : SnapshotEnv) : Monitor :=
  let m := { m with
    componentName := componentName, componentType := componentType, currentScenario := scenario }
  let m := { m with totalFrames := 0, startTime := now }
  m.recordSnapshot env

/-- Method `StopRecording`. -/
def Monitor.StopRecording (m : Monitor) (env : SnapshotEnv) : Monitor :=
  let m := m.recordSnapshot env
  { m with currentScenario := "" }

/-! ## Definitions: `CalculateSummary` of `tools/benchmark/monitor.go` -/

/-- The map `CalculateSummary` returns, one field a key. -/
structure MonitorSummary where
  test_name : String
  component_name : String
  component_type : String
  scenario : String
  avg_fps : F64
  min_fps : F64
  max_fps : F64
  fps_std_dev : F64
  avg_memory_mb : F64
  min_memory_mb : F64
  max_memory_mb : F64
  memory_std_dev : F64
  avg_cpu_percent : F64
  cpu_std_dev : F64
  total_samples : Nat
  duration_seconds : F64
  system_info : SystemInfo
  total_frames : Int
deriving DecidableEq, Repr

/-- Variables of the first loop of `CalculateSummary`. -/
structure SummaryAcc where
  totalFPS : F64
  totalMemory : F64
  totalCPU : F64
  minFPS : F64
  maxFPS : F64
  minMemory : F64
  maxMemory : F64
deriving DecidableEq, Repr

/-- Body of the first loop of `CalculateSummary`. -/
def summaryStep (a : SummaryAcc) (metric : PerformanceMetric) : SummaryAcc :=
  { totalFPS := a.totalFPS + metric.FPS
    totalMemory := a.totalMemory + metric.MemoryUsageMB
    totalCPU := a.totalCPU + metric.CPUPercent
    minFPS := if F64.lt metric.FPS a.minFPS then metric.FPS else a.minFPS
    maxFPS := if F64.gt metric.FPS a.maxFPS then metric.FPS else a.maxFPS
    minMemory := if F64.lt metric.MemoryUsageMB a.minMemory then metric.MemoryUsageMB
      else a.minMemory
    maxMemory := if F64.gt metric.MemoryUsageMB a.maxMemory then metric.MemoryUsageMB
      else a.maxMemory }

/-- Variables of the second loop of `CalculateSummary`. -/
structure SummaryVariance where
  fpsVariance : F64
  memoryVariance : F64
  cpuVariance : F64
deriving DecidableEq, Repr

/-- Body of the second loop of `CalculateSummary`. -/
def summaryVarianceStep (avgFPS avgMemory avgCPU : F64) (a : SummaryVariance)
    (metric : PerformanceMetric) : SummaryVariance :=
  { fpsVariance := a.fpsVariance + F64.pow2 (metric.FPS - avgFPS)
    memoryVariance := a.memoryVariance + F64.pow2 (metric.MemoryUsageMB - avgMemory)
    cpuVariance := a.cpuVariance + F64.pow2 (metric.CPUPercent - avgCPU) }

/-- Function `CalculateSummary`; `none` is the nil map and `now` the clock
reading of `time.Since`. -/
def CalculateSummary (metrics : List PerformanceMetric)
    (testName componentName componentType scenario : String) (startTime : Int)
    (systemInfo : SystemInfo) (totalFrames : Int) (now : Int) : Option MonitorSummary :=
  if metrics.length = 0 then none
  else
    let a := metrics.foldl summaryStep
      { totalFPS := 0, totalMemory := 0, totalCPU := 0, minFPS := F64.maxFloat64, maxFPS := 0,
        minMemory := F64.maxFloat64, maxMemory := 0 }
    let count := F64.ofNat metrics.length
    let avgFPS := a.totalFPS / count
    let avgMemory := a.totalMemory / count
    let avgCPU := a.totalCPU / count
    let v := metrics.foldl (summaryVarianceStep avgFPS avgMemory avgCPU)
      { fpsVariance := 0, memoryVariance := 0, cpuVariance := 0 }
    let fpsStdDev := F64.sqrt (v.fpsVariance / count)
    let memoryStdDev := F64.sqrt (v.memoryVariance / count)
    let cpuStdDev := F64.sqrt (v.cpuVariance / count)
    some
      { test_name := testName
        component_name := componentName
        component_type := componentType
        scenario := scenario
        avg_fps := F64.round (avgFPS * 100) / 100
        min_fps := F64.round (a.minFPS * 100) / 100
        max_fps := F64.round (a.maxFPS * 100) / 100
        fps_std_dev := F64.round (fpsStdDev * 100) / 100
        avg_memory_mb := F64.round (avgMemory * 100) / 100
        min_memory_mb := F64.round (a.minMemory * 100) / 100
        max_memory_mb := F64.round (a.maxMemory * 100) / 100
        memory_std_dev := F64.round (memoryStdDev * 100) / 100
        avg_cpu_percent := F64.round (avgCPU * 100) / 100
        cpu_std_dev := F64.round (cpuStdDev * 100) / 100
        total_samples := metrics.length
        duration_seconds := F64.round (Seconds (now - startTime) * 10) / 10
        system_info := systemInfo
        total_frames := totalFrames }

/-- Method `GetSummary`; `now` is the clock reading of `time.Since`. -/
def Monitor.GetSummary (m : Monitor) (now : Int) : Option MonitorSummary :=
  if m.metrics.length = 0 then none
  else CalculateSummary m.metrics m.currentTestName m.componentName m.componentType
    m.currentScenario m.startTime m.systemInfo m.totalFrames now


/-! ## Definitions: sample Monitor inputs -/

/-- A sample environment of `NewMonitor`: the process is found. -/
def sampleMonitorEnv : NewMonitorEnv :=
  { systemInfo := { GoVersion := "go1.21", NumCPU := 8, GOOS := "linux", GOARCH := "amd64" },
    pid := 1, procFound := true, fpsNow := 0, startNow := 0, frameNow := 0 }

/-- Sample memory statistics: 1 MB in use, 2 MB allocated, one collection of 1 ms. -/
def sampleMemStats : MemStats :=
  { Alloc := 1048576, TotalAlloc := 2097152, NumGC := 1, PauseTotalNs := 1000000 }

/-- A sample environment of `Start`: a CPU probe at 5 %. -/
def sampleStartEnv : StartEnv :=
  { now := 0, memStats := sampleMemStats, resetNow := 0, cpuPercent := some 5 }

/-- A sample environment of `collectRealMetrics`: all clocks at 0 and a CPU
probe at 5 %. -/
def sampleCollectEnv : CollectEnv :=
  { now := 0, memStats := sampleMemStats, fps := { sinceNow := 0, calcNow := 0, updateNow := 0 },
    cpuPercent := some 5, estimateMemStats := sampleMemStats, goroutines := 4, numCPU := 8 }

/-- A sample environment of a snapshot. -/
def sampleSnapshotEnv : SnapshotEnv := { metricNow := 0, collect := sampleCollectEnv }

/-- A freshly created Monitor after `Start`. -/
def sampleMonitor : Monitor := (NewMonitor "bench" sampleMonitorEnv).Start sampleStartEnv


/-! ## Definitions: sample series for the two summaries -/

/-- Magnitudes `(m, k)`, standing for `m × 2^k` units of `2^-1074`, of a
series of 45 deviations that grow from `2^-515` to `2.3`. -/
def growingMagnitudes : List (Nat × Nat) :=
  [(8028269367588295, 507), (1572373591472775, 512), (7700841647544249, 537),
   (6539548214412061, 551), (5688937979260303, 562), (8601990926080265, 573),
   (3772033403715125, 585), (8313755663848907, 596), (1910004573364455, 610),
   (8437424347914219, 618), (2436193614731287, 631), (1249743397230325, 643),
   (1611908407164499, 655), (1839457567316821, 668), (8516071074880041, 677),
   (8039104040121699, 688), (3422956927388963, 701), (4741408902767697, 713),
   (2438156915009929, 725), (1581086407210553, 737), (7222434407306077, 745),
   (40719954248161, 764), (3437652091046379, 770), (7628051588982307, 780),
   (5597564271373183, 792), (7665462349332661, 802), (4667185116504335, 813),
   (2259150402248263, 825), (7740241503133093, 837), (5753111332086111, 849),
   (4747802840711415, 863), (3686270899453969, 875), (3387730936614357, 886),
   (4594632160257129, 898), (241684034488723, 914), (8466353041026855, 921),
   (157356602656609, 938), (8031599788322017, 944), (3520000895939669, 956),
   (2908928451544819, 967), (194728367886289, 982), (5775933593948663, 989),
   (1795774891075941, 1001), (2427440526358495, 1012), (651426066407815, 1026)]

/-- A series of 90 metrics whose FPS values are the 45 magnitudes above, each
followed by its negative, so that every partial sum of an even number of
values is zero and the mean is zero; memory and CPU are constant. -/
def cancellingMetrics : List PerformanceMetric :=
  (growingMagnitudes.flatMap fun p =>
      [F64.fin false (p.1 * 2 ^ p.2), F64.fin true (p.1 * 2 ^ p.2)]).map
    fun v => { idleSample with FPS := v }

/-- Three samples with different FPS, memory and CPU values. -/
def variedSamples : List PerformanceMetric :=
  [{ idleSample with FPS := 58, MemoryUsageMB := 9 }, busySample,
    { busySample with FPS := 62, MemoryUsageMB := 12, CPUPercent := 50 }]


/-! ## Definitions: the frame window as the specification words it -/

/-- Number of the recorded timestamps that are newer than `oneSecondAgo`. -/
def recentCount (frameTimes : List Int) (oneSecondAgo : Int) : Nat :=
  (frameTimes.filter fun t => decide (t > oneSecondAgo)).length

/-- The most recent `n` entries of a list, oldest first. -/
def mostRecent (n : Nat) (recorded : List Int) : List Int :=
  recorded.drop (recorded.length - n)

/-! ## Definitions: a sample calculator -/

/-- One field of a CSV record. -/
inductive CSVField where
  /-- A string written as it is. -/
  | text (s : String) : CSVField
  /-- A time, `Format("2006-01-02 15:04:05.000")`. -/
  | time (t : Int) : CSVField
  /-- A float, `strconv.FormatFloat(x, 'f', 2, 64)`. -/
  | float2 (x : F64) : CSVField
  /-- An unsigned integer, `strconv.FormatUint(uint64(n), 10)`. -/
  | uint (n : Nat) : CSVField
  /-- A signed integer, `strconv.Itoa(i)`. -/
  | int (i : Int) : CSVField
deriving DecidableEq, Repr

/-- Type `CSVExporter`. -/
structure CSVExporter where
  outputDir : String
  filename : String
  includeHeader : Bool
deriving DecidableEq, Repr

/-- What `NewCSVExporter` reads from its environment: whether `os.MkdirAll`
succeeded, and `time.Now()` in the layout `20060102_150405`. -/
structure NewCSVExporterEnv where
  mkdirOk : Bool
  timestamp : String
deriving DecidableEq, Repr

/-- Function `NewCSVExporter`. -/
def NewCSVExporter (outputDir : String) (env : NewCSVExporterEnv) : CSVExporter :=
  let outputDir := if env.mkdirOk then outputDir else "."
  let filename := "benchmark_" ++ env.timestamp ++ ".csv"
  { outputDir := outputDir, filename := filename, includeHeader := true }

/-- What `ExportMetrics` meets in its environment: the error of `os.Create`,
if any, and the error the `k`-th successful-so-far call of `writer.Write`
returns, if any. -/
structure ExportEnv where
  createError : Option String
  writeError : Nat → Option String

/-- Method `Write` of the CSV writer; `written` are the records written so far. -/
def csvWrite (env : ExportEnv) (written : List (List CSVField)) (record : List CSVField) :
    Except String (List (List CSVField)) :=
  match env.writeError written.length with
  | some err => Except.error err
  | none => Except.ok (written ++ [record])

/-- The slice `headers` of `ExportMetrics`. -/
def CSVExporter.headers : List CSVField :=
  [CSVField.text "timestamp", CSVField.text "component_name", CSVField.text "component_type",
   CSVField.text "test_scenario", CSVField.text "fps", CSVField.text "memory_usage_mb",
   CSVField.text "memory_alloc_mb", CSVField.text "num_gc", CSVField.text "gc_time_ms",
   CSVField.text "cpu_percent", CSVField.text "render_time_ms", CSVField.text "update_time_ms",
   CSVField.text "goroutines", CSVField.text "num_cores"]

/-- The slice `record` that `ExportMetrics` builds for a metric. -/
def CSVExporter.record (metric : PerformanceMetric) : List CSVField :=
  [CSVField.time metric.Timestamp,
   CSVField.text metric.ComponentName,
   CSVField.text metric.ComponentType,
   CSVField.text metric.TestScenario,
   CSVField.float2 metric.FPS,
   CSVField.float2 metric.MemoryUsageMB,
   CSVField.float2 metric.MemoryAllocMB,
   CSVField.uint metric.NumGC,
   CSVField.float2 metric.GCTimeMS,
   CSVField.float2 metric.CPUPercent,
   CSVField.float2 metric.RenderTimeMS,
   CSVField.float2 metric.UpdateTimeMS,
   CSVField.int metric.Goroutines,
   CSVField.int metric.NumCores]

/-- The loop of `ExportMetrics` over the metrics. -/
def CSVExporter.writeRecords (env : ExportEnv) :
    List PerformanceMetric → List (List CSVField) → Except String (List (List CSVField))
  | [], written => Except.ok written
  | metric :: rest, written =>
    match csvWrite env written (CSVExporter.record metric) with
    | Except.error err => Except.error ("failed to write record: " ++ err)
    | Except.ok written => CSVExporter.writeRecords env rest written

/-- The loop writing the records of a summary section. -/
def CSVExporter.writeRows (env : ExportEnv) :
    List (List CSVField) → List (List CSVField) → Except String (List (List CSVField))
  | [], written => Except.ok written
  | row :: rest, written =>
    match csvWrite env written row with
    | Except.error err => Except.error err
    | Except.ok written => CSVExporter.writeRows env rest written

/-- Method `writeSummary`: the empty separator record, the title record, then
the records of the summary kind the payload selects.  Those records are read
from the payload here: `summaryRows` stands for what `writeComparisonSummary`,
`writeComparisonResult` or `writeRegularSummary` writes for it. -/
def CSVExporter.writeSummary (env : ExportEnv) (written : List (List CSVField))
    (summaryRows : List (List CSVField)) : Except String (List (List CSVField)) :=
  match csvWrite env written [] with
  | Except.error err => Except.error err
  | Except.ok written =>
    match csvWrite env written [CSVField.text "=== 性能测试摘要 ==="] with
    | Except.error err => Except.error err
    | Except.ok written => CSVExporter.writeRows env summaryRows written

/-- Method `ExportMetrics`: the records written to the file, or the error
returned.  `summary` is `none` for a nil payload. -/
def CSVExporter.ExportMetrics (e : CSVExporter) (metrics : List PerformanceMetric)
    (summary : Option (List (List CSVField))) (env : ExportEnv) :
    Except String (List (List CSVField)) :=
  if metrics.length = 0 then Except.error "no metrics to export"
  else
    match env.createError with
    | some err => Except.error ("failed to create CSV file: " ++ err)
    | none =>
      let header : Except String (List (List CSVField)) :=
        if e.includeHeader then
          match csvWrite env [] CSVExporter.headers with
          | Except.error err => Except.error ("failed to write header: " ++ err)
          | Except.ok written => Except.ok written
        else Except.ok []
      match header with
      | Except.error err => Except.error err
      | Except.ok written =>
        match CSVExporter.writeRecords env metrics written with
        | Except.error err => Except.error err
        | Except.ok written =>
          match summary with
          | some summaryRows => CSVExporter.writeSummary env written summaryRows
          | none => Except.ok written
/-! ## Known values of binary64 arithmetic -/

/-- The model reproduces known binary64 results: `0.1 + 0.2` is
`0x1.3333333333334p-2` and differs from `0.3`, `1 / 3` is
`0x1.5555555555555p-2`, `sqrt 2` is `0x1.6a09e667f3bcdp+0`, integers above
`2^53` round to even, the largest finite value doubled overflows, the smallest
subnormal halved underflows to zero, and division by zero gives `±Inf` or NaN. -/
theorem F64.known_values :
    (0.1 + 0.2 : F64) = F64.fin false (0x13333333333334 * 2 ^ 1020) ∧
    F64.eq (0.1 + 0.2) 0.3 = false ∧
    (1 / 3 : F64) = F64.fin false (0x15555555555555 * 2 ^ 1020) ∧
    F64.sqrt 2 = F64.fin false (0x16a09e667f3bcd * 2 ^ 1022) ∧
    F64.ofNat (2 ^ 53 + 1) = F64.ofNat (2 ^ 53) ∧
    F64.ofNat (2 ^ 53 + 3) = F64.ofNat (2 ^ 53 + 4) ∧
    F64.maxFloat64 + F64.maxFloat64 = F64.inf false ∧
    (1e308 + 1e308 : F64) = F64.inf false ∧
    F64.fin false 1 / 2 = F64.fin false 0 ∧
    F64.fin false 3 / 2 = F64.fin false 2 ∧
    (0 / 0 : F64) = F64.nan ∧ (1 / 0 : F64) = F64.inf false ∧
    (-1 / 0 : F64) = F64.inf true ∧
    F64.eq F64.nan F64.nan = false ∧ F64.eq (-0) 0 = true ∧
    F64.round 2.5 = 3 ∧ F64.round (-0.5) = -1 ∧ F64.round 0.4 = 0 ∧
    F64.round (-0.4) = F64.fin true 0 := by
  decide

/-! ## Lemmas on the loops -/

theorem foldl_statsStep_sum (values : List F64) (a : StatsAcc) :
    (values.foldl statsStep a).sum = values.foldl (fun s v => s + v) a.sum := by
  induction values generalizing a with
  | nil => rfl
  | cons v vs ih => simp only [List.foldl_cons, ih]; rfl

theorem foldl_varianceStep (avg : F64) (values : List F64) (z : F64) :
    values.foldl (varianceStep avg) z
      = (values.map fun v => (v - avg) * (v - avg)).foldl (fun s v => s + v) z := by
  induction values generalizing z with
  | nil => rfl
  | cons v vs ih => simp only [List.foldl_cons, List.map_cons, ih]; rfl

theorem length_eq_zero_of_ne_nil {α : Type} {l : List α} (h : l ≠ []) : ¬ l.length = 0 := by
  simpa [List.length_eq_zero] using h

namespace F64

/-! ## Lemmas on rounding -/

theorem ilog2Aux_spec (n : Nat) (k e : Nat) (h : 2 ^ e ≤ n) :
    2 ^ ilog2Aux n k e ≤ n ∧ e ≤ ilog2Aux n k e ∧ ilog2Aux n k e < e + 2 ^ k ∧
      (ilog2Aux n k e + 1 < e + 2 ^ k → n < 2 ^ (ilog2Aux n k e + 1)) := by
  induction k generalizing e with
  | zero => simp [ilog2Aux, h]
  | succ k ih =>
    have hk : 2 ^ (k + 1) = 2 ^ k + 2 ^ k := by rw [pow_succ]; omega
    have hpos : 0 < 2 ^ k := Nat.two_pow_pos _
    unfold ilog2Aux
    split
    · rename_i hc
      obtain ⟨h1, h2, h3, h4⟩ := ih (e + 2 ^ k) hc
      refine ⟨h1, by omega, by omega, fun h5 => h4 (by omega)⟩
    · rename_i hc
      obtain ⟨h1, h2, h3, h4⟩ := ih e h
      refine ⟨h1, h2, by omega, fun h5 => ?_⟩
      by_cases h6 : ilog2Aux n k e + 1 < e + 2 ^ k
      · exact h4 h6
      · have h7 : ilog2Aux n k e + 1 = e + 2 ^ k := by omega
        rw [h7]; omega

theorem ilog2_zero : ilog2 0 = 0 := by decide

theorem two_pow_ilog2_le {n : Nat} (h : 1 ≤ n) : 2 ^ ilog2 n ≤ n :=
  (ilog2Aux_spec n 13 0 (by simpa using h)).1

theorem lt_two_pow_ilog2 {n : Nat} (h : ilog2 n + 1 < 8192) : n < 2 ^ (ilog2 n + 1) := by
  rcases Nat.eq_zero_or_pos n with h0 | h0
  · subst h0; exact Nat.two_pow_pos _
  · exact (ilog2Aux_spec n 13 0 (by simpa using h0)).2.2.2 (by simpa using h)

theorem ilog2_mono {m n : Nat} (h : m ≤ n) : ilog2 m ≤ ilog2 n := by
  rcases Nat.eq_zero_or_pos m with h0 | h0
  · subst h0; simp [ilog2_zero]
  · by_contra hc
    have hlt : ilog2 n + 1 ≤ ilog2 m := by omega
    have hm : ilog2 m < 8192 := by
      have := (ilog2Aux_spec m 13 0 (by simpa using h0)).2.2.1
      simpa using this
    have h1 : n < 2 ^ (ilog2 n + 1) := lt_two_pow_ilog2 (by omega)
    have h2 : 2 ^ (ilog2 n + 1) ≤ 2 ^ ilog2 m := Nat.pow_le_pow_right (by norm_num) hlt
    have h3 := two_pow_ilog2_le h0
    omega

theorem dropBits_mono {m n : Nat} (h : m ≤ n) : dropBits m ≤ dropBits n := by
  unfold dropBits
  have := ilog2_mono h
  omega

theorem div_le_rne (n d : Nat) : n / d ≤ rne n d := by
  unfold rne
  simp only
  split_ifs <;> omega

theorem rne_le_succ (n d : Nat) : rne n d ≤ n / d + 1 := by
  unfold rne
  simp only
  split_ifs <;> omega

theorem rne_mul_self (g d : Nat) (hd : 0 < d) : rne (g * d) d = g := by
  unfold rne
  simp [Nat.mul_div_cancel _ hd, hd]

theorem rne_mono {n₁ n₂ : Nat} (d : Nat) (h : n₁ ≤ n₂) : rne n₁ d ≤ rne n₂ d := by
  have hq : n₁ / d ≤ n₂ / d := Nat.div_le_div_right h
  rcases Nat.lt_or_ge (n₁ / d) (n₂ / d) with hlt | hge
  · calc rne n₁ d ≤ n₁ / d + 1 := rne_le_succ _ _
      _ ≤ n₂ / d := hlt
      _ ≤ rne n₂ d := div_le_rne _ _
  · have heq : n₁ / d = n₂ / d := by omega
    have e1 := Nat.div_add_mod n₁ d
    have e2 := Nat.div_add_mod n₂ d
    rw [heq] at e1
    have hr : n₁ % d ≤ n₂ % d := by omega
    unfold rne
    simp only [heq]
    split_ifs <;> omega

theorem roundMag_zero (d : Nat) : roundMag 0 d = 0 := by
  simp [roundMag, rne, dropBits, ilog2_zero]

/-- A magnitude is representable when its bits below the 53 leading ones are zero. -/
theorem roundMag_exact (g d : Nat) (hd : 0 < d) (hg : g % 2 ^ dropBits g = 0) :
    roundMag (g * d) d = g := by
  unfold roundMag
  simp only [Nat.mul_div_cancel _ hd]
  have h1 : g * d = g / 2 ^ dropBits g * (d * 2 ^ dropBits g) := by
    have := Nat.div_add_mod g (2 ^ dropBits g)
    rw [hg] at this
    calc g * d = (2 ^ dropBits g * (g / 2 ^ dropBits g) + 0) * d := by rw [this]
      _ = g / 2 ^ dropBits g * (d * 2 ^ dropBits g) := by ring
  have hD : 0 < d * 2 ^ dropBits g := Nat.mul_pos hd (Nat.two_pow_pos _)
  conv_lhs => rw [h1, rne_mul_self _ _ hD]
  exact Nat.div_mul_cancel (Nat.dvd_of_mod_eq_zero hg)

theorem roundMag_mono {n₁ n₂ : Nat} (d : Nat) (hd : 0 < d) (h : n₁ ≤ n₂) :
    roundMag n₁ d ≤ roundMag n₂ d := by
  have hq : n₁ / d ≤ n₂ / d := Nat.div_le_div_right h
  have hs : dropBits (n₁ / d) ≤ dropBits (n₂ / d) := dropBits_mono hq
  unfold roundMag
  simp only
  rcases Nat.eq_or_lt_of_le hs with heq | hlt
  · rw [heq]
    exact Nat.mul_le_mul_right _ (rne_mono _ h)
  · -- the two magnitudes lie in different binades
    set b₁ := ilog2 (n₁ / d) with hb₁
    set b₂ := ilog2 (n₂ / d) with hb₂
    set s₁ := dropBits (n₁ / d) with hs₁
    set s₂ := dropBits (n₂ / d) with hs₂
    have hs₁' : s₁ = b₁ - 52 := rfl
    have hs₂' : s₂ = b₂ - 52 := rfl
    have hb : b₁ + 1 ≤ b₂ := by omega
    have hb₂52 : b₂ = s₂ + 52 := by omega
    have hq₂pos : 1 ≤ n₂ / d := by
      by_contra hc
      have : n₂ / d = 0 := Nat.lt_one_iff.mp (Nat.lt_of_not_le hc)
      rw [this, ilog2_zero] at hb₂
      omega
    have hb₂lt : b₂ < 8192 := by
      have := (ilog2Aux_spec (n₂ / d) 13 0 (by simpa using hq₂pos)).2.2.1
      simpa using this
    -- lower bound on the larger one
    have hlow : 2 ^ b₂ ≤ rne n₂ (d * 2 ^ s₂) * 2 ^ s₂ := by
      have h2 : 2 ^ b₂ ≤ n₂ / d := two_pow_ilog2_le hq₂pos
      have h3 : 2 ^ b₂ * d ≤ n₂ := by
        calc 2 ^ b₂ * d ≤ n₂ / d * d := Nat.mul_le_mul_right _ h2
          _ ≤ n₂ := Nat.div_mul_le_self _ _
      have h4 : 2 ^ 52 ≤ n₂ / (d * 2 ^ s₂) := by
        rw [Nat.le_div_iff_mul_le (Nat.mul_pos hd (Nat.two_pow_pos _))]
        calc 2 ^ 52 * (d * 2 ^ s₂) = 2 ^ (s₂ + 52) * d := by rw [pow_add]; ring
          _ = 2 ^ b₂ * d := by rw [hb₂52]
          _ ≤ n₂ := h3
      calc 2 ^ b₂ = 2 ^ 52 * 2 ^ s₂ := by rw [hb₂52, pow_add]; ring
        _ ≤ n₂ / (d * 2 ^ s₂) * 2 ^ s₂ := Nat.mul_le_mul_right _ h4
        _ ≤ rne n₂ (d * 2 ^ s₂) * 2 ^ s₂ := Nat.mul_le_mul_right _ (div_le_rne _ _)
    -- upper bound on the smaller one
    have hup : rne n₁ (d * 2 ^ s₁) * 2 ^ s₁ ≤ 2 ^ (b₁ + 1) := by
      have h1 : n₁ / d < 2 ^ (b₁ + 1) := lt_two_pow_ilog2 (by omega)
      have h2 : n₁ < 2 ^ (b₁ + 1) * d := by
        rw [Nat.div_lt_iff_lt_mul hd] at h1
        exact h1
      have hsb : s₁ ≤ b₁ := by omega
      have h3 : n₁ / (d * 2 ^ s₁) < 2 ^ (b₁ + 1 - s₁) := by
        rw [Nat.div_lt_iff_lt_mul (Nat.mul_pos hd (Nat.two_pow_pos _))]
        calc n₁ < 2 ^ (b₁ + 1) * d := h2
          _ = 2 ^ (b₁ + 1 - s₁) * (d * 2 ^ s₁) := by
            have : b₁ + 1 = (b₁ + 1 - s₁) + s₁ := by omega
            conv_lhs => rw [this, pow_add]
            ring
      have h4 : rne n₁ (d * 2 ^ s₁) ≤ 2 ^ (b₁ + 1 - s₁) :=
        le_trans (rne_le_succ _ _) h3
      calc rne n₁ (d * 2 ^ s₁) * 2 ^ s₁ ≤ 2 ^ (b₁ + 1 - s₁) * 2 ^ s₁ :=
            Nat.mul_le_mul_right _ h4
        _ = 2 ^ (b₁ + 1) := by
            rw [← pow_add]
            congr 1
            omega
    calc rne n₁ (d * 2 ^ s₁) * 2 ^ s₁ ≤ 2 ^ (b₁ + 1) := hup
      _ ≤ 2 ^ b₂ := Nat.pow_le_pow_right (by norm_num) hb
      _ ≤ rne n₂ (d * 2 ^ s₂) * 2 ^ s₂ := hlow

end F64

namespace F64

/-! ## Lemmas on the order and the operations -/

theorem add_def (x y : F64) : x + y = add x y := rfl
theorem sub_def (x y : F64) : x - y = add x (neg y) := rfl
theorem mul_def (x y : F64) : x * y = mul x y := rfl
theorem div_def (x y : F64) : x / y = div x y := rfl

theorem ovf_pos : 0 < ovf := by decide

theorem mk_zero (s : Bool) (d : Nat) : mk s 0 d = fin s 0 := by
  simp [mk, roundMag_zero, ovf_pos]

theorem mk_cases (s : Bool) (n d : Nat) :
    (roundMag n d < ovf ∧ mk s n d = fin s (roundMag n d)) ∨
    (ovf ≤ roundMag n d ∧ mk s n d = inf s) := by
  unfold mk
  by_cases h : roundMag n d < ovf
  · left; simp [h]
  · right; simp [h]; omega

theorem isNaN_mk (s : Bool) (n d : Nat) : isNaN (mk s n d) = false := by
  rcases mk_cases s n d with ⟨_, h⟩ | ⟨_, h⟩ <;> rw [h] <;> rfl

theorem le_refl (x : F64) (h : isNaN x = false) : le x x = true := by
  cases x <;> simp_all [le, isNaN]

theorem isNaN_of_le_left {x y : F64} (h : le x y = true) : isNaN x = false := by
  cases x <;> simp_all [le, isNaN]

theorem isNaN_of_le_right {x y : F64} (h : le x y = true) : isNaN y = false := by
  cases x <;> cases y <;> simp_all [le, isNaN]

theorem neg_inf_le (y : F64) (h : isNaN y = false) : le (inf true) y = true := by
  cases y <;> simp_all [le, isNaN]

theorem le_pos_inf (x : F64) (h : isNaN x = false) : le x (inf false) = true := by
  cases x <;> simp_all [le, isNaN]

theorem sval_nonneg (m : Nat) : sval false m = (m : Int) := rfl
theorem sval_nonpos (m : Nat) : sval true m = -(m : Int) := rfl

theorem le_fin (a b : Bool) (m n : Nat) :
    (le (fin a m) (fin b n) = true) = (sval a m ≤ sval b n) := by
  simp [le]

theorem lt_fin (a b : Bool) (m n : Nat) :
    (lt (fin a m) (fin b n) = true) = (sval a m < sval b n) := by
  simp [lt]

theorem le_trans {x y z : F64} (h₁ : le x y = true) (h₂ : le y z = true) : le x z = true := by
  cases x <;> cases y <;> cases z <;> simp_all [le]
  · rename_i a b c
    cases a <;> cases b <;> cases c <;> simp_all
  · omega

theorem le_of_lt {x y : F64} (h : lt x y = true) : le x y = true := by
  cases x <;> cases y <;> simp_all [le, lt]
  omega

theorem le_of_not_lt {x y : F64} (hx : isNaN x = false) (hy : isNaN y = false)
    (h : lt x y = false) : le y x = true := by
  cases x <;> cases y <;> simp_all [le, lt, isNaN]
  rename_i a b
  cases a <;> cases b <;> simp_all

theorem lt_of_le_of_lt {x y z : F64} (h₁ : le x y = true) (h₂ : lt y z = true) :
    lt x z = true := by
  cases x <;> cases y <;> cases z <;> simp_all [le, lt]
  omega

theorem lt_of_lt_of_le {x y z : F64} (h₁ : lt x y = true) (h₂ : le y z = true) :
    lt x z = true := by
  cases x <;> cases y <;> cases z <;> simp_all [le, lt]
  omega

theorem le_of_not_le {x y : F64} (hx : isNaN x = false) (hy : isNaN y = false)
    (h : le x y = false) : le y x = true := by
  cases x with
  | nan => simp [isNaN] at hx
  | inf a =>
    cases y with
    | nan => simp [isNaN] at hy
    | inf b => cases a <;> cases b <;> simp_all [le]
    | fin b n => cases a <;> simp_all [le]
  | fin a m =>
    cases y with
    | nan => simp [isNaN] at hy
    | inf b => cases b <;> simp_all [le]
    | fin b n =>
      simp only [le, decide_eq_false_iff_not, decide_eq_true_eq] at h ⊢
      omega

theorem mk_nonneg_le (n₁ n₂ d : Nat) (hd : 0 < d) (h : n₁ ≤ n₂) :
    le (mk false n₁ d) (mk false n₂ d) = true := by
  have hm := roundMag_mono d hd h
  rcases mk_cases false n₁ d with ⟨h1, e1⟩ | ⟨h1, e1⟩ <;>
  rcases mk_cases false n₂ d with ⟨h2, e2⟩ | ⟨h2, e2⟩ <;> rw [e1, e2] <;>
  simp [le, sval]
  · exact hm
  · omega

theorem mk_nonpos_le (n₁ n₂ d : Nat) (hd : 0 < d) (h : n₁ ≤ n₂) :
    le (mk true n₂ d) (mk true n₁ d) = true := by
  have hm := roundMag_mono d hd h
  rcases mk_cases true n₁ d with ⟨h1, e1⟩ | ⟨h1, e1⟩ <;>
  rcases mk_cases true n₂ d with ⟨h2, e2⟩ | ⟨h2, e2⟩ <;> rw [e1, e2] <;>
  simp [le, sval]
  · exact hm
  · omega

theorem mk_nonpos_le_nonneg (n₁ n₂ d₁ d₂ : Nat) :
    le (mk true n₁ d₁) (mk false n₂ d₂) = true := by
  rcases mk_cases true n₁ d₁ with ⟨h1, e1⟩ | ⟨h1, e1⟩ <;>
  rcases mk_cases false n₂ d₂ with ⟨h2, e2⟩ | ⟨h2, e2⟩ <;> rw [e1, e2] <;>
  simp [le, sval]
  omega

/-- Rounding keeps the order of exact values with a common denominator. -/
theorem mk_le_mk (a b : Bool) (n₁ n₂ d : Nat) (hd : 0 < d) (h : sval a n₁ ≤ sval b n₂) :
    le (mk a n₁ d) (mk b n₂ d) = true := by
  cases a <;> cases b <;> simp only [sval_nonneg, sval_nonpos] at h
  · exact mk_nonneg_le _ _ _ hd (by omega)
  · have h0 : n₁ = 0 := by omega
    have h0' : n₂ = 0 := by omega
    subst h0; subst h0'
    simp [mk_zero, le, sval]
  · exact mk_nonpos_le_nonneg _ _ _ _
  · exact mk_nonpos_le _ _ _ hd (by omega)

theorem sval_mul_le {a b : Bool} {m n : Nat} (k : Nat) (h : sval a m ≤ sval b n) :
    sval a (m * k) ≤ sval b (n * k) := by
  cases a <;> cases b <;> simp only [sval_nonneg, sval_nonpos] at h ⊢
  · have : m ≤ n := by omega
    exact_mod_cast Nat.mul_le_mul_right k this
  · have h0 : m = 0 := by omega
    have h0' : n = 0 := by omega
    subst h0; subst h0'
    simp
  · have h1 : (0 : Int) ≤ ((m * k : Nat) : Int) := Int.ofNat_nonneg _
    have h2 : (0 : Int) ≤ ((n * k : Nat) : Int) := Int.ofNat_nonneg _
    omega
  · have : n ≤ m := by omega
    have := Nat.mul_le_mul_right k this
    have h3 : ((n * k : Nat) : Int) ≤ ((m * k : Nat) : Int) := by exact_mod_cast this
    omega

/-- Multiplying by a positive finite constant keeps the order. -/
theorem mul_le_mul_right_fin {x y : F64} (k : Nat) (hk : 0 < k) (h : le x y = true) :
    le (x * fin false k) (y * fin false k) = true := by
  have hk' : k ≠ 0 := by omega
  cases x <;> cases y <;> simp only [mul_def, mul, hk', if_false, Bool.bne_false] <;>
    simp [le] at h
  · simpa [le] using h
  · subst h
    exact neg_inf_le _ (isNaN_mk _ _ _)
  · subst h
    exact le_pos_inf _ (isNaN_mk _ _ _)
  · exact mk_le_mk _ _ _ _ _ (by decide) (sval_mul_le k h)

/-- Dividing by a positive finite constant keeps the order. -/
theorem div_le_div_right_fin {x y : F64} (k : Nat) (hk : 0 < k) (h : le x y = true) :
    le (x / fin false k) (y / fin false k) = true := by
  have hk' : k ≠ 0 := by omega
  cases x <;> cases y <;> simp only [div_def, div, hk', if_false, Bool.bne_false] <;>
    simp [le] at h
  · simpa [le] using h
  · subst h
    exact neg_inf_le _ (isNaN_mk _ _ _)
  · subst h
    exact le_pos_inf _ (isNaN_mk _ _ _)
  · exact mk_le_mk _ _ _ _ _ hk (sval_mul_le one_u h)

theorem roundInt_mono {m n : Nat} (h : m ≤ n) : roundInt m ≤ roundInt n :=
  Nat.mul_le_mul_right _ (Nat.div_le_div_right (Nat.add_le_add_right h _))

theorem roundInt_zero : roundInt 0 = 0 := by decide

theorem sval_roundInt_le {a b : Bool} {m n : Nat} (h : sval a m ≤ sval b n) :
    sval a (roundInt m) ≤ sval b (roundInt n) := by
  cases a <;> cases b
  · rw [sval_nonneg, sval_nonneg] at h ⊢
    have := roundInt_mono (show m ≤ n by omega)
    generalize roundInt m = M at *
    generalize roundInt n = N at *
    omega
  · rw [sval_nonneg, sval_nonpos] at h
    have h0 : m = 0 := by omega
    have h0' : n = 0 := by omega
    subst h0; subst h0'
    rw [roundInt_zero]
    decide
  · rw [sval_nonneg, sval_nonpos]
    generalize roundInt m = M at *
    generalize roundInt n = N at *
    omega
  · rw [sval_nonpos, sval_nonpos] at h ⊢
    have := roundInt_mono (show n ≤ m by omega)
    generalize roundInt m = M at *
    generalize roundInt n = N at *
    omega

/-- Function `math.Round` keeps the order. -/
theorem round_mono {x y : F64} (h : le x y = true) : le (round x) (round y) = true := by
  cases x with
  | nan => simp [le] at h
  | inf a =>
    cases y with
    | nan => simp [le] at h
    | inf b => exact h
    | fin b n =>
      have ha : a = true := by simpa [le] using h
      subst ha
      rfl
  | fin a m =>
    cases y with
    | nan => simp [le] at h
    | inf b =>
      have hb : b = false := by simpa [le] using h
      subst hb
      rfl
    | fin b n =>
      have h' : sval a m ≤ sval b n := (le_fin a b m n).mp h
      have := sval_roundInt_le h'
      simp only [round]
      exact (le_fin a b (roundInt m) (roundInt n)).mpr this

/-- The sum of two finite values is the rounding of their exact sum. -/
theorem add_fin_fin (a c : Bool) (m k : Nat) :
    ∃ s N, add (fin a m) (fin c k) = mk s N 1 ∧ sval s N = sval a m + sval c k := by
  unfold add
  by_cases hac : a = c
  · subst hac
    refine ⟨a, m + k, by simp, ?_⟩
    cases a <;> simp [sval]
    omega
  · simp only [hac, if_false]
    by_cases h1 : k < m
    · refine ⟨a, m - k, by simp [h1], ?_⟩
      cases a <;> cases c <;> simp_all [sval] <;> omega
    · by_cases h2 : m < k
      · refine ⟨c, k - m, by simp [h1, h2], ?_⟩
        cases a <;> cases c <;> simp_all [sval] <;> omega
      · have hmk : m = k := by omega
        subst hmk
        refine ⟨false, 0, by simp [mk_zero], ?_⟩
        cases a <;> cases c <;> simp_all [sval]

theorem isNaN_add_left {x z : F64} (h : isNaN (x + z) = false) : isNaN x = false := by
  cases x <;> simp_all [add_def, add, isNaN]

theorem isNaN_add_right {x z : F64} (h : isNaN (x + z) = false) : isNaN z = false := by
  cases x <;> cases z <;> simp_all [add_def, add, isNaN]

/-- Adding the same value on the right keeps the order, where both sums are numbers. -/
theorem add_le_add_right {x y : F64} (z : F64) (h : le x y = true)
    (hx : isNaN (x + z) = false) (hy : isNaN (y + z) = false) :
    le (x + z) (y + z) = true := by
  cases z with
  | nan => cases x <;> simp [add_def, add, isNaN] at hx
  | inf c =>
    cases x <;> cases y <;> simp [add_def, add, isNaN] at hx hy h ⊢
    · rename_i a b
      cases a <;> cases b <;> cases c <;> simp_all [le, isNaN]
    · rename_i a b n
      cases a <;> cases c <;> simp_all [le, isNaN]
    · rename_i a m b
      cases b <;> cases c <;> simp_all [le, isNaN]
    · simp [le]
  | fin c k =>
    cases x with
    | nan => simp [le] at h
    | inf a =>
      cases y with
      | nan => simp [le] at h
      | inf b => simpa [add_def, add, le] using h
      | fin b n =>
        simp [le] at h
        subst h
        exact neg_inf_le _ hy
    | fin a m =>
      cases y with
      | nan => simp [le] at h
      | inf b =>
        simp [le] at h
        subst h
        exact le_pos_inf _ hx
      | fin b n =>
        obtain ⟨s₁, N₁, e₁, v₁⟩ := add_fin_fin a c m k
        obtain ⟨s₂, N₂, e₂, v₂⟩ := add_fin_fin b c n k
        rw [add_def, add_def, e₁, e₂]
        rw [le_fin] at h
        exact mk_le_mk _ _ _ _ _ (by decide) (by omega)

theorem isNaN_neg (x : F64) : isNaN (neg x) = isNaN x := by
  cases x <;> rfl

end F64

namespace F64

/-! ## Constants -/

theorem zero_eq : (0 : F64) = fin false 0 := by decide
theorem one_eq : (1 : F64) = fin false one_u := by decide
theorem one_lit_eq : (1.0 : F64) = fin false one_u := by decide
theorem zero_lit_eq : (0.0 : F64) = fin false 0 := by decide
theorem one_u_pos : 0 < one_u := by decide

theorem roundMag_one_u : roundMag (one_u * 1) 1 = one_u :=
  roundMag_exact one_u 1 (by decide) (by decide)

/-- Conversion of a positive count gives a positive number or `+Inf`. -/
theorem ofNat_pos (n : Nat) (h : 0 < n) :
    (∃ k, 0 < k ∧ ofNat n = fin false k) ∨ ofNat n = inf false := by
  unfold ofNat
  rcases mk_cases false (n * one_u) 1 with ⟨_, e⟩ | ⟨_, e⟩
  · left
    refine ⟨_, ?_, e⟩
    have h1 : one_u * 1 ≤ n * one_u := by
      rw [Nat.mul_one]
      exact Nat.le_mul_of_pos_left _ h
    have h2 := roundMag_mono 1 (by decide) h1
    rw [roundMag_one_u] at h2
    exact Nat.lt_of_lt_of_le one_u_pos h2
  · right; exact e

theorem eq_fin_pos_zero (k : Nat) (h : 0 < k) : eq (fin false k) (fin false 0) = false := by
  simp [eq, sval]
  omega

theorem ofNat_ne_zero (n : Nat) (h : 0 < n) : eq (ofNat n) 0 = false := by
  rw [zero_eq]
  rcases ofNat_pos n h with ⟨k, hk, e⟩ | e <;> rw [e]
  · exact eq_fin_pos_zero k hk
  · rfl

end F64

namespace F64

theorem mul_comm (x y : F64) : x * y = y * x := by
  cases x <;> cases y <;> simp only [mul_def, mul]
  · rename_i a b; cases a <;> cases b <;> rfl
  · rename_i a b n; cases a <;> cases b <;> rfl
  · rename_i a m b; cases a <;> cases b <;> rfl
  · rename_i a m b n
    rw [Nat.mul_comm m n]
    cases a <;> cases b <;> rfl

theorem hundred_eq : (100 : F64) = fin false (100 * one_u) := by decide
theorem ten_eq : (10 : F64) = fin false (10 * one_u) := by decide
theorem not_gt_zero_hundred : gt (0 : F64) 100 = false := by decide

end F64

/-! ## Lemmas on the composite score -/

theorem clamp_steps (t : F64) :
    (if F64.gt (if F64.lt t 0 then 0 else t) 100 then 100 else (if F64.lt t 0 then 0 else t))
      = clamp0to100 t := by
  unfold clamp0to100
  by_cases h : F64.lt t 0 = true
  · simp [h, F64.not_gt_zero_hundred]
  · simp [h]

/-- The code computes the score the specification words. -/
theorem calculatePerformanceScore_eq_spec
    (fpsRatio memoryRatio cpuRatio fpsCV memoryCV cpuCV : F64) :
    calculatePerformanceScore fpsRatio memoryRatio cpuRatio fpsCV memoryCV cpuCV
      = performanceScoreSpec fpsRatio memoryRatio cpuRatio fpsCV memoryCV cpuCV := by
  unfold calculatePerformanceScore performanceScoreSpec
  simp only [clamp_steps, round1, higherIsBetterScore, lowerIsBetterScore,
    stabilityPenaltySpec, F64.one_lit_eq, F64.one_eq]
  simp only [F64.mul_comm (0.3 : F64), F64.mul_comm (0.4 : F64), F64.mul_comm (0.5 : F64),
    F64.mul_comm (0.2 : F64)]

theorem round1_mono {x y : F64} (h : F64.le x y = true) :
    F64.le (round1 x) (round1 y) = true := by
  unfold round1
  rw [F64.ten_eq]
  exact F64.div_le_div_right_fin _ (by decide)
    (F64.round_mono (F64.mul_le_mul_right_fin _ (by decide) h))

theorem round1_zero : round1 0 = 0 := by decide
theorem round1_hundred : round1 100 = 100 := by decide

theorem isNaN_round1 (x : F64) (h : F64.isNaN x = true) : F64.isNaN (round1 x) = true := by
  cases x <;> simp_all [F64.isNaN]
  rfl

theorem isNaN_clamp (x : F64) (h : F64.isNaN x = true) : F64.isNaN (clamp0to100 x) = true := by
  cases x <;> simp_all [F64.isNaN]
  rfl

/-- A clamped number lies between 0 and 100. -/
theorem clamp_bounds (x : F64) (h : F64.isNaN x = false) :
    F64.le 0 (clamp0to100 x) = true ∧ F64.le (clamp0to100 x) 100 = true := by
  unfold clamp0to100
  by_cases h0 : F64.lt x 0 = true
  · simp only [h0, if_true]
    exact ⟨by decide, by decide⟩
  · have h0' : F64.lt x 0 = false := by simpa using h0
    simp only [h0', Bool.false_eq_true, if_false]
    have hz : F64.le 0 x = true := F64.le_of_not_lt h (by decide) h0'
    by_cases h1 : F64.gt x 100 = true
    · simp only [h1, if_true]
      exact ⟨by decide, by decide⟩
    · have h1' : F64.lt 100 x = false := by simpa [F64.gt] using h1
      simp only [F64.gt, h1', Bool.false_eq_true, if_false]
      exact ⟨hz, F64.le_of_not_lt (by decide) h h1'⟩

/-- Clamping keeps the order. -/
theorem clamp_mono {x y : F64} (h : F64.le x y = true) :
    F64.le (clamp0to100 x) (clamp0to100 y) = true := by
  have hx := F64.isNaN_of_le_left h
  have hy := F64.isNaN_of_le_right h
  have bx := clamp_bounds x hx
  have by' := clamp_bounds y hy
  unfold clamp0to100 at bx by' ⊢
  by_cases x0 : F64.lt x 0 = true
  · simp only [x0, if_true] at bx ⊢
    exact by'.1
  · have x0' : F64.lt x 0 = false := by simpa using x0
    have y0' : F64.lt y 0 = false := by
      by_contra hc
      have hc' : F64.lt y 0 = true := by simpa using hc
      have := F64.lt_of_le_of_lt h hc'
      rw [this] at x0'
      exact Bool.noConfusion x0'
    simp only [x0', y0', Bool.false_eq_true, if_false] at bx by' ⊢
    by_cases y1 : F64.gt y 100 = true
    · simp only [y1, if_true] at by' ⊢
      exact bx.2
    · have y1' : F64.lt 100 y = false := by simpa [F64.gt] using y1
      have x1' : F64.lt 100 x = false := by
        by_contra hc
        have hc' : F64.lt 100 x = true := by simpa using hc
        have := F64.lt_of_lt_of_le hc' h
        rw [this] at y1'
        exact Bool.noConfusion y1'
      simp only [F64.gt, x1', y1', Bool.false_eq_true, if_false]
      exact h

theorem lit_03 : ∃ k, 0 < k ∧ (0.3 : F64) = F64.fin false k :=
  ⟨F64.roundMag (3 * F64.one_u) 10, by decide, by decide⟩

theorem const_mul_le {x y : F64} (c : F64) (hc : ∃ k, 0 < k ∧ c = F64.fin false k)
    (h : F64.le x y = true) : F64.le (c * x) (c * y) = true := by
  obtain ⟨k, hk, rfl⟩ := hc
  rw [F64.mul_comm _ x, F64.mul_comm _ y]
  exact F64.mul_le_mul_right_fin k hk h

/-- The FPS sub-score does not decrease when the ratio grows. -/
theorem higherIsBetterScore_mono {r₁ r₂ : F64} (h : F64.le r₁ r₂ = true) :
    F64.le (higherIsBetterScore r₁) (higherIsBetterScore r₂) = true := by
  have n₁ := F64.isNaN_of_le_left h
  unfold higherIsBetterScore F64.ge
  by_cases h₁ : F64.le 1 r₁ = true
  · have h₂ : F64.le 1 r₂ = true := F64.le_trans h₁ h
    simp only [h₁, h₂, if_true]
    decide
  · have h₁' : F64.le 1 r₁ = false := by simpa using h₁
    have hr : F64.le r₁ 1 = true := F64.le_of_not_le (by decide) n₁ h₁'
    simp only [h₁', Bool.false_eq_true, if_false]
    by_cases h₂ : F64.le 1 r₂ = true
    · simp only [h₂, if_true]
      have := F64.mul_le_mul_right_fin (100 * F64.one_u) (by decide) hr
      rw [← F64.hundred_eq] at this
      have e : (1 : F64) * 100 = 100 := by decide
      rw [e] at this
      exact this
    · have h₂' : F64.le 1 r₂ = false := by simpa using h₂
      simp only [h₂', Bool.false_eq_true, if_false]
      rw [F64.hundred_eq]
      exact F64.mul_le_mul_right_fin _ (by decide) h

theorem isNaN_performanceScoreSpec_of_raw {t : F64}
    (h : F64.isNaN (round1 (clamp0to100 t)) = false) :
    F64.isNaN t = false := by
  by_contra hc
  have hc' : F64.isNaN t = true := by simpa using hc
  rw [isNaN_round1 _ (isNaN_clamp _ hc')] at h
  exact Bool.noConfusion h

/-- The score is NaN or lies in `[0, 100]`. -/
theorem calculatePerformanceScore_range
    (fpsRatio memoryRatio cpuRatio fpsCV memoryCV cpuCV : F64) :
    F64.isNaN (calculatePerformanceScore fpsRatio memoryRatio cpuRatio fpsCV memoryCV cpuCV) = true
    ∨ (F64.le 0 (calculatePerformanceScore fpsRatio memoryRatio cpuRatio fpsCV memoryCV cpuCV)
          = true ∧
       F64.le (calculatePerformanceScore fpsRatio memoryRatio cpuRatio fpsCV memoryCV cpuCV) 100
          = true) := by
  rw [calculatePerformanceScore_eq_spec]
  unfold performanceScoreSpec
  generalize 0.3 * higherIsBetterScore fpsRatio + 0.3 * lowerIsBetterScore memoryRatio
      + 0.4 * lowerIsBetterScore cpuRatio - stabilityPenaltySpec fpsCV memoryCV cpuCV = t
  by_cases ht : F64.isNaN t = true
  · left
    exact isNaN_round1 _ (isNaN_clamp _ ht)
  · right
    have ht' : F64.isNaN t = false := by simpa using ht
    obtain ⟨b₀, b₁⟩ := clamp_bounds t ht'
    have l := round1_mono b₀
    have u := round1_mono b₁
    rw [round1_zero] at l
    rw [round1_hundred] at u
    exact ⟨l, u⟩

/-- The score does not decrease when the FPS ratio grows, where it is a number. -/
theorem performanceScoreSpec_mono (r₁ r₂ memoryRatio cpuRatio fpsCV memoryCV cpuCV : F64)
    (h : F64.le r₁ r₂ = true)
    (h₁ : F64.isNaN (performanceScoreSpec r₁ memoryRatio cpuRatio fpsCV memoryCV cpuCV)
      = false)
    (h₂ : F64.isNaN (performanceScoreSpec r₂ memoryRatio cpuRatio fpsCV memoryCV cpuCV)
      = false) :
    F64.le (performanceScoreSpec r₁ memoryRatio cpuRatio fpsCV memoryCV cpuCV)
      (performanceScoreSpec r₂ memoryRatio cpuRatio fpsCV memoryCV cpuCV) = true := by
  unfold performanceScoreSpec at h₁ h₂ ⊢
  have t₁ := isNaN_performanceScoreSpec_of_raw h₁
  have t₂ := isNaN_performanceScoreSpec_of_raw h₂
  rw [F64.sub_def] at t₁ t₂
  have c₁ := F64.isNaN_add_left t₁
  have c₂ := F64.isNaN_add_left t₂
  have b₁ := F64.isNaN_add_left c₁
  have b₂ := F64.isNaN_add_left c₂
  have hA := const_mul_le (0.3 : F64) lit_03 (higherIsBetterScore_mono h)
  have hB := F64.add_le_add_right _ hA b₁ b₂
  have hC := F64.add_le_add_right _ hB c₁ c₂
  have hT := F64.add_le_add_right (F64.neg (stabilityPenaltySpec fpsCV memoryCV cpuCV)) hC t₁ t₂
  rw [F64.sub_def, F64.sub_def]
  exact round1_mono (clamp_mono hT)

namespace F64

/-! ## Exact cases of the operations -/

theorem one_u_lt_ovf : one_u < ovf := by decide

theorem roundMag_one_u_mul (m : Nat) (hm : 0 < m) : roundMag (m * one_u) m = one_u := by
  rw [Nat.mul_comm]
  exact roundMag_exact one_u m hm (by decide)

/-- A finite non-zero value divided by itself is one. -/
theorem div_self_fin (s : Bool) (m : Nat) (hm : m ≠ 0) : fin s m / fin s m = 1 := by
  rw [one_eq, div_def]
  simp only [div, hm, if_false, mk, roundMag_one_u_mul m (Nat.pos_of_ne_zero hm), one_u_lt_ovf,
    if_true]
  cases s <;> rfl

/-- A finite value minus itself is the positive zero. -/
theorem sub_self_fin (s : Bool) (m : Nat) : fin s m - fin s m = fin false 0 := by
  rw [sub_def]
  cases s <;> simp [neg, add]

theorem zero_div_fin (t s : Bool) (m : Nat) (hm : m ≠ 0) :
    fin t 0 / fin s m = fin (t != s) 0 := by
  rw [div_def]
  simp only [div, hm, if_false, Nat.zero_mul, mk_zero]

theorem zero_div_pos (k : Nat) (hk : 0 < k) : fin false 0 / fin false k = fin false 0 := by
  rw [zero_div_fin false false k (by omega)]
  rfl

theorem zero_mul_fin (t s : Bool) (k : Nat) : fin t 0 * fin s k = fin (t != s) 0 := by
  rw [mul_def]
  simp only [mul, Nat.zero_mul, mk_zero]

theorem eq_zero_of_mag_zero (s : Bool) : eq (fin s 0) 0 = true := by
  cases s <;> decide

end F64

theorem round2_signed_zero (s : Bool) : round2 (F64.fin s 0) = F64.fin s 0 := by
  cases s <;> decide

theorem round3_one : round3 1 = 1 := by decide

/-! ## Lemmas on the summaries and the comparison -/

theorem calculateStatistics_some (values : List F64) (h : values ≠ []) :
    calculateStatistics values = some
      { avg := round2 (seriesMean values)
        min := round2 (values.foldl statsStep
          { sum := 0, min := F64.maxFloat64, max := 0 }).min
        max := round2 (values.foldl statsStep
          { sum := 0, min := F64.maxFloat64, max := 0 }).max
        std := round2 (F64.sqrt (populationVariance values))
        cv := round2 (if F64.ne (seriesMean values) 0
          then F64.sqrt (populationVariance values) / seriesMean values * 100 else 0.0) } := by
  have hl := length_eq_zero_of_ne_nil h
  simp only [calculateStatistics, if_neg hl, round2, populationVariance, seriesMean, seriesSum,
    foldl_statsStep_sum, foldl_varianceStep]

theorem calculateComponentSummary_some (metrics : List PerformanceMetric)
    (componentType : String) (h : metrics ≠ []) :
    ∃ S, calculateComponentSummary metrics componentType = some S := by
  have hl := length_eq_zero_of_ne_nil h
  exact ⟨_, by simp only [calculateComponentSummary, if_neg hl]; rfl⟩

theorem calculateComponentSummary_type (metrics : List PerformanceMetric)
    (t₁ t₂ : String) (S : Summary) (h : calculateComponentSummary metrics t₁ = some S) :
    calculateComponentSummary metrics t₂ = some { S with component_type := t₂ } := by
  unfold calculateComponentSummary at h ⊢
  by_cases hl : metrics.length = 0
  · simp [hl] at h
  · simp only [if_neg hl, Option.some.injEq] at h ⊢
    subst h
    rfl

theorem ne_nil_of_summary_some (metrics : List PerformanceMetric)
    (t : String) (S : Summary) (h : calculateComponentSummary metrics t = some S) :
    metrics ≠ [] := by
  intro hn
  subst hn
  simp [calculateComponentSummary] at h

theorem CompareComponents_some (customMetrics nativeMetrics : List PerformanceMetric)
    (hc : customMetrics ≠ []) (hn : nativeMetrics ≠ []) :
    CompareComponents customMetrics nativeMetrics = some
      { CustomMetrics := customMetrics
        NativeMetrics := nativeMetrics
        CustomSummary := calculateComponentSummary customMetrics "custom"
        NativeSummary := calculateComponentSummary nativeMetrics "native"
        Comparison := scientificComparison (calculateComponentSummary customMetrics "custom")
          (calculateComponentSummary nativeMetrics "native")
        Conclusion := generateConclusion
          (scientificComparison (calculateComponentSummary customMetrics "custom")
            (calculateComponentSummary nativeMetrics "native")) } := by
  have h1 := length_eq_zero_of_ne_nil hc
  have h2 := length_eq_zero_of_ne_nil hn
  simp only [CompareComponents, h1, h2, or_self, if_false]

/-- The ratios, the percent deltas and the score `scientificComparison` reports. -/
theorem scientificComparison_some (cs ns : Summary) :
    ∃ cmp, scientificComparison (some cs) (some ns) = some cmp ∧
      cmp.fps_ratio = round3 (cs.fps_avg / ns.fps_avg) ∧
      cmp.memory_ratio = round3 (cs.memory_avg / ns.memory_avg) ∧
      cmp.cpu_ratio = round3 (cs.cpu_avg / ns.cpu_avg) ∧
      cmp.fps_diff_percent = round2 ((cs.fps_avg - ns.fps_avg) / ns.fps_avg * 100) ∧
      cmp.memory_diff_percent
        = round2 ((cs.memory_avg - ns.memory_avg) / ns.memory_avg * 100) ∧
      cmp.cpu_diff_percent = round2 ((cs.cpu_avg - ns.cpu_avg) / ns.cpu_avg * 100) ∧
      cmp.performance_score = calculatePerformanceScore (cs.fps_avg / ns.fps_avg)
        (cs.memory_avg / ns.memory_avg) (cs.cpu_avg / ns.cpu_avg)
        cs.fps_cv cs.memory_cv cs.cpu_cv :=
  ⟨_, rfl, rfl, rfl, rfl, rfl, rfl, rfl, rfl⟩

/-- Ratio and percent delta of a finite non-zero average against itself. -/
theorem ratio_delta_self (x : F64) (h : x.isFiniteNonzero = true) :
    x / x = 1 ∧ F64.eq (round2 ((x - x) / x * 100)) 0 = true := by
  cases x with
  | nan => simp [F64.isFiniteNonzero] at h
  | inf a => simp [F64.isFiniteNonzero] at h
  | fin s m =>
    have hm : m ≠ 0 := by simpa [F64.isFiniteNonzero] using h
    refine ⟨F64.div_self_fin s m hm, ?_⟩
    rw [F64.sub_self_fin, F64.zero_div_fin false s m hm, F64.hundred_eq, F64.zero_mul_fin,
      round2_signed_zero]
    exact F64.eq_zero_of_mag_zero _

theorem score_of_equal_series (fpsCV memoryCV cpuCV : F64) :
    calculatePerformanceScore 1 1 1 fpsCV memoryCV cpuCV
      = round1 (clamp0to100 (100 - stabilityPenaltySpec fpsCV memoryCV cpuCV)) := by
  rw [calculatePerformanceScore_eq_spec]
  unfold performanceScoreSpec
  have e : (0.3 : F64) * higherIsBetterScore 1 + 0.3 * lowerIsBetterScore 1
      + 0.4 * lowerIsBetterScore 1 = 100 := by decide
  rw [e]

theorem seriesSum_zeros (l : List F64) (h : ∀ v ∈ l, ∃ t, v = F64.fin t 0) :
    seriesSum l = F64.fin false 0 := by
  unfold seriesSum
  rw [F64.zero_eq]
  induction l with
  | nil => rfl
  | cons v vs ih =>
    obtain ⟨t, hv⟩ := h v (List.mem_cons_self _ _)
    have e : F64.fin false 0 + v = F64.fin false 0 := by
      rw [hv, F64.add_def]
      cases t <;> simp [F64.add, F64.mk_zero]
    rw [List.foldl_cons, e]
    exact ih (fun w hw => h w (List.mem_cons_of_mem _ hw))

/-- The mean of a non-empty series of zeros is the positive zero. -/
theorem seriesMean_zeros (l : List F64) (hne : l ≠ []) (h : ∀ v ∈ l, ∃ t, v = F64.fin t 0) :
    seriesMean l = F64.fin false 0 := by
  unfold seriesMean
  rw [seriesSum_zeros l h]
  rcases F64.ofNat_pos l.length (List.length_pos.mpr hne) with ⟨k, hk, e⟩ | e
  · rw [e]; exact F64.zero_div_pos k hk
  · rw [e]; rfl

/-- The squared deviation of a finite value from a mean equal to it is zero. -/
theorem squared_deviation_zero (s s' : Bool) (m m' : Nat) (h : F64.sval s' m' = F64.sval s m) :
    (F64.fin s m - F64.fin s' m') * (F64.fin s m - F64.fin s' m') = F64.fin false 0 := by
  have key : ∃ t, F64.fin s m - F64.fin s' m' = F64.fin t 0 := by
    rw [F64.sub_def]
    cases s <;> cases s' <;> simp only [F64.sval_nonneg, F64.sval_nonpos] at h
    · have hm : m' = m := by omega
      subst hm
      exact ⟨false, by simp [F64.neg, F64.add]⟩
    · have hm : m = 0 := by omega
      have hm' : m' = 0 := by omega
      subst hm; subst hm'
      exact ⟨false, by simp [F64.neg, F64.add, F64.mk_zero]⟩
    · have hm : m = 0 := by omega
      have hm' : m' = 0 := by omega
      subst hm; subst hm'
      exact ⟨true, by simp [F64.neg, F64.add, F64.mk_zero]⟩
    · have hm : m' = m := by omega
      subst hm
      exact ⟨false, by simp [F64.neg, F64.add]⟩
  obtain ⟨t, ht⟩ := key
  rw [ht, F64.zero_mul_fin]
  cases t <;> rfl

/-- Apart from NaN the reported score stays in range: for every pair of
non-empty metric lists, the performance score `CompareComponents` reports is NaN
or lies in the closed interval `[0, 100]`. -/
theorem CompareComponents_score_range (customMetrics nativeMetrics : List PerformanceMetric)
    (hc : customMetrics ≠ []) (hn : nativeMetrics ≠ []) :
    ∃ r cmp, CompareComponents customMetrics nativeMetrics = some r ∧
      r.Comparison = some cmp ∧
      (F64.isNaN cmp.performance_score = true ∨
        (F64.le 0 cmp.performance_score = true ∧ F64.le cmp.performance_score 100 = true)) := by
  obtain ⟨cs, hcs⟩ := calculateComponentSummary_some customMetrics "custom" hc
  obtain ⟨ns, hns⟩ := calculateComponentSummary_some nativeMetrics "native" hn
  obtain ⟨cmp, hcmp, _, _, _, _, _, _, sc⟩ := scientificComparison_some cs ns
  refine ⟨_, cmp, CompareComponents_some customMetrics nativeMetrics hc hn, ?_, ?_⟩
  · simp only [hcs, hns, hcmp]
  · rw [sc]
    exact calculatePerformanceScore_range _ _ _ _ _ _


namespace F64

/-! ## Further lemmas on the order -/

theorem not_le_of_lt {x y : F64} (h : lt x y = true) : le y x = false := by
  cases x with
  | nan => simp [lt] at h
  | inf a =>
    cases y with
    | nan => simp [lt] at h
    | inf b => cases a <;> cases b <;> simp_all [lt, le]
    | fin b n => cases a <;> simp_all [lt, le]
  | fin a m =>
    cases y with
    | nan => simp [lt] at h
    | inf b => cases b <;> simp_all [lt, le]
    | fin b n =>
      simp only [lt, le, decide_eq_true_eq, decide_eq_false_iff_not] at h ⊢
      omega

theorem lt_of_not_le {x y : F64} (hx : isNaN x = false) (hy : isNaN y = false)
    (h : le y x = false) : lt x y = true := by
  cases x with
  | nan => simp [isNaN] at hx
  | inf a =>
    cases y with
    | nan => simp [isNaN] at hy
    | inf b => cases a <;> cases b <;> simp_all [lt, le]
    | fin b n => cases a <;> simp_all [lt, le]
  | fin a m =>
    cases y with
    | nan => simp [isNaN] at hy
    | inf b => cases b <;> simp_all [lt, le]
    | fin b n =>
      simp only [lt, le, decide_eq_true_eq, decide_eq_false_iff_not] at h ⊢
      omega

theorem neg_def (x : F64) : -x = neg x := rfl

theorem neg_neg (x : F64) : neg (neg x) = x := by
  cases x <;> simp [neg]

theorem sval_not (s : Bool) (m : Nat) : sval (!s) m = -sval s m := by
  cases s <;> simp [sval]

/-- Negation reverses the order. -/
theorem le_neg_neg (x y : F64) : le (neg x) (neg y) = le y x := by
  cases x with
  | nan => cases y <;> rfl
  | inf a =>
    cases y with
    | nan => rfl
    | inf b => cases a <;> cases b <;> rfl
    | fin b n => cases a <;> rfl
  | fin a m =>
    cases y with
    | nan => rfl
    | inf b => cases b <;> rfl
    | fin b n =>
      simp only [neg, le, sval_not]
      congr 1
      exact propext ⟨fun h => by omega, fun h => by omega⟩

theorem le_neg_comm (x y : F64) : le x (neg y) = le y (neg x) := by
  rw [← le_neg_neg, neg_neg]

theorem neg_le_comm (x y : F64) : le (neg x) y = le (neg y) x := by
  rw [← le_neg_neg, neg_neg]

/-- The two zeros compare alike. -/
theorem le_neg_zero (x : F64) : le x (neg 0) = le x 0 := by
  rw [zero_eq]
  cases x with
  | nan => rfl
  | inf a => rfl
  | fin a m => simp [neg, le, sval]

end F64

/-! ## Lemmas on the FPS calculator -/

theorem calculateFPS_frameTimes (f : FPSCalculator) (now : Int) :
    (f.calculateFPS now).frameTimes = f.frameTimes ∧
    (f.calculateFPS now).maxSamples = f.maxSamples ∧
    (f.calculateFPS now).lastUpdate = f.lastUpdate := by
  unfold FPSCalculator.calculateFPS
  split
  · exact ⟨rfl, rfl, rfl⟩
  · simp only
    split <;> exact ⟨rfl, rfl, rfl⟩

theorem AddFrame_frameTimes (f : FPSCalculator) (now calcNow : Int) :
    (f.AddFrame now calcNow).frameTimes
      = (if (f.frameTimes ++ [now]).length > f.maxSamples
          then (f.frameTimes ++ [now]).drop 1 else f.frameTimes ++ [now]) ∧
    (f.AddFrame now calcNow).maxSamples = f.maxSamples := by
  unfold FPSCalculator.AddFrame
  simp only
  split <;> split <;> simp_all [calculateFPS_frameTimes]

theorem addFrames_append (f : FPSCalculator) (calls : List AddFrameClock) (c : AddFrameClock) :
    f.addFrames (calls ++ [c]) = (f.addFrames calls).AddFrame c.now c.calcNow := by
  simp [FPSCalculator.addFrames, List.foldl_append]

theorem mostRecent_append (n : Nat) (hn : 1 ≤ n) (ts : List Int) (t : Int) :
    (if (mostRecent n ts ++ [t]).length > n then (mostRecent n ts ++ [t]).drop 1
      else mostRecent n ts ++ [t]) = mostRecent n (ts ++ [t]) := by
  unfold mostRecent
  have hl : (List.drop (ts.length - n) ts).length = ts.length - (ts.length - n) :=
    List.length_drop _ _
  simp only [List.length_append, List.length_singleton, hl]
  by_cases h : n ≤ ts.length
  · have h1 : ts.length - (ts.length - n) + 1 > n := by omega
    rw [if_pos h1]
    have e1 : List.drop 1 (List.drop (ts.length - n) ts ++ [t])
        = List.drop 1 (List.drop (ts.length - n) ts) ++ [t] :=
      List.drop_append_of_le_length (by rw [hl]; omega)
    have e2 : List.drop (ts.length + 1 - n) (ts ++ [t])
        = List.drop (ts.length + 1 - n) ts ++ [t] :=
      List.drop_append_of_le_length (by omega)
    rw [e1, e2, List.drop_drop]
    have e3 : 1 + (ts.length - n) = ts.length + 1 - n := by omega
    have e4 : (ts.length - n) + 1 = ts.length + 1 - n := by omega
    first
      | rw [e3]
      | rw [e4]
  · have h1 : ¬ ts.length - (ts.length - n) + 1 > n := by omega
    rw [if_neg h1]
    have h2 : ts.length - n = 0 := by omega
    have h3 : ts.length + 1 - n = 0 := by omega
    rw [h2, h3]
    rfl

/-- After any sequence of `AddFrame` calls on a new calculator the queue is the
most recent `maxSamples` timestamps recorded. -/
theorem addFrames_frameTimes (n : Nat) (hn : 1 ≤ n) (t₀ : Int) (calls : List AddFrameClock) :
    ((NewFPSCalculator n t₀).addFrames calls).frameTimes
      = mostRecent n (calls.map AddFrameClock.now) ∧
    ((NewFPSCalculator n t₀).addFrames calls).maxSamples = n := by
  induction calls using List.reverseRecOn with
  | nil => exact ⟨by simp [mostRecent, FPSCalculator.addFrames, NewFPSCalculator], rfl⟩
  | append_singleton calls c ih =>
    obtain ⟨ih₁, ih₂⟩ := ih
    rw [addFrames_append]
    obtain ⟨e₁, e₂⟩ := AddFrame_frameTimes ((NewFPSCalculator n t₀).addFrames calls) c.now c.calcNow
    rw [e₁, e₂, ih₁, ih₂]
    refine ⟨?_, rfl⟩
    rw [List.map_append, List.map_singleton]
    exact mostRecent_append n hn _ _

theorem length_mostRecent (n : Nat) (ts : List Int) :
    (mostRecent n ts).length = min ts.length n := by
  unfold mostRecent
  rw [List.length_drop]
  omega

/-- On timestamps in descending order the backward scan of `calculateFPS`
counts all the timestamps after the threshold. -/
theorem countFromNewest_eq_filter (oneSecondAgo : Int) (newestFirst : List Int)
    (h : newestFirst.Pairwise (fun a b => b ≤ a)) :
    countFromNewest oneSecondAgo newestFirst
      = (newestFirst.filter fun t => decide (t > oneSecondAgo)).length := by
  induction newestFirst with
  | nil => rfl
  | cons t older ih =>
    rw [List.pairwise_cons] at h
    obtain ⟨ht, ho⟩ := h
    unfold countFromNewest
    by_cases hc : t > oneSecondAgo
    · simp [hc, ih ho]
    · have hnone : (older.filter fun t => decide (t > oneSecondAgo)) = [] := by
        rw [List.filter_eq_nil_iff]
        intro x hx
        have := ht x hx
        simp only [decide_eq_true_eq]
        omega
      simp [hc, hnone]

/-- On a queue in recording order (non-decreasing) the scan of `calculateFPS`
counts the timestamps newer than the threshold. -/
theorem countFromNewest_reverse (oneSecondAgo : Int) (frameTimes : List Int)
    (h : frameTimes.Pairwise (fun a b => a ≤ b)) :
    countFromNewest oneSecondAgo frameTimes.reverse = recentCount frameTimes oneSecondAgo := by
  rw [countFromNewest_eq_filter _ _ (List.pairwise_reverse.mpr h)]
  unfold recentCount
  rw [List.filter_reverse, List.length_reverse]

/-- What `calculateFPS` leaves in `lastFPS` on a queue of at least 2 timestamps
in recording order. -/
theorem calculateFPS_lastFPS (f : FPSCalculator) (now : Int)
    (hlen : 2 ≤ f.frameTimes.length) (hs : f.frameTimes.Pairwise (fun a b => a ≤ b)) :
    (f.calculateFPS now).lastFPS
      = (if 0 < recentCount f.frameTimes (now + -Second)
          then F64.ofNat (recentCount f.frameTimes (now + -Second)) else f.lastFPS) := by
  unfold FPSCalculator.calculateFPS
  have h2 : ¬ f.frameTimes.length < 2 := by omega
  simp only [h2, if_false, countFromNewest_reverse _ _ hs]
  split <;> rfl

theorem GetFPS_of_empty (g : FPSCalculator) (c : GetFPSClock)
    (hq : g.frameTimes = []) (hf : g.lastFPS = 60.0) :
    (g.GetFPS c.sinceNow c.calcNow c.updateNow).1 = 60.0 ∧
    (g.GetFPS c.sinceNow c.calcNow c.updateNow).2.frameTimes = [] ∧
    (g.GetFPS c.sinceNow c.calcNow c.updateNow).2.lastFPS = 60.0 := by
  have hc : g.calculateFPS c.calcNow = g := by
    unfold FPSCalculator.calculateFPS
    simp [hq]
  unfold FPSCalculator.GetFPS
  simp only [hc]
  split <;> exact ⟨hf, hq, hf⟩

theorem getFPSs_of_empty (reads : List GetFPSClock) (g : FPSCalculator)
    (hq : g.frameTimes = []) (hf : g.lastFPS = 60.0) :
    (g.getFPSs reads).1 = List.replicate reads.length 60.0 ∧
    (g.getFPSs reads).2.frameTimes = [] := by
  induction reads generalizing g with
  | nil => exact ⟨rfl, hq⟩
  | cons c rest ih =>
    obtain ⟨h1, h2, h3⟩ := GetFPS_of_empty g c hq hf
    obtain ⟨i1, i2⟩ := ih (g.GetFPS c.sinceNow c.calcNow c.updateNow).2 h2 h3
    unfold FPSCalculator.getFPSs
    simp only [List.length_cons, List.replicate_succ]
    exact ⟨by rw [h1, i1], i2⟩

theorem AddFrame_lastFPS (g : FPSCalculator) (now calcNow : Int)
    (ht : now - g.lastUpdate ≥ Second) :
    (g.AddFrame now calcNow).lastFPS
      = (FPSCalculator.calculateFPS
          { g with frameTimes := (g.AddFrame now calcNow).frameTimes } calcNow).lastFPS := by
  rw [(AddFrame_frameTimes g now calcNow).1]
  unfold FPSCalculator.AddFrame
  simp only [ht, if_true]
  split <;> rfl

/-! ## Lemmas on the Monitor -/

theorem Start_isRunning (m : Monitor) (env : StartEnv) : (m.Start env).isRunning = true := by
  unfold Monitor.Start
  by_cases h : m.isRunning = true
  · simp [h]
  · simp only [h, if_false]
    cases m.proc <;> cases env.cpuPercent <;> rfl

theorem Start_stopChanClosed (m : Monitor) (env : StartEnv) :
    (m.Start env).stopChanClosed = m.stopChanClosed := by
  unfold Monitor.Start
  by_cases h : m.isRunning = true
  · simp [h]
  · simp only [h, if_false]
    cases m.proc <;> cases env.cpuPercent <;> rfl

theorem Stop_of_running_open (m : Monitor) (hr : m.isRunning = true)
    (hc : m.stopChanClosed = false) :
    m.Stop = Except.ok { m with isRunning := false, stopChanClosed := true } := by
  simp [Monitor.Stop, hr, hc]

theorem Stop_of_running_closed (m : Monitor) (hr : m.isRunning = true)
    (hc : m.stopChanClosed = true) :
    m.Stop = Except.error "close of closed channel" := by
  simp [Monitor.Stop, hr, hc]

theorem calls_start (m : Monitor) (env : StartEnv) (rest : List MonitorCall) :
    m.calls (MonitorCall.start env :: rest) = (m.Start env).calls rest := rfl

theorem calls_stop_ok (m m' : Monitor) (rest : List MonitorCall) (h : m.Stop = Except.ok m') :
    m.calls (MonitorCall.stop :: rest) = m'.calls rest := by
  simp [Monitor.calls, h]

theorem calls_stop_error (m : Monitor) (e : String) (rest : List MonitorCall)
    (h : m.Stop = Except.error e) :
    m.calls (MonitorCall.stop :: rest) = Except.error e := by
  simp [Monitor.calls, h]

/-! ## Snapshots of the Monitor -/

theorem collectRealMetrics_tags (m : Monitor) (metric : PerformanceMetric) (env : CollectEnv) :
    (m.collectRealMetrics metric env).1.ComponentName = metric.ComponentName ∧
    (m.collectRealMetrics metric env).1.ComponentType = metric.ComponentType ∧
    (m.collectRealMetrics metric env).1.TestScenario = metric.TestScenario ∧
    (m.collectRealMetrics metric env).1.Timestamp = metric.Timestamp :=
  ⟨rfl, rfl, rfl, rfl⟩

theorem collectRealMetrics_monitor (m : Monitor) (metric : PerformanceMetric) (env : CollectEnv) :
    (m.collectRealMetrics metric env).2.metrics = m.metrics ∧
    (m.collectRealMetrics metric env).2.currentScenario = m.currentScenario ∧
    (m.collectRealMetrics metric env).2.componentName = m.componentName ∧
    (m.collectRealMetrics metric env).2.componentType = m.componentType ∧
    (m.collectRealMetrics metric env).2.isRunning = m.isRunning ∧
    (m.collectRealMetrics metric env).2.stopChanClosed = m.stopChanClosed :=
  ⟨rfl, rfl, rfl, rfl, rfl, rfl⟩

theorem recordSnapshot_spec (m : Monitor) (env : SnapshotEnv) :
    (∃ metric, (m.recordSnapshot env).metrics = m.metrics ++ [metric] ∧
      metric.ComponentName = m.componentName ∧ metric.ComponentType = m.componentType ∧
      metric.TestScenario = m.currentScenario) ∧
    (m.recordSnapshot env).currentScenario = m.currentScenario ∧
    (m.recordSnapshot env).componentName = m.componentName ∧
    (m.recordSnapshot env).componentType = m.componentType ∧
    (m.recordSnapshot env).isRunning = m.isRunning ∧
    (m.recordSnapshot env).stopChanClosed = m.stopChanClosed := by
  refine ⟨⟨(m.collectRealMetrics (NewPerformanceMetric m.componentName m.componentType
    m.currentScenario env.metricNow) env.collect).1, rfl, ?_, ?_, ?_⟩, rfl, rfl, rfl, rfl, rfl⟩
  · exact (collectRealMetrics_tags m _ env.collect).1
  · exact (collectRealMetrics_tags m _ env.collect).2.1
  · exact (collectRealMetrics_tags m _ env.collect).2.2.1

theorem Start_of_stopped (m : Monitor) (env : StartEnv) (h : m.isRunning = false) :
    (m.Start env).metrics = [] ∧ (m.Start env).totalFrames = 0 := by
  unfold Monitor.Start
  rw [if_neg (by simp [h])]
  dsimp only
  split <;> exact ⟨rfl, rfl⟩

theorem StartRecording_fields (m : Monitor) (c t s : String) (now : Int) (env : SnapshotEnv) :
    (∃ metric, (m.StartRecording c t s now env).metrics = m.metrics ++ [metric]) ∧
    (m.StartRecording c t s now env).isRunning = m.isRunning ∧
    (m.StartRecording c t s now env).stopChanClosed = m.stopChanClosed := by
  unfold Monitor.StartRecording
  obtain ⟨⟨metric, h, -⟩, -, -, -, h₁, h₂⟩ := recordSnapshot_spec
    { m with componentName := c, componentType := t, currentScenario := s, totalFrames := 0,
             startTime := now } env
  exact ⟨⟨metric, h⟩, h₁, h₂⟩

theorem StopRecording_fields (m : Monitor) (env : SnapshotEnv) :
    (∃ metric, (m.StopRecording env).metrics = m.metrics ++ [metric]) ∧
    (m.StopRecording env).isRunning = m.isRunning ∧
    (m.StopRecording env).stopChanClosed = m.stopChanClosed := by
  obtain ⟨⟨metric, h, -⟩, -, -, -, h₁, h₂⟩ := recordSnapshot_spec m env
  exact ⟨⟨metric, h⟩, h₁, h₂⟩

theorem Stop_metrics (m m' : Monitor) (h : m.Stop = Except.ok m') : m'.metrics = m.metrics := by
  unfold Monitor.Stop at h
  split at h
  · cases h; rfl
  · dsimp only at h
    split at h
    · cases h
    · cases h; rfl

/-- A session on a stopped Monitor whose stop channel is open: `Start`,
`StartRecording`, `Stop` leaves one metric, and with `StopRecording` before
`Stop` two. -/
theorem session_metrics (m : Monitor) (hr : m.isRunning = false) (hc : m.stopChanClosed = false)
    (e : StartEnv) (c t s : String) (now : Int) (r r' : SnapshotEnv) :
    (∃ m', ((m.Start e).StartRecording c t s now r).Stop = Except.ok m' ∧
      m'.metrics.length = 1) ∧
    (∃ m', (((m.Start e).StartRecording c t s now r).StopRecording r').Stop = Except.ok m' ∧
      m'.metrics.length = 2) := by
  obtain ⟨⟨x, hx⟩, hx₁, hx₂⟩ := StartRecording_fields (m.Start e) c t s now r
  obtain ⟨⟨y, hy⟩, hy₁, hy₂⟩ := StopRecording_fields ((m.Start e).StartRecording c t s now r) r'
  have h0 := (Start_of_stopped m e hr).1
  have hrun := Start_isRunning m e
  have hch := (Start_stopChanClosed m e).trans hc
  constructor
  · have hs := Stop_of_running_open _ (hx₁.trans hrun) (hx₂.trans hch)
    refine ⟨_, hs, ?_⟩
    rw [Stop_metrics _ _ hs, hx, h0]
    rfl
  · have hs := Stop_of_running_open _ (hy₁.trans (hx₁.trans hrun)) (hy₂.trans (hx₂.trans hch))
    refine ⟨_, hs, ?_⟩
    rw [Stop_metrics _ _ hs, hy, hx, h0]
    rfl

/-! ## The metric filled in by `collectRealMetrics` -/

namespace F64

theorem isNaN_mul_finiteNonzero (x c : F64) (hx : isNaN x = false)
    (hc : isFiniteNonzero c = true) : isNaN (x * c) = false := by
  rw [mul_def]
  cases x with
  | nan => cases hx
  | inf a =>
    cases c with
    | nan => cases hc
    | inf b => cases hc
    | fin b n =>
      have hn : n ≠ 0 := by simpa [isFiniteNonzero] using hc
      simp [mul, hn, isNaN]
  | fin a m =>
    cases c with
    | nan => cases hc
    | inf b => cases hc
    | fin b n => exact isNaN_mk _ _ _

theorem isNaN_div_finiteNonzero (x c : F64) (hx : isNaN x = false)
    (hc : isFiniteNonzero c = true) : isNaN (x / c) = false := by
  rw [div_def]
  cases x with
  | nan => cases hx
  | inf a =>
    cases c with
    | nan => cases hc
    | inf b => cases hc
    | fin b n => rfl
  | fin a m =>
    cases c with
    | nan => cases hc
    | inf b => cases hc
    | fin b n =>
      have hn : n ≠ 0 := by simpa [isFiniteNonzero] using hc
      simp only [div, hn, if_false]
      exact isNaN_mk _ _ _

theorem isNaN_ofNat (n : Nat) : isNaN (ofNat n) = false := isNaN_mk _ _ _

/-- The conversion of an integer below `2^63` is finite. -/
theorem ofNat_fin (n : Nat) (h : n < 2 ^ 63) : ∃ k, ofNat n = fin false k := by
  rcases mk_cases false (n * one_u) 1 with ⟨-, h₁⟩ | ⟨h₁, -⟩
  · exact ⟨_, h₁⟩
  · exfalso
    have h₂ : roundMag (n * one_u) 1 ≤ roundMag (2 ^ 63 * one_u) 1 :=
      roundMag_mono 1 (by decide) (Nat.mul_le_mul_right _ (Nat.le_of_lt h))
    have h₃ : roundMag (2 ^ 63 * one_u) 1 < ovf := by decide
    exact absurd (Nat.lt_of_le_of_lt (Nat.le_trans h₁ h₂) h₃) (Nat.lt_irrefl _)

/-- A finite number divided by a number above a positive one is a number. -/
theorem isNaN_fin_div (s : Bool) (k j : Nat) (hj : 0 < j) (y : F64)
    (hy : gt y (fin false j) = true) : isNaN (fin s k / y) = false := by
  rw [div_def]
  cases y with
  | nan => cases hy
  | inf b => rfl
  | fin b n =>
    have hn : n ≠ 0 := by
      rintro rfl
      have h := hy
      simp only [gt, lt_fin] at h
      cases b <;> simp [sval] at h <;> omega
    simp only [div, hn, if_false]
    exact isNaN_mk _ _ _

theorem lit_01 : ∃ k, 0 < k ∧ (0.1 : F64) = fin false k :=
  ⟨roundMag (1 * one_u) 10, by decide, by decide⟩

end F64

/-- The frame rate `collectRealMetrics` starts from: the reading of the
calculator, or the frame counter over the elapsed seconds when the reading is
not positive. -/
theorem collectRealMetrics_FPS (m : Monitor) (metric : PerformanceMetric) (env : CollectEnv) :
    (m.collectRealMetrics metric env).1.FPS =
      (if F64.lt
          (if F64.le (m.fpsCalculator.GetFPS env.fps.sinceNow env.fps.calcNow env.fps.updateNow).1 0
              && decide (m.totalFrames > 0) then
            (if F64.gt (Seconds (env.now - m.startTime)) 0.1 then
              F64.ofInt m.totalFrames / Seconds (env.now - m.startTime)
            else (m.fpsCalculator.GetFPS env.fps.sinceNow env.fps.calcNow env.fps.updateNow).1)
          else (m.fpsCalculator.GetFPS env.fps.sinceNow env.fps.calcNow env.fps.updateNow).1) 0.1
        then 0.1
        else
          (if F64.le (m.fpsCalculator.GetFPS env.fps.sinceNow env.fps.calcNow env.fps.updateNow).1 0
              && decide (m.totalFrames > 0) then
            (if F64.gt (Seconds (env.now - m.startTime)) 0.1 then
              F64.ofInt m.totalFrames / Seconds (env.now - m.startTime)
            else (m.fpsCalculator.GetFPS env.fps.sinceNow env.fps.calcNow env.fps.updateNow).1)
          else (m.fpsCalculator.GetFPS env.fps.sinceNow env.fps.calcNow env.fps.updateNow).1)) := by
  rfl

theorem collectRealMetrics_derived (m : Monitor) (metric : PerformanceMetric) (env : CollectEnv) :
    (m.collectRealMetrics metric env).1.RenderTimeMS =
      (if F64.gt (m.collectRealMetrics metric env).1.FPS 0
        then 1000.0 / (m.collectRealMetrics metric env).1.FPS else 16.67) ∧
    (m.collectRealMetrics metric env).1.UpdateTimeMS =
      (m.collectRealMetrics metric env).1.RenderTimeMS * 0.3 := by
  exact ⟨rfl, rfl⟩

theorem collectRealMetrics_CPUPercent (m : Monitor) (metric : PerformanceMetric)
    (env : CollectEnv) :
    (m.collectRealMetrics metric env).1.CPUPercent =
      clamp0to100
        (match m.proc, env.cpuPercent with
          | some _, some cpuPercent => (cpuPercent, cpuPercent)
          | some _, none => (m.lastCPUPercent, m.lastCPUPercent)
          | none, _ => (m.estimateCPUPercent env.estimateMemStats, m.lastCPUPercent)).1 := by
  rw [← clamp_steps]
  rfl

theorem estimateCPUPercent_isNaN (m : Monitor) (currentMemStats : MemStats) :
    F64.isNaN (m.estimateCPUPercent currentMemStats) = false := by
  have h : m.estimateCPUPercent currentMemStats =
      clamp0to100 (F64.ofNat ((currentMemStats.PauseTotalNs +
        (2 ^ 64 - m.lastMemStats.PauseTotalNs % 2 ^ 64)) % 2 ^ 64) / 1000000000 * 10 / 0.1 * 100) := by
    rw [← clamp_steps]
    rfl
  rw [h]
  refine F64.isNaN_of_le_right (clamp_bounds _ ?_).1
  refine F64.isNaN_mul_finiteNonzero _ _ ?_ (by decide)
  refine F64.isNaN_div_finiteNonzero _ _ ?_ (by decide)
  refine F64.isNaN_mul_finiteNonzero _ _ ?_ (by decide)
  exact F64.isNaN_div_finiteNonzero _ _ (F64.isNaN_ofNat _) (by decide)

/-- The frame rate before the floor at 0.1 is a number when the reading of the
calculator is one and the frame counter is an `int64`. -/
theorem fallbackFPS_isNaN (reading : F64) (totalFrames : Int) (elapsed : F64)
    (hr : F64.isNaN reading = false) (hf : totalFrames < 2 ^ 63) :
    F64.isNaN
      (if F64.le reading 0 && decide (totalFrames > 0) then
        (if F64.gt elapsed 0.1 then F64.ofInt totalFrames / elapsed else reading)
      else reading) = false := by
  split_ifs with h₁ h₂
  · have hpos : totalFrames > 0 := by
      have := (Bool.and_eq_true _ _).mp h₁
      exact of_decide_eq_true this.2
    obtain ⟨j, hj, e⟩ := F64.lit_01
    rw [e] at h₂
    have hn : (F64.ofInt totalFrames) = F64.ofNat totalFrames.toNat := by
      unfold F64.ofInt
      rw [if_neg (by omega)]
    obtain ⟨k, hk⟩ := F64.ofNat_fin totalFrames.toNat (by omega)
    rw [hn, hk]
    exact F64.isNaN_fin_div false k j hj elapsed h₂
  · exact hr
  · exact hr

/-- The floor of the frame rate at 0.1. -/
theorem floorFPS_ge (c : F64) (hc : F64.isNaN c = false) :
    F64.le 0.1 (if F64.lt c 0.1 then 0.1 else c) = true := by
  by_cases h : F64.lt c 0.1 = true
  · rw [if_pos h]
    decide
  · rw [if_neg h]
    exact F64.le_of_not_lt hc (by decide) (by simpa using h)

/-! ## The records of `ExportMetrics` -/

theorem csvWrite_ok (env : ExportEnv) (hw : ∀ k, env.writeError k = none)
    (written : List (List CSVField)) (record : List CSVField) :
    csvWrite env written record = Except.ok (written ++ [record]) := by
  unfold csvWrite
  rw [hw]

theorem writeRecords_ok (env : ExportEnv) (hw : ∀ k, env.writeError k = none)
    (metrics : List PerformanceMetric) (written : List (List CSVField)) :
    CSVExporter.writeRecords env metrics written
      = Except.ok (written ++ metrics.map CSVExporter.record) := by
  induction metrics generalizing written with
  | nil => simp [CSVExporter.writeRecords]
  | cons metric rest ih =>
    unfold CSVExporter.writeRecords
    rw [csvWrite_ok env hw]
    dsimp only
    rw [ih]
    simp

theorem writeRows_ok (env : ExportEnv) (hw : ∀ k, env.writeError k = none)
    (rows : List (List CSVField)) (written : List (List CSVField)) :
    CSVExporter.writeRows env rows written = Except.ok (written ++ rows) := by
  induction rows generalizing written with
  | nil => simp [CSVExporter.writeRows]
  | cons row rest ih =>
    unfold CSVExporter.writeRows
    rw [csvWrite_ok env hw]
    dsimp only
    rw [ih]
    simp

theorem ExportMetrics_ok (e : CSVExporter) (hh : e.includeHeader = true)
    (metrics : List PerformanceMetric) (hne : metrics ≠ [])
    (summary : Option (List (List CSVField))) (env : ExportEnv)
    (hc : env.createError = none) (hw : ∀ k, env.writeError k = none) :
    e.ExportMetrics metrics summary env
      = Except.ok (CSVExporter.headers :: metrics.map CSVExporter.record ++
          (match summary with
            | some summaryRows => [] :: [CSVField.text "=== 性能测试摘要 ==="] :: summaryRows
            | none => [])) := by
  unfold CSVExporter.ExportMetrics
  rw [if_neg (length_eq_zero_of_ne_nil hne), hc]
  dsimp only
  rw [if_pos hh, csvWrite_ok env hw]
  dsimp only
  rw [writeRecords_ok env hw]
  dsimp only
  cases summary with
  | none => simp
  | some summaryRows =>
    dsimp only
    unfold CSVExporter.writeSummary
    rw [csvWrite_ok env hw]
    dsimp only
    rw [csvWrite_ok env hw]
    dsimp only
    rw [writeRows_ok env hw]
    simp

/-! ## The values an `FPSCalculator` holds -/

theorem countFromNewest_le_length (oneSecondAgo : Int) (newestFirst : List Int) :
    countFromNewest oneSecondAgo newestFirst ≤ newestFirst.length := by
  induction newestFirst with
  | nil => simp [countFromNewest]
  | cons t older ih =>
    unfold countFromNewest
    split_ifs
    · simp only [List.length_cons]
      omega
    · omega

theorem sixty_lit_eq : (60.0 : F64) = 60 := by decide

/-- A recomputation keeps the value held, or replaces it by a count between 1
and the length of the queue. -/
theorem calculateFPS_lastFPS_cases (f : FPSCalculator) (now : Int) :
    (f.calculateFPS now).lastFPS = f.lastFPS ∨
      ∃ k, 1 ≤ k ∧ k ≤ f.frameTimes.length ∧ (f.calculateFPS now).lastFPS = F64.ofNat k := by
  unfold FPSCalculator.calculateFPS
  split
  · exact Or.inl rfl
  · simp only
    split
    · next h =>
      refine Or.inr ⟨countFromNewest (now + -Second) f.frameTimes.reverse, h, ?_, rfl⟩
      have := countFromNewest_le_length (now + -Second) f.frameTimes.reverse
      rw [List.length_reverse] at this
      exact this
    · exact Or.inl rfl

theorem calculateFPS_held (n : Nat) (f : FPSCalculator) (now : Int)
    (hl : f.frameTimes.length ≤ n)
    (hv : f.lastFPS = 60 ∨ ∃ k, 1 ≤ k ∧ k ≤ n ∧ f.lastFPS = F64.ofNat k) :
    (f.calculateFPS now).lastFPS = 60 ∨
      ∃ k, 1 ≤ k ∧ k ≤ n ∧ (f.calculateFPS now).lastFPS = F64.ofNat k := by
  rcases calculateFPS_lastFPS_cases f now with h | ⟨k, h₁, h₂, h₃⟩
  · rw [h]
    exact hv
  · exact Or.inr ⟨k, h₁, Nat.le_trans h₂ hl, h₃⟩

theorem AddFrame_held (n : Nat) (f : FPSCalculator) (now calcNow : Int)
    (hm : f.maxSamples = n) (hl : f.frameTimes.length ≤ n)
    (hv : f.lastFPS = 60 ∨ ∃ k, 1 ≤ k ∧ k ≤ n ∧ f.lastFPS = F64.ofNat k) :
    (f.AddFrame now calcNow).maxSamples = n ∧ (f.AddFrame now calcNow).frameTimes.length ≤ n ∧
    ((f.AddFrame now calcNow).lastFPS = 60 ∨
      ∃ k, 1 ≤ k ∧ k ≤ n ∧ (f.AddFrame now calcNow).lastFPS = F64.ofNat k) := by
  have hq := AddFrame_frameTimes f now calcNow
  have hlen : (f.AddFrame now calcNow).frameTimes.length ≤ n := by
    rw [hq.1]
    split
    · simp only [List.length_drop, List.length_append, List.length_singleton]
      omega
    · next h =>
      rw [hm] at h
      omega
  refine ⟨hq.2.trans hm, hlen, ?_⟩
  by_cases ht : now - f.lastUpdate ≥ Second
  · rw [AddFrame_lastFPS f now calcNow ht]
    exact calculateFPS_held n { f with frameTimes := (f.AddFrame now calcNow).frameTimes }
      calcNow hlen hv
  · have e : (f.AddFrame now calcNow).lastFPS = f.lastFPS := by
      unfold FPSCalculator.AddFrame
      simp only [ht, if_false]
      split <;> rfl
    rw [e]
    exact hv

theorem GetFPS_held (n : Nat) (f : FPSCalculator) (c : GetFPSClock)
    (hm : f.maxSamples = n) (hl : f.frameTimes.length ≤ n)
    (hv : f.lastFPS = 60 ∨ ∃ k, 1 ≤ k ∧ k ≤ n ∧ f.lastFPS = F64.ofNat k) :
    (f.GetFPS c.sinceNow c.calcNow c.updateNow).2.maxSamples = n ∧
    (f.GetFPS c.sinceNow c.calcNow c.updateNow).2.frameTimes.length ≤ n ∧
    ((f.GetFPS c.sinceNow c.calcNow c.updateNow).2.lastFPS = 60 ∨
      ∃ k, 1 ≤ k ∧ k ≤ n ∧ (f.GetFPS c.sinceNow c.calcNow c.updateNow).2.lastFPS = F64.ofNat k) ∧
    (f.GetFPS c.sinceNow c.calcNow c.updateNow).1
      = (f.GetFPS c.sinceNow c.calcNow c.updateNow).2.lastFPS := by
  have hk := calculateFPS_frameTimes f c.calcNow
  have hh := calculateFPS_held n f c.calcNow hl hv
  unfold FPSCalculator.GetFPS
  by_cases h : c.sinceNow - f.lastUpdate > 2 * Second
  · simp only [h, if_true]
    exact ⟨hk.2.1.trans hm, by rw [hk.1]; exact hl, hh, trivial⟩
  · simp only [h, if_false]
    exact ⟨hm, hl, hv, trivial⟩

theorem call_held (n : Nat) (f : FPSCalculator) (c : FPSCall)
    (hm : f.maxSamples = n) (hl : f.frameTimes.length ≤ n)
    (hv : f.lastFPS = 60 ∨ ∃ k, 1 ≤ k ∧ k ≤ n ∧ f.lastFPS = F64.ofNat k) :
    (f.call c).maxSamples = n ∧ (f.call c).frameTimes.length ≤ n ∧
    ((f.call c).lastFPS = 60 ∨ ∃ k, 1 ≤ k ∧ k ≤ n ∧ (f.call c).lastFPS = F64.ofNat k) := by
  cases c with
  | addFrame c => exact AddFrame_held n f c.now c.calcNow hm hl hv
  | getFPS c =>
    obtain ⟨h₁, h₂, h₃, -⟩ := GetFPS_held n f c hm hl hv
    exact ⟨h₁, h₂, h₃⟩
  | reset now => exact ⟨hm, Nat.zero_le _, Or.inl sixty_lit_eq⟩

theorem calls_held (n : Nat) (cs : List FPSCall) (f : FPSCalculator)
    (hm : f.maxSamples = n) (hl : f.frameTimes.length ≤ n)
    (hv : f.lastFPS = 60 ∨ ∃ k, 1 ≤ k ∧ k ≤ n ∧ f.lastFPS = F64.ofNat k) :
    (f.calls cs).maxSamples = n ∧ (f.calls cs).frameTimes.length ≤ n ∧
    ((f.calls cs).lastFPS = 60 ∨ ∃ k, 1 ≤ k ∧ k ≤ n ∧ (f.calls cs).lastFPS = F64.ofNat k) := by
  induction cs generalizing f with
  | nil => exact ⟨hm, hl, hv⟩
  | cons c rest ih =>
    obtain ⟨h₁, h₂, h₃⟩ := call_held n f c hm hl hv
    exact ih (f.call c) h₁ h₂ h₃

/-- The conversion of a count of at least one is positive, at least 0.1, and
at most the conversion of any bound of the count. -/
theorem ofNat_count_bounds (k b : Nat) (h₁ : 1 ≤ k) (h₂ : k ≤ b) :
    F64.le (F64.ofNat k) 0 = false ∧ F64.lt (F64.ofNat k) 0.1 = false ∧
    F64.le (F64.ofNat k) (F64.ofNat b) = true := by
  have hone : F64.le 1 (F64.ofNat k) = true :=
    F64.mk_nonneg_le (1 * F64.one_u) (k * F64.one_u) 1 (by decide)
      (Nat.mul_le_mul_right _ h₁)
  have h01 : F64.le 0.1 (F64.ofNat k) = true := F64.le_trans (by decide) hone
  have hpos : F64.lt 0 (F64.ofNat k) = true := F64.lt_of_lt_of_le (by decide) hone
  refine ⟨F64.not_le_of_lt hpos, ?_, ?_⟩
  · cases h : F64.lt (F64.ofNat k) 0.1 with
    | false => rfl
    | true => rw [F64.not_le_of_lt h] at h01; cases h01
  · exact F64.mk_nonneg_le (k * F64.one_u) (b * F64.one_u) 1 (by decide)
      (Nat.mul_le_mul_right _ h₂)

/-! ## Exact whole numbers -/

namespace F64

/-- A whole number below `2^53` is representable. -/
theorem whole_representable (k : Nat) (hk : k < 2 ^ 53) :
    (k * one_u) % 2 ^ dropBits (k * one_u) = 0 := by
  rcases Nat.eq_zero_or_pos k with rfl | hpos
  · simp
  · have hu : one_u = 2 ^ 1074 := rfl
    have h1 : 1 ≤ k * one_u := Nat.mul_pos hpos one_u_pos
    have h2 : 2 ^ ilog2 (k * one_u) ≤ k * one_u := two_pow_ilog2_le h1
    have h3 : k * one_u < 2 ^ 53 * 2 ^ 1074 := by
      rw [hu]
      exact Nat.mul_lt_mul_of_pos_right hk (Nat.two_pow_pos _)
    have h4 : 2 ^ ilog2 (k * one_u) < 2 ^ (53 + 1074) := by
      rw [Nat.pow_add]
      exact Nat.lt_of_le_of_lt h2 h3
    have h5 : ilog2 (k * one_u) < 53 + 1074 := (Nat.pow_lt_pow_iff_right (by decide)).mp h4
    have h6 : dropBits (k * one_u) ≤ 1074 := by
      unfold dropBits
      omega
    apply Nat.mod_eq_zero_of_dvd
    rw [hu]
    exact Dvd.dvd.mul_left (Nat.pow_dvd_pow 2 h6) k

theorem whole_lt_ovf (k : Nat) (hk : k < 2 ^ 53) : k * one_u < ovf := by
  have hu : one_u = 2 ^ 1074 := rfl
  have ho : ovf = 2 ^ 53 * 2 ^ 1074 * 2 ^ 971 := by
    rw [← Nat.pow_add, ← Nat.pow_add]
    rfl
  have h3 : k * one_u < 2 ^ 53 * 2 ^ 1074 := by
    rw [hu]
    exact Nat.mul_lt_mul_of_pos_right hk (Nat.two_pow_pos _)
  rw [ho]
  exact Nat.lt_of_lt_of_le h3 (Nat.le_mul_of_pos_right _ (Nat.two_pow_pos _))

/-- Rounding the quotient `g * d / d` of a representable magnitude `g`. -/
theorem mk_exact (s : Bool) (g d : Nat) (hd : 0 < d) (hg : g % 2 ^ dropBits g = 0)
    (hlt : g < ovf) : mk s (g * d) d = fin s g := by
  unfold mk
  simp only [roundMag_exact g d hd hg, hlt, if_true]

theorem ofNat_exact (k : Nat) (hk : k < 2 ^ 53) : ofNat k = fin false (k * one_u) := by
  unfold ofNat
  have := mk_exact false (k * one_u) 1 (by decide) (whole_representable k hk) (whole_lt_ovf k hk)
  rw [Nat.mul_one] at this
  exact this

/-- The sum of two whole numbers is exact while it stays below `2^53`. -/
theorem add_whole (a b : Nat) (h : a + b < 2 ^ 53) :
    fin false (a * one_u) + fin false (b * one_u) = fin false ((a + b) * one_u) := by
  have e : a * one_u + b * one_u = (a + b) * one_u * 1 := by
    rw [Nat.mul_one, Nat.add_mul]
  have hm : fin false (a * one_u) + fin false (b * one_u)
      = mk false (a * one_u + b * one_u) 1 := by
    rw [add_def]
    unfold add
    exact if_pos rfl
  rw [hm, e]
  exact mk_exact false ((a + b) * one_u) 1 (by decide) (whole_representable _ h)
    (whole_lt_ovf _ h)

end F64

theorem seriesSum_whole (ks : List Nat) (s : Nat) (h : s + ks.sum < 2 ^ 53) :
    (ks.map F64.ofNat).foldl (fun x v => x + v) (F64.fin false (s * F64.one_u))
      = F64.fin false ((s + ks.sum) * F64.one_u) := by
  induction ks generalizing s with
  | nil => simp
  | cons k rest ih =>
    simp only [List.map_cons, List.foldl_cons, List.sum_cons] at h ⊢
    have hk : k < 2 ^ 53 := by omega
    rw [F64.ofNat_exact k hk, F64.add_whole s k (by omega), ih (s + k) (by omega), Nat.add_assoc]

/-! ## Order of the statistics -/

theorem round2_mono {x y : F64} (h : F64.le x y = true) :
    F64.le (round2 x) (round2 y) = true := by
  unfold round2
  rw [F64.hundred_eq]
  exact F64.div_le_div_right_fin _ (by decide)
    (F64.round_mono (F64.mul_le_mul_right_fin _ (by decide) h))

theorem round2_zero : round2 0 = 0 := by decide

/-- After the first loop, `min` is a lower bound of the start value and of
every element, and `max` an upper bound of them. -/
theorem foldl_statsStep_bounds (values : List F64) (a : StatsAcc)
    (hv : ∀ v ∈ values, F64.isNaN v = false)
    (hmin : F64.isNaN a.min = false) (hmax : F64.isNaN a.max = false) :
    F64.le (values.foldl statsStep a).min a.min = true ∧
    F64.le a.max (values.foldl statsStep a).max = true ∧
    (∀ v ∈ values, F64.le (values.foldl statsStep a).min v = true ∧
      F64.le v (values.foldl statsStep a).max = true) := by
  induction values generalizing a with
  | nil => exact ⟨F64.le_refl _ hmin, F64.le_refl _ hmax, fun v h => absurd h (List.not_mem_nil v)⟩
  | cons v rest ih =>
    have hvn : F64.isNaN v = false := hv v (List.mem_cons_self _ _)
    have hrest : ∀ w ∈ rest, F64.isNaN w = false := fun w hw => hv w (List.mem_cons_of_mem _ hw)
    -- the step
    have hs₁ : F64.le (statsStep a v).min a.min = true ∧ F64.le (statsStep a v).min v = true := by
      unfold statsStep
      dsimp only
      by_cases h : F64.lt v a.min = true
      · rw [if_pos h]
        exact ⟨F64.le_of_lt h, F64.le_refl _ hvn⟩
      · rw [if_neg h]
        exact ⟨F64.le_refl _ hmin, F64.le_of_not_lt hvn hmin (by simpa using h)⟩
    have hs₂ : F64.le a.max (statsStep a v).max = true ∧ F64.le v (statsStep a v).max = true := by
      unfold statsStep
      dsimp only
      by_cases h : F64.gt v a.max = true
      · rw [if_pos h]
        exact ⟨F64.le_of_lt h, F64.le_refl _ hvn⟩
      · rw [if_neg h]
        exact ⟨F64.le_refl _ hmax, F64.le_of_not_lt hmax hvn (by simpa [F64.gt] using h)⟩
    obtain ⟨i₁, i₂, i₃⟩ := ih (statsStep a v) hrest (F64.isNaN_of_le_left hs₁.1)
      (F64.isNaN_of_le_right hs₂.1)
    simp only [List.foldl_cons]
    refine ⟨F64.le_trans i₁ hs₁.1, F64.le_trans hs₂.1 i₂, ?_⟩
    intro w hw
    rcases List.mem_cons.mp hw with rfl | hw
    · exact ⟨F64.le_trans i₁ hs₁.2, F64.le_trans hs₂.2 i₂⟩
    · exact i₃ w hw

namespace F64

/-- The quotient of the whole numbers `s` and `n` lies between whole numbers
`a` and `b` with `a * n ≤ s ≤ b * n`. -/
theorem whole_div_bounds (s n a b : Nat) (hn : 0 < n) (ha : a * n ≤ s) (hb : s ≤ b * n)
    (hA : a < 2 ^ 53) (hB : b < 2 ^ 53) :
    le (fin false (a * one_u)) (fin false (s * one_u) / fin false (n * one_u)) = true ∧
    le (fin false (s * one_u) / fin false (n * one_u)) (fin false (b * one_u)) = true := by
  have hd : 0 < n * one_u := Nat.mul_pos hn one_u_pos
  have hq : fin false (s * one_u) / fin false (n * one_u)
      = mk false (s * one_u * one_u) (n * one_u) := by
    rw [div_def]
    show (if n * one_u = 0 then _ else mk (false != false) (s * one_u * one_u) (n * one_u)) = _
    rw [if_neg (Nat.pos_iff_ne_zero.mp hd)]
    rfl
  have ea := mk_exact false (a * one_u) (n * one_u) hd (whole_representable a hA)
    (whole_lt_ovf a hA)
  have eb := mk_exact false (b * one_u) (n * one_u) hd (whole_representable b hB)
    (whole_lt_ovf b hB)
  rw [hq, ← ea, ← eb]
  constructor
  · apply mk_nonneg_le _ _ _ hd
    calc a * one_u * (n * one_u) = a * n * (one_u * one_u) := by ring
      _ ≤ s * (one_u * one_u) := Nat.mul_le_mul_right _ ha
      _ = s * one_u * one_u := by ring
  · apply mk_nonneg_le _ _ _ hd
    calc s * one_u * one_u = s * (one_u * one_u) := by ring
      _ ≤ b * n * (one_u * one_u) := Nat.mul_le_mul_right _ hb
      _ = b * one_u * (n * one_u) := by ring

end F64

namespace F64

theorem le_zero_mk (s : Bool) (N d : Nat) (hd : 0 < d) (h : 0 ≤ sval s N) :
    le 0 (mk s N d) = true := by
  have := mk_le_mk false s 0 N d hd (by rw [sval_nonneg]; exact h)
  rw [mk_zero] at this
  exact this

theorem nonneg_cases {x : F64} (h : le 0 x = true) :
    x = inf false ∨ ∃ s m, x = fin s m ∧ 0 ≤ sval s m := by
  cases x with
  | nan => cases h
  | inf s =>
    cases s with
    | false => exact Or.inl rfl
    | true => cases h
  | fin s m =>
    refine Or.inr ⟨s, m, rfl, ?_⟩
    rw [zero_eq, le_fin, sval_nonneg] at h
    exact h

theorem add_nonneg {x y : F64} (hx : le 0 x = true) (hy : le 0 y = true) :
    le 0 (x + y) = true := by
  rcases nonneg_cases hx with rfl | ⟨a, m, rfl, hm⟩ <;>
    rcases nonneg_cases hy with rfl | ⟨c, k, rfl, hk⟩
  · rfl
  · rfl
  · rfl
  · obtain ⟨s, N, e, hs⟩ := add_fin_fin a c m k
    rw [add_def, e]
    exact le_zero_mk s N 1 (by decide) (by rw [hs]; omega)

theorem isNaN_add_fin (x : F64) (s : Bool) (m : Nat) (hx : isNaN x = false) :
    isNaN (x + fin s m) = false := by
  cases x with
  | nan => cases hx
  | inf a => rfl
  | fin a k =>
    obtain ⟨t, N, e, -⟩ := add_fin_fin a s k m
    rw [add_def, e]
    exact isNaN_mk _ _ _

theorem isNaN_fin_sub (s : Bool) (m : Nat) (x : F64) (hx : isNaN x = false) :
    isNaN (fin s m - x) = false := by
  cases x with
  | nan => cases hx
  | inf a => rfl
  | fin a k =>
    obtain ⟨t, N, e, -⟩ := add_fin_fin s (!a) m k
    rw [sub_def]
    show isNaN (add (fin s m) (fin (!a) k)) = false
    rw [e]
    exact isNaN_mk _ _ _

theorem mul_self_nonneg (d : F64) (hd : isNaN d = false) : le 0 (d * d) = true := by
  cases d with
  | nan => cases hd
  | inf a => cases a <;> rfl
  | fin a m =>
    rw [mul_def]
    show le 0 (mk (a != a) (m * m) one_u) = true
    have e : (a != a) = false := by cases a <;> rfl
    rw [e]
    exact le_zero_mk false (m * m) one_u one_u_pos (by rw [sval_nonneg]; omega)

theorem div_nonneg_fin {x : F64} (k : Nat) (hk : 0 < k) (hx : le 0 x = true) :
    le 0 (x / fin false k) = true := by
  have := div_le_div_right_fin k hk hx
  rw [zero_eq, zero_div_pos k hk] at this
  rw [zero_eq]
  exact this

theorem sqrt_nonneg {x : F64} (hx : le 0 x = true) : le 0 (sqrt x) = true := by
  rcases nonneg_cases hx with rfl | ⟨s, m, rfl, hm⟩
  · rfl
  · show le 0 (if m = 0 then fin s 0 else if s = true then nan else fin false (sqrtMag m)) = true
    by_cases h0 : m = 0
    · subst h0
      rw [if_pos rfl]
      exact hx
    · rw [if_neg h0]
      cases s with
      | false =>
        rw [if_neg (by decide), zero_eq, le_fin, sval_nonneg, sval_nonneg]
        omega
      | true =>
        exfalso
        rw [sval_nonpos] at hm
        omega

/-- The conversion of a length between 1 and `2^63` is finite and positive. -/
theorem ofNat_length_fin (n : Nat) (h₁ : 0 < n) (h₂ : n < 2 ^ 63) :
    ∃ k, 0 < k ∧ ofNat n = fin false k := by
  obtain ⟨j, hj⟩ := ofNat_fin n h₂
  rcases ofNat_pos n h₁ with h | h
  · exact h
  · rw [hj] at h
    cases h

end F64

theorem seriesSum_isNaN (values : List F64) (z : F64) (hz : F64.isNaN z = false)
    (hfin : ∀ v ∈ values, ∃ s m, v = F64.fin s m) :
    F64.isNaN (values.foldl (fun s v => s + v) z) = false := by
  induction values generalizing z with
  | nil => exact hz
  | cons v rest ih =>
    obtain ⟨s, m, rfl⟩ := hfin _ (List.mem_cons_self _ _)
    exact ih _ (F64.isNaN_add_fin z s m hz) (fun w hw => hfin w (List.mem_cons_of_mem _ hw))

theorem seriesSum_nonneg (terms : List F64) (z : F64) (hz : F64.le 0 z = true)
    (h : ∀ t ∈ terms, F64.le 0 t = true) :
    F64.le 0 (terms.foldl (fun s v => s + v) z) = true := by
  induction terms generalizing z with
  | nil => exact hz
  | cons t rest ih =>
    exact ih _ (F64.add_nonneg hz (h t (List.mem_cons_self _ _)))
      (fun w hw => h w (List.mem_cons_of_mem _ hw))

/-- The standard deviation of a series of finite values is not negative. -/
theorem sqrt_populationVariance_nonneg (values : List F64) (h : values ≠ [])
    (hlen : values.length < 2 ^ 63) (hfin : ∀ v ∈ values, ∃ s m, v = F64.fin s m) :
    F64.le 0 (F64.sqrt (populationVariance values)) = true := by
  obtain ⟨k, hk, en⟩ := F64.ofNat_length_fin values.length (List.length_pos.mpr h) hlen
  have hmean : F64.isNaN (seriesMean values) = false := by
    unfold seriesMean seriesSum
    rw [en]
    exact F64.isNaN_div_finiteNonzero _ _ (seriesSum_isNaN values 0 (by decide) hfin)
      (by simpa [F64.isFiniteNonzero] using Nat.pos_iff_ne_zero.mp hk)
  apply F64.sqrt_nonneg
  unfold populationVariance seriesSum
  rw [en]
  apply F64.div_nonneg_fin k hk
  apply seriesSum_nonneg _ 0 (by decide)
  intro t ht
  obtain ⟨v, hv, rfl⟩ := List.mem_map.mp ht
  obtain ⟨s, m, rfl⟩ := hfin v hv
  exact F64.mul_self_nonneg _ (F64.isNaN_fin_sub s m _ hmean)

theorem exists_mean_bounds (ks : List Nat) (h : ks ≠ []) :
    (∃ a ∈ ks, a * ks.length ≤ ks.sum) ∧ (∃ b ∈ ks, ks.sum ≤ b * ks.length) := by
  induction ks with
  | nil => exact absurd rfl h
  | cons k rest ih =>
    by_cases hr : rest = []
    · subst hr
      exact ⟨⟨k, List.mem_cons_self _ _, by simp⟩, ⟨k, List.mem_cons_self _ _, by simp⟩⟩
    · obtain ⟨⟨a, ha, ha'⟩, ⟨b, hb, hb'⟩⟩ := ih hr
      simp only [List.length_cons, List.sum_cons]
      constructor
      · by_cases hka : k ≤ a
        · refine ⟨k, List.mem_cons_self _ _, ?_⟩
          have : k * rest.length ≤ a * rest.length := Nat.mul_le_mul_right _ hka
          rw [Nat.mul_succ]
          omega
        · refine ⟨a, List.mem_cons_of_mem _ ha, ?_⟩
          rw [Nat.mul_succ]
          omega
      · by_cases hkb : b ≤ k
        · refine ⟨k, List.mem_cons_self _ _, ?_⟩
          have : b * rest.length ≤ k * rest.length := Nat.mul_le_mul_right _ hkb
          rw [Nat.mul_succ]
          omega
        · refine ⟨b, List.mem_cons_of_mem _ hb, ?_⟩
          rw [Nat.mul_succ]
          omega

theorem le_sum_of_mem (ks : List Nat) (k : Nat) (h : k ∈ ks) : k ≤ ks.sum := by
  induction ks with
  | nil => cases h
  | cons x rest ih =>
    simp only [List.sum_cons]
    rcases List.mem_cons.mp h with rfl | h'
    · omega
    · have := ih h'
      omega

/-! ## Significance and confidence -/

namespace F64

theorem two_eq : (2 : F64) = fin false (2 * one_u) := by decide
theorem three_eq : (3 : F64) = fin false (3 * one_u) := by decide

theorem ilog2_lt_of_lt_ovf {c : Nat} (h1 : 1 ≤ c) (hc : c < ovf) : ilog2 c < 2098 := by
  have h2 : 2 ^ ilog2 c ≤ c := two_pow_ilog2_le h1
  have h3 : 2 ^ ilog2 c < 2 ^ 2098 := Nat.lt_of_le_of_lt h2 hc
  exact (Nat.pow_lt_pow_iff_right (by decide)).mp h3

/-- Twice a representable magnitude is representable. -/
theorem representable_double (c : Nat) (hc : c < ovf) (h : c % 2 ^ dropBits c = 0) :
    (2 * c) % 2 ^ dropBits (2 * c) = 0 := by
  rcases Nat.eq_zero_or_pos c with rfl | hpos
  · simp
  · have hl := ilog2_lt_of_lt_ovf hpos hc
    have h1 : c < 2 ^ (ilog2 c + 1) := lt_two_pow_ilog2 (by omega)
    have h2 : 2 ^ ilog2 (2 * c) ≤ 2 * c := two_pow_ilog2_le (by omega)
    have h3 : 2 ^ ilog2 (2 * c) < 2 ^ (ilog2 c + 2) := by
      have : 2 * c < 2 ^ (ilog2 c + 2) := by
        rw [show ilog2 c + 2 = (ilog2 c + 1) + 1 from rfl, Nat.pow_succ]
        omega
      exact Nat.lt_of_le_of_lt h2 this
    have h4 : ilog2 (2 * c) < ilog2 c + 2 := (Nat.pow_lt_pow_iff_right (by decide)).mp h3
    have h5 : dropBits (2 * c) ≤ dropBits c + 1 := by
      unfold dropBits
      omega
    apply Nat.mod_eq_zero_of_dvd
    have d1 : 2 ^ dropBits (2 * c) ∣ 2 ^ (dropBits c + 1) := Nat.pow_dvd_pow 2 h5
    have d2 : 2 ^ (dropBits c + 1) ∣ 2 * c := by
      rw [Nat.pow_succ, Nat.mul_comm]
      exact Nat.mul_dvd_mul_left 2 (Nat.dvd_of_mod_eq_zero h)
    exact Nat.dvd_trans d1 d2

/-- Doubling a representable magnitude is exact, or overflows. -/
theorem mul_two_fin (c : Nat) (hc : c < ovf) (h : c % 2 ^ dropBits c = 0) :
    fin false c * 2 = if 2 * c < ovf then fin false (2 * c) else inf false := by
  have e : c * (2 * one_u) = 2 * c * one_u := by ring
  have hm : fin false c * 2 = mk false (2 * c * one_u) one_u := by
    rw [two_eq, mul_def, ← e]
    rfl
  rw [hm]
  unfold mk
  simp only [roundMag_exact (2 * c) one_u one_u_pos (representable_double c hc h)]

theorem fin_div_fin (a c : Nat) (hc : 0 < c) :
    fin false a / fin false c = mk false (a * one_u) c := by
  rw [div_def]
  show (if c = 0 then _ else mk (false != false) (a * one_u) c) = _
  rw [if_neg (Nat.pos_iff_ne_zero.mp hc)]
  rfl

theorem two_le_ratio (a c : Nat) (hc : 0 < c) (h : 2 * c ≤ a) :
    le 2 (fin false a / fin false c) = true := by
  have e := mk_exact false (2 * one_u) c hc (whole_representable 2 (by decide))
    (whole_lt_ovf 2 (by decide))
  rw [fin_div_fin a c hc, two_eq, ← e]
  apply mk_nonneg_le _ _ _ hc
  calc 2 * one_u * c = 2 * c * one_u := by ring
    _ ≤ a * one_u := Nat.mul_le_mul_right _ h

theorem ratio_le_two (a c : Nat) (hc : 0 < c) (h : a ≤ 2 * c) :
    le (fin false a / fin false c) 2 = true := by
  have e := mk_exact false (2 * one_u) c hc (whole_representable 2 (by decide))
    (whole_lt_ovf 2 (by decide))
  rw [fin_div_fin a c hc, two_eq, ← e]
  apply mk_nonneg_le _ _ _ hc
  calc a * one_u ≤ 2 * c * one_u := Nat.mul_le_mul_right _ h
    _ = 2 * one_u * c := by ring

end F64

theorem calculateConfidenceLevel_of_ratio (x cv : F64) (h0 : F64.eq cv 0 = false) :
    (F64.le 2 (x / cv) = true →
      calculateConfidenceLevel x cv = "high" ∨ calculateConfidenceLevel x cv = "very high") ∧
    (calculateConfidenceLevel x cv = "very high" → F64.le 3 (x / cv) = true) := by
  unfold calculateConfidenceLevel
  simp only [h0, Bool.false_eq_true, if_false, F64.ge]
  constructor
  · intro h
    by_cases h3 : F64.le 3 (x / cv) = true
    · exact Or.inr (by rw [if_pos h3])
    · exact Or.inl (by rw [if_neg h3, if_pos h])
  · intro h
    by_cases h3 : F64.le 3 (x / cv) = true
    · exact h3
    · rw [if_neg h3] at h
      split_ifs at h <;> exact absurd h (by decide)

/-- Significance against confidence, for one metric whose coefficient of
variation `cv` is a `float64` that doubles without overflow. -/
theorem significance_confidence (d cv : F64) (hcv : F64.le 0 cv = true)
    (hb : F64.isBinary64 cv = true) (h2c : ∀ s c, cv = F64.fin s c → 2 * c < F64.ovf)
    (hd : F64.isBinary64 d = true) :
    (F64.gt (F64.abs d) (cv * 2) = true →
      calculateConfidenceLevel (F64.abs d) cv = "high" ∨
      calculateConfidenceLevel (F64.abs d) cv = "very high") ∧
    (calculateConfidenceLevel (F64.abs d) cv = "very high" →
      F64.gt (F64.abs d) (cv * 2) = true) := by
  rcases F64.nonneg_cases hcv with rfl | ⟨s, c, rfl, hs⟩
  · -- an infinite coefficient of variation: never significant, never "very high"
    constructor
    · intro h
      cases d <;> cases h
    · intro hl
      exfalso
      have := (calculateConfidenceLevel_of_ratio (F64.abs d) (F64.inf false) (by decide)).2 hl
      cases d <;> cases this
  · rcases Nat.eq_zero_or_pos c with rfl | hc
    · -- a zero coefficient of variation: the label is "high"
      have hl : calculateConfidenceLevel (F64.abs d) (F64.fin s 0) = "high" := by
        unfold calculateConfidenceLevel
        rw [if_pos (F64.eq_zero_of_mag_zero s)]
      rw [hl]
      exact ⟨fun _ => Or.inl rfl, fun h => absurd h (by decide)⟩
    · have hsf : s = false := by
        cases s with
        | false => rfl
        | true =>
          rw [F64.sval_nonpos] at hs
          omega
      subst hsf
      have hrep : c % 2 ^ F64.dropBits c = 0 ∧ c < F64.ovf := by
        simpa [F64.isBinary64] using hb
      have h2 : 2 * c < F64.ovf := h2c false c rfl
      have h0 : F64.eq (F64.fin false c) 0 = false := by
        rw [F64.zero_eq]
        exact F64.eq_fin_pos_zero c hc
      obtain ⟨l₁, l₂⟩ := calculateConfidenceLevel_of_ratio (F64.abs d) (F64.fin false c) h0
      rw [F64.mul_two_fin c hrep.2 hrep.1, if_pos h2]
      cases d with
      | nan =>
        exact ⟨fun h => (by cases h), fun hl => (by cases l₂ hl)⟩
      | inf a =>
        exact ⟨fun _ => l₁ rfl, fun _ => rfl⟩
      | fin a m =>
        show (F64.gt (F64.fin false m) _ = true → _) ∧ _
        constructor
        · intro h
          apply l₁
          apply F64.two_le_ratio m c hc
          simp only [F64.gt, F64.lt_fin, F64.sval_nonneg] at h
          omega
        · intro hl
          have h3 := l₂ hl
          have h32 : F64.le 3 2 = false := by decide
          rcases Nat.lt_or_ge (2 * c) m with hlt | hge
          · simp only [F64.abs, F64.gt, F64.lt_fin, F64.sval_nonneg]
            omega
          · have := F64.le_trans h3 (F64.ratio_le_two m c hc hge)
            rw [h32] at this
            cases this

namespace F64

/-! ## Lemmas on `math.Pow(x, 2)` -/

theorem ilog2_lt_8192 (n : Nat) : ilog2 n < 8192 := by
  rcases Nat.eq_zero_or_pos n with rfl | h0
  · rw [ilog2_zero]; decide
  · have := (ilog2Aux_spec n 13 0 (by simpa using h0)).2.2.1
    simpa using this

theorem ilog2_lt_of_lt_pow {n k : Nat} (hk : 0 < k) (h : n < 2 ^ k) : ilog2 n < k := by
  rcases Nat.eq_zero_or_pos n with rfl | h0
  · rw [ilog2_zero]; exact hk
  · have h2 : 2 ^ ilog2 n ≤ n := two_pow_ilog2_le h0
    exact (Nat.pow_lt_pow_iff_right (by decide)).mp (Nat.lt_of_le_of_lt h2 h)

theorem ilog2_eq {n e : Nat} (h1 : 2 ^ e ≤ n) (h2 : n < 2 ^ (e + 1)) (he : e < 8191) :
    ilog2 n = e := by
  have hl : ilog2 n < e + 1 := ilog2_lt_of_lt_pow (by omega) h2
  have h3 : n < 2 ^ (ilog2 n + 1) := lt_two_pow_ilog2 (by omega)
  have h4 : e < ilog2 n + 1 :=
    (Nat.pow_lt_pow_iff_right (by decide)).mp (Nat.lt_of_le_of_lt h1 h3)
  omega

theorem le_ilog2 {n e : Nat} (h : 2 ^ e ≤ n) (hn : n < 2 ^ 8191) : e ≤ ilog2 n := by
  have hl : ilog2 n < 8191 := ilog2_lt_of_lt_pow (by decide) hn
  have h3 : n < 2 ^ (ilog2 n + 1) := lt_two_pow_ilog2 (by omega)
  have h4 : e < ilog2 n + 1 :=
    (Nat.pow_lt_pow_iff_right (by decide)).mp (Nat.lt_of_le_of_lt h h3)
  omega

theorem rne_mul_right (n d c : Nat) (hc : 0 < c) : rne (n * c) (d * c) = rne n d := by
  unfold rne
  simp only [Nat.mul_div_mul_right _ _ hc, Nat.mul_mod_mul_right]
  have e : 2 * (n % d * c) = 2 * (n % d) * c := by ring
  simp only [e, Nat.mul_lt_mul_right hc]

/-- Bounds of a quotient from the binary logarithm of its floor. -/
theorem quotient_bounds (n d : Nat) (hd : 0 < d) (h52 : 52 ≤ ilog2 (n / d))
    (hb : ilog2 (n / d) < 8191) :
    2 ^ ilog2 (n / d) * d ≤ n ∧ n < 2 ^ (ilog2 (n / d) + 1) * d := by
  have hq : 1 ≤ n / d := by
    by_contra hc
    have : n / d = 0 := Nat.lt_one_iff.mp (Nat.lt_of_not_le hc)
    rw [this, ilog2_zero] at h52
    omega
  constructor
  · calc 2 ^ ilog2 (n / d) * d ≤ n / d * d := Nat.mul_le_mul_right _ (two_pow_ilog2_le hq)
      _ ≤ n := Nat.div_mul_le_self _ _
  · have := lt_two_pow_ilog2 (show ilog2 (n / d) + 1 < 8192 by omega)
    rwa [Nat.div_lt_iff_lt_mul hd] at this

/-- Binary logarithm of the floor of a quotient between two bounds. -/
theorem ilog2_div_eq (n d e : Nat) (hd : 0 < d) (h1 : 2 ^ e * d ≤ n) (h2 : n < 2 ^ (e + 1) * d)
    (he : e < 8191) : ilog2 (n / d) = e :=
  ilog2_eq ((Nat.le_div_iff_mul_le hd).mpr h1) ((Nat.div_lt_iff_lt_mul hd).mpr h2) he

/-- Scaling a magnitude of full precision by a power of two scales its rounding. -/
theorem roundMag_mul_pow (n d j : Nat) (hd : 0 < d) (h52 : 52 ≤ ilog2 (n / d))
    (hb : ilog2 (n / d) + j < 8191) : roundMag (n * 2 ^ j) d = roundMag n d * 2 ^ j := by
  obtain ⟨h1, h2⟩ := quotient_bounds n d hd h52 (by omega)
  have hj : 0 < 2 ^ j := Nat.two_pow_pos j
  have hl : ilog2 (n * 2 ^ j / d) = ilog2 (n / d) + j := by
    apply ilog2_div_eq _ _ _ hd _ _ hb
    · calc 2 ^ (ilog2 (n / d) + j) * d = 2 ^ ilog2 (n / d) * d * 2 ^ j := by rw [pow_add]; ring
        _ ≤ n * 2 ^ j := Nat.mul_le_mul_right _ h1
    · calc n * 2 ^ j < 2 ^ (ilog2 (n / d) + 1) * d * 2 ^ j := Nat.mul_lt_mul_of_pos_right h2 hj
        _ = 2 ^ (ilog2 (n / d) + j + 1) * d := by
          rw [show ilog2 (n / d) + j + 1 = ilog2 (n / d) + 1 + j by omega, pow_add]; ring
  have hs : dropBits (n * 2 ^ j / d) = dropBits (n / d) + j := by
    unfold dropBits
    rw [hl]
    omega
  unfold roundMag
  simp only [hs]
  have e : d * 2 ^ (dropBits (n / d) + j) = d * 2 ^ dropBits (n / d) * 2 ^ j := by
    rw [pow_add]; ring
  rw [e, rne_mul_right _ _ _ hj, pow_add]
  ring

/-- A rounded magnitude is representable. -/
theorem roundMag_representable (n d : Nat) (hd : 0 < d) (hb : ilog2 (n / d) < 8190) :
    roundMag n d % 2 ^ dropBits (roundMag n d) = 0 := by
  have hq : n / d < 2 ^ (ilog2 (n / d) + 1) := lt_two_pow_ilog2 (by omega)
  have hn : n < 2 ^ (ilog2 (n / d) + 1) * d := by rwa [Nat.div_lt_iff_lt_mul hd] at hq
  have hsb : dropBits (n / d) ≤ ilog2 (n / d) := by unfold dropBits; omega
  have hD : 0 < d * 2 ^ dropBits (n / d) := Nat.mul_pos hd (Nat.two_pow_pos _)
  have h3 : n / (d * 2 ^ dropBits (n / d)) < 2 ^ (ilog2 (n / d) + 1 - dropBits (n / d)) := by
    rw [Nat.div_lt_iff_lt_mul hD]
    calc n < 2 ^ (ilog2 (n / d) + 1) * d := hn
      _ = 2 ^ (ilog2 (n / d) + 1 - dropBits (n / d)) * (d * 2 ^ dropBits (n / d)) := by
        have : ilog2 (n / d) + 1 = (ilog2 (n / d) + 1 - dropBits (n / d)) + dropBits (n / d) := by
          omega
        conv_lhs => rw [this, pow_add]
        ring
  have h4 : rne n (d * 2 ^ dropBits (n / d)) ≤ 2 ^ (ilog2 (n / d) + 1 - dropBits (n / d)) :=
    Nat.le_trans (rne_le_succ _ _) h3
  have hup : roundMag n d ≤ 2 ^ (ilog2 (n / d) + 1) := by
    unfold roundMag
    calc rne n (d * 2 ^ dropBits (n / d)) * 2 ^ dropBits (n / d)
        ≤ 2 ^ (ilog2 (n / d) + 1 - dropBits (n / d)) * 2 ^ dropBits (n / d) :=
          Nat.mul_le_mul_right _ h4
      _ = 2 ^ (ilog2 (n / d) + 1) := by
          rw [← pow_add]
          congr 1
          omega
  have hdvd : 2 ^ dropBits (n / d) ∣ roundMag n d := by
    unfold roundMag
    exact Dvd.intro_left _ rfl
  apply Nat.mod_eq_zero_of_dvd
  rcases Nat.eq_or_lt_of_le hup with heq | hlt
  · have hl : ilog2 (roundMag n d) = ilog2 (n / d) + 1 := by
      apply ilog2_eq _ _ (by omega)
      · rw [heq]
      · rw [heq]; exact Nat.pow_lt_pow_right (by decide) (by omega)
    have : dropBits (roundMag n d) ≤ ilog2 (n / d) + 1 := by unfold dropBits; omega
    conv_rhs => rw [heq]
    exact Nat.pow_dvd_pow 2 this
  · have hl : ilog2 (roundMag n d) < ilog2 (n / d) + 1 := ilog2_lt_of_lt_pow (by omega) hlt
    have : dropBits (roundMag n d) ≤ dropBits (n / d) := by unfold dropBits; omega
    exact Nat.dvd_trans (Nat.pow_dvd_pow 2 this) hdvd

end F64

namespace F64

theorem half_lit_eq : (0.5 : F64) = fin false (2 ^ 1073) := by decide

theorem frexp_fin (s : Bool) (m : Nat) (hm : m ≠ 0) :
    frexp (fin s m)
      = (fin s (m * one_u / 2 ^ (ilog2 m + 1)), ((ilog2 m + 1 : Nat) : Int) - 1074) := by
  unfold frexp
  simp only [hm, if_false]

theorem pow2_fin (s : Bool) (m : Nat) (hm : m ≠ 0) (h1 : eq (fin s m) 1 = false) :
    pow2 (fin s m)
      = ldexp ((1.0 : F64) * (if lt ((frexp (fin s m)).1 * (frexp (fin s m)).1) 0.5
          then (frexp (fin s m)).1 * (frexp (fin s m)).1
            + (frexp (fin s m)).1 * (frexp (fin s m)).1
          else (frexp (fin s m)).1 * (frexp (fin s m)).1))
        (0 + (if lt ((frexp (fin s m)).1 * (frexp (fin s m)).1) 0.5
          then 2 * (frexp (fin s m)).2 - 1 else 2 * (frexp (fin s m)).2)) := by
  unfold pow2
  simp only [hm, h1, if_false, Bool.false_eq_true]

theorem mul_self_fin (s : Bool) (m : Nat) : fin s m * fin s m = mk false (m * m) one_u := by
  cases s <;> rfl

theorem mk_congr (s : Bool) {n d n' d' : Nat} (h : roundMag n d = roundMag n' d') :
    mk s n d = mk s n' d' := by
  unfold mk
  simp only [h]

theorem one_mul_fin (c : Nat) (hrep : c % 2 ^ dropBits c = 0) (hlt : c < ovf) :
    (1.0 : F64) * fin false c = fin false c := by
  have hm : (1.0 : F64) * fin false c = mk false (c * one_u) one_u := by
    rw [one_lit_eq, mul_def, Nat.mul_comm c one_u]
    rfl
  rw [hm]
  exact mk_exact false c one_u one_u_pos hrep hlt

theorem add_self_fin (c : Nat) (hrep : c % 2 ^ dropBits c = 0) (hlt : 2 * c < ovf) :
    fin false c + fin false c = fin false (2 * c) := by
  have e : c + c = 2 * c * 1 := by omega
  have hm : fin false c + fin false c = mk false (c + c) 1 := by
    rw [add_def]
    unfold add
    exact if_pos rfl
  rw [hm, e]
  exact mk_exact false (2 * c) 1 (by decide) (representable_double c (by omega) hrep) hlt

theorem ldexp_fin (c : Nat) (hc : c ≠ 0) (exp : Int) :
    ldexp (fin false c) exp
      = if 0 ≤ exp then mk false (c * 2 ^ exp.toNat) 1 else mk false c (2 ^ (-exp).toNat) := by
  unfold ldexp
  simp only [hc, if_false]

/-- The fraction `Frexp` returns is exact: `frac × 2^b` is the magnitude. -/
theorem frexp_exact (m : Nat) (hm : 0 < m) (hrep : m % 2 ^ dropBits m = 0) (hlt : m < ovf) :
    m * one_u / 2 ^ (ilog2 m + 1) * 2 ^ (ilog2 m + 1) = m * one_u := by
  apply Nat.div_mul_cancel
  have hu : one_u = 2 ^ 1074 := rfl
  rcases Nat.lt_or_ge 1074 (ilog2 m + 1) with hb | hb
  · have h1 : 2 ^ (ilog2 m + 1 - 1074) ∣ m := by
      have : ilog2 m + 1 - 1074 ≤ dropBits m := by unfold dropBits; omega
      exact Nat.dvd_trans (Nat.pow_dvd_pow 2 this) (Nat.dvd_of_mod_eq_zero hrep)
    have h2 : 2 ^ (ilog2 m + 1) = 2 ^ (ilog2 m + 1 - 1074) * one_u := by
      rw [hu, ← pow_add]
      congr 1
      omega
    rw [h2]
    exact Nat.mul_dvd_mul h1 (Nat.dvd_refl _)
  · rw [hu]
    exact Dvd.dvd.mul_left (Nat.pow_dvd_pow 2 hb) m

end F64

namespace F64

/-- The square of the fraction of a magnitude `m ≥ 2^563` (a value of at least
`2^-511`), rounded to `P`, against the rounded square `T` of the magnitude:
both are representable and they differ by the power of two `Ldexp` applies. -/
theorem frexp_square (m : Nat) (hrep : m % 2 ^ dropBits m = 0) (hlt : m < ovf)
    (hn : 2 ^ 563 ≤ m) :
    roundMag (m * one_u / 2 ^ (ilog2 m + 1) * (m * one_u / 2 ^ (ilog2 m + 1))) one_u
        % 2 ^ dropBits
          (roundMag (m * one_u / 2 ^ (ilog2 m + 1) * (m * one_u / 2 ^ (ilog2 m + 1))) one_u)
        = 0 ∧
    0 < roundMag (m * one_u / 2 ^ (ilog2 m + 1) * (m * one_u / 2 ^ (ilog2 m + 1))) one_u ∧
    roundMag (m * one_u / 2 ^ (ilog2 m + 1) * (m * one_u / 2 ^ (ilog2 m + 1))) one_u ≤ one_u ∧
    roundMag (m * m) one_u % 2 ^ dropBits (roundMag (m * m) one_u) = 0 ∧
    (1074 ≤ ilog2 m + 1 → roundMag (m * m) one_u
      = roundMag (m * one_u / 2 ^ (ilog2 m + 1) * (m * one_u / 2 ^ (ilog2 m + 1))) one_u
        * 2 ^ (2 * (ilog2 m + 1 - 1074))) ∧
    (ilog2 m + 1 < 1074 →
      roundMag (m * one_u / 2 ^ (ilog2 m + 1) * (m * one_u / 2 ^ (ilog2 m + 1))) one_u
        = roundMag (m * m) one_u * 2 ^ (2 * (1074 - (ilog2 m + 1)))) := by
  have hm : 0 < m := Nat.lt_of_lt_of_le (Nat.two_pow_pos _) hn
  have hu : one_u = 2 ^ 1074 := rfl
  have hL : ilog2 m < 2098 := ilog2_lt_of_lt_ovf hm hlt
  have hlo : 2 ^ ilog2 m ≤ m := two_pow_ilog2_le hm
  have hhi : m < 2 ^ (ilog2 m + 1) := lt_two_pow_ilog2 (by omega)
  have hf := frexp_exact m hm hrep hlt
  generalize hfd : m * one_u / 2 ^ (ilog2 m + 1) = f at hf ⊢
  generalize hbd : ilog2 m + 1 = b at hf hhi ⊢
  have hb : b ≤ 2098 := by omega
  have hpb : 0 < 2 ^ b := Nat.two_pow_pos b
  -- the fraction lies in [1/2, 1)
  have hfu : f < one_u := by
    have : f * 2 ^ b < one_u * 2 ^ b := by
      rw [hf, Nat.mul_comm one_u]
      exact Nat.mul_lt_mul_of_pos_right hhi one_u_pos
    exact Nat.lt_of_mul_lt_mul_right this
  have hfl : 2 ^ 1073 ≤ f := by
    have h1 : 2 ^ ilog2 m * one_u ≤ f * 2 ^ b := by
      rw [hf]
      exact Nat.mul_le_mul_right _ hlo
    have h2 : 2 ^ b = 2 * 2 ^ ilog2 m := by rw [← hbd, pow_succ]; ring
    have h3 : 2 ^ 1073 * 2 * 2 ^ ilog2 m ≤ f * 2 * 2 ^ ilog2 m := by
      calc 2 ^ 1073 * 2 * 2 ^ ilog2 m = 2 ^ ilog2 m * one_u := by rw [hu]; ring
        _ ≤ f * 2 ^ b := h1
        _ = f * 2 * 2 ^ ilog2 m := by rw [h2]; ring
    have h4 := Nat.le_of_mul_le_mul_right h3 (Nat.two_pow_pos _)
    exact Nat.le_of_mul_le_mul_right h4 (by decide)
  have hNl : 2 ^ 1072 * one_u ≤ f * f := by
    calc 2 ^ 1072 * one_u = 2 ^ 1073 * 2 ^ 1073 := by rw [hu]; decide
      _ ≤ f * f := Nat.mul_le_mul hfl hfl
  have hNu : f * f ≤ one_u * one_u := Nat.mul_le_mul (Nat.le_of_lt hfu) (Nat.le_of_lt hfu)
  have hNq : f * f / one_u < 2 ^ 1074 := by
    rw [Nat.div_lt_iff_lt_mul one_u_pos, ← hu]
    exact Nat.mul_lt_mul_of_lt_of_le hfu (Nat.le_of_lt hfu) (Nat.lt_of_le_of_lt (Nat.zero_le _) hfu)
  have hNi : ilog2 (f * f / one_u) < 1074 := ilog2_lt_of_lt_pow (by decide) hNq
  have hN52 : 52 ≤ ilog2 (f * f / one_u) := by
    apply le_ilog2 _ (Nat.lt_of_lt_of_le hNq (Nat.pow_le_pow_right (by decide) (by decide)))
    rw [Nat.le_div_iff_mul_le one_u_pos]
    exact Nat.le_trans (Nat.mul_le_mul_right _ (Nat.pow_le_pow_right (by decide) (by decide)))
      hNl
  -- the square of the magnitude
  have hmm : m * m < 2 ^ 4196 := by
    calc m * m < ovf * ovf := Nat.mul_lt_mul_of_lt_of_le hlt (Nat.le_of_lt hlt) ovf_pos
      _ = 2 ^ 4196 := by decide
  have hTi : ilog2 (m * m / one_u) < 4196 :=
    ilog2_lt_of_lt_pow (by decide) (Nat.lt_of_le_of_lt (Nat.div_le_self _ _) hmm)
  have hT52 : 52 ≤ ilog2 (m * m / one_u) := by
    apply le_ilog2 _ (Nat.lt_of_le_of_lt (Nat.div_le_self _ _)
      (Nat.lt_of_lt_of_le hmm (Nat.pow_le_pow_right (by decide) (by decide))))
    rw [Nat.le_div_iff_mul_le one_u_pos]
    calc 2 ^ 52 * one_u = 2 ^ 563 * 2 ^ 563 := by rw [hu]; decide
      _ ≤ m * m := Nat.mul_le_mul hn hn
  have hone : one_u % 2 ^ dropBits one_u = 0 := by
    have := whole_representable 1 (by decide)
    rwa [Nat.one_mul] at this
  refine ⟨roundMag_representable _ _ one_u_pos (by omega), ?_, ?_,
    roundMag_representable _ _ one_u_pos (by omega), ?_, ?_⟩
  · have h1 : roundMag (2 ^ 1072 * one_u) one_u ≤ roundMag (f * f) one_u :=
      roundMag_mono one_u one_u_pos hNl
    rw [roundMag_exact (2 ^ 1072) one_u one_u_pos (by decide)] at h1
    exact Nat.lt_of_lt_of_le (Nat.two_pow_pos _) h1
  · have h1 : roundMag (f * f) one_u ≤ roundMag (one_u * one_u) one_u :=
      roundMag_mono one_u one_u_pos hNu
    rwa [roundMag_exact one_u one_u one_u_pos hone] at h1
  · intro hge
    have h2 : 2 ^ b = 2 ^ (b - 1074) * one_u := by
      rw [hu, ← pow_add]
      congr 1
      omega
    have h3 : m = f * 2 ^ (b - 1074) := by
      have : m * one_u = f * 2 ^ (b - 1074) * one_u := by rw [← hf, h2]; ring
      exact Nat.eq_of_mul_eq_mul_right one_u_pos this
    have h4 : m * m = f * f * 2 ^ (2 * (b - 1074)) := by
      conv_lhs => rw [h3]
      rw [two_mul, pow_add]
      ring
    rw [h4]
    exact roundMag_mul_pow _ _ _ one_u_pos hN52 (by omega)
  · intro hlt'
    have h2 : one_u = 2 ^ b * 2 ^ (1074 - b) := by
      rw [hu, ← pow_add]
      congr 1
      omega
    have h3 : f = m * 2 ^ (1074 - b) := by
      have : f * 2 ^ b = m * 2 ^ (1074 - b) * 2 ^ b := by
        rw [hf, Nat.mul_assoc, Nat.mul_comm (2 ^ (1074 - b)), ← h2]
      exact Nat.eq_of_mul_eq_mul_right hpb this
    have h4 : f * f = m * m * 2 ^ (2 * (1074 - b)) := by
      rw [h3, two_mul, pow_add]
      ring
    rw [h4]
    exact roundMag_mul_pow _ _ _ one_u_pos hT52 (by omega)

end F64

namespace F64

/-- Function `math.Pow(x, 2)` is the product `x * x` at every value whose
magnitude is zero or at least `2^-511` (then the square is zero, infinite or a
normal number, and `Ldexp` does not round). -/
theorem pow2_eq_mul (s : Bool) (m : Nat) (hrep : m % 2 ^ dropBits m = 0) (hlt : m < ovf)
    (hn : m = 0 ∨ 2 ^ 563 ≤ m) : pow2 (fin s m) = fin s m * fin s m := by
  rcases hn with rfl | hn
  · rw [mul_self_fin, Nat.mul_zero, mk_zero]
    rfl
  have hm : 0 < m := Nat.lt_of_lt_of_le (Nat.two_pow_pos _) hn
  have hm0 : m ≠ 0 := Nat.pos_iff_ne_zero.mp hm
  have hone : one_u % 2 ^ dropBits one_u = 0 := by
    have := whole_representable 1 (by decide)
    rwa [Nat.one_mul] at this
  cases h1 : eq (fin s m) 1
  swap
  · -- the special case `x == 1`
    have hx : fin s m = fin false one_u := by
      rw [one_eq] at h1
      have h2 : sval s m = sval false one_u := of_decide_eq_true h1
      cases s
      · have : m = one_u := by
          simp only [sval, Bool.false_eq_true, if_false] at h2
          exact_mod_cast h2
        rw [this]
      · exfalso
        simp only [sval, if_true, Bool.false_eq_true, if_false] at h2
        have h3 : (0 : Int) < (one_u : Int) := by exact_mod_cast one_u_pos
        omega
    have hp : pow2 (fin s m) = 1 := by
      unfold pow2
      simp only [hm0, h1, if_false, if_true]
    rw [hp, hx, mul_self_fin, mk_exact false one_u one_u one_u_pos hone one_u_lt_ovf, one_eq]
  obtain ⟨hPrep, hPpos, hPle, hTrep, hge, hlt'⟩ := frexp_square m hrep hlt hn
  have hL : ilog2 m < 2098 := ilog2_lt_of_lt_ovf hm hlt
  rw [pow2_fin s m hm0 h1, frexp_fin s m hm0]
  simp only [mul_self_fin]
  generalize hPd :
    roundMag (m * one_u / 2 ^ (ilog2 m + 1) * (m * one_u / 2 ^ (ilog2 m + 1))) one_u = P
    at hPrep hPpos hPle hge hlt'
  generalize hTd : roundMag (m * m) one_u = T at hTrep hge hlt'
  have hPovf : 2 * P < ovf := by
    have : 2 * one_u < ovf := by decide
    omega
  have hsq : mk false (m * one_u / 2 ^ (ilog2 m + 1) * (m * one_u / 2 ^ (ilog2 m + 1))) one_u
      = fin false P := by
    unfold mk
    simp only [hPd]
    exact if_pos (by omega)
  have hT1 : roundMag T 1 = T := by
    have := roundMag_exact T 1 (by decide) hTrep
    rwa [Nat.mul_one] at this
  have hR : mk false (m * m) one_u = mk false T 1 := by
    apply mk_congr
    rw [hTd, hT1]
  rw [hsq, hR]
  have hcast : ((ilog2 m + 1 : Nat) : Int) = (ilog2 m : Int) + 1 := by push_cast; rfl
  by_cases hc : lt (fin false P) 0.5 = true
  · -- the squared fraction is below 1/2 and is doubled
    rw [if_pos hc, if_pos hc, add_self_fin P hPrep hPovf,
      one_mul_fin (2 * P) (representable_double P (by omega) hPrep) hPovf,
      ldexp_fin (2 * P) (by omega)]
    rcases Nat.lt_or_ge (ilog2 m + 1) 1074 with hb | hb
    · have hneg : ¬ (0 : Int) ≤ 0 + (2 * (((ilog2 m + 1 : Nat) : Int) - 1074) - 1) := by omega
      have hexp : (-(0 + (2 * (((ilog2 m + 1 : Nat) : Int) - 1074) - 1))).toNat
          = 2 * (1074 - (ilog2 m + 1)) + 1 := by omega
      rw [if_neg hneg, hexp]
      apply mk_congr
      rw [hT1, hlt' hb]
      have e : 2 * (T * 2 ^ (2 * (1074 - (ilog2 m + 1))))
          = T * 2 ^ (2 * (1074 - (ilog2 m + 1)) + 1) := by rw [pow_succ]; ring
      rw [e]
      exact roundMag_exact T _ (Nat.two_pow_pos _) hTrep
    · rcases Nat.eq_or_lt_of_le hb with hb0 | hb1
      · have hneg : ¬ (0 : Int) ≤ 0 + (2 * (((ilog2 m + 1 : Nat) : Int) - 1074) - 1) := by omega
        have hexp : (-(0 + (2 * (((ilog2 m + 1 : Nat) : Int) - 1074) - 1))).toNat = 1 := by omega
        rw [if_neg hneg, hexp]
        apply mk_congr
        have hTP : T = P := by
          have := hge hb
          rw [← hb0] at this
          simpa using this
        rw [hT1, ← hTP, Nat.mul_comm 2 T]
        exact roundMag_exact T (2 ^ 1) (by decide) hTrep
      · have hpos : (0 : Int) ≤ 0 + (2 * (((ilog2 m + 1 : Nat) : Int) - 1074) - 1) := by omega
        have hexp : (0 + (2 * (((ilog2 m + 1 : Nat) : Int) - 1074) - 1)).toNat
            = 2 * (ilog2 m + 1 - 1074) - 1 := by omega
        rw [if_pos hpos, hexp]
        apply mk_congr
        have e : 2 * P * 2 ^ (2 * (ilog2 m + 1 - 1074) - 1) = T := by
          rw [hge hb]
          have : 2 * (ilog2 m + 1 - 1074) = (2 * (ilog2 m + 1 - 1074) - 1) + 1 := by omega
          conv_rhs => rw [this, pow_succ]
          ring
        rw [e]
  · -- the squared fraction is at least 1/2
    rw [if_neg hc, if_neg hc, one_mul_fin P hPrep (by omega), ldexp_fin P (by omega)]
    rcases Nat.lt_or_ge (ilog2 m + 1) 1074 with hb | hb
    · have hneg : ¬ (0 : Int) ≤ 0 + 2 * (((ilog2 m + 1 : Nat) : Int) - 1074) := by omega
      have hexp : (-(0 + 2 * (((ilog2 m + 1 : Nat) : Int) - 1074))).toNat
          = 2 * (1074 - (ilog2 m + 1)) := by omega
      rw [if_neg hneg, hexp]
      apply mk_congr
      rw [hT1, hlt' hb]
      exact roundMag_exact T _ (Nat.two_pow_pos _) hTrep
    · have hpos : (0 : Int) ≤ 0 + 2 * (((ilog2 m + 1 : Nat) : Int) - 1074) := by omega
      have hexp : (0 + 2 * (((ilog2 m + 1 : Nat) : Int) - 1074)).toNat
          = 2 * (ilog2 m + 1 - 1074) := by omega
      rw [if_pos hpos, hexp]
      apply mk_congr
      rw [hge hb]

end F64

namespace F64

/-- Rounding returns a value a `float64` holds. -/
theorem mk_isBinary64 (s : Bool) (n d : Nat) (hd : 0 < d) : (mk s n d).isBinary64 = true := by
  unfold mk
  simp only
  split_ifs with h
  · have hb : n / d < 2 ^ 8190 := by
      by_contra hc
      have h1 : 2 ^ 8190 * d ≤ n := (Nat.le_div_iff_mul_le hd).mp (Nat.le_of_not_lt hc)
      have h2 : ovf * d ≤ n :=
        Nat.le_trans (Nat.mul_le_mul_right _ (Nat.pow_le_pow_right (by decide) (by decide))) h1
      have h3 := roundMag_mono d hd h2
      rw [roundMag_exact ovf d hd (by decide)] at h3
      omega
    have hr := roundMag_representable n d hd (ilog2_lt_of_lt_pow (by decide) hb)
    simp only [isBinary64, hr, h, decide_True, Bool.and_self]
  · rfl

/-- A difference is a value a `float64` holds. -/
theorem sub_isBinary64 (x y : F64) : (x - y).isBinary64 = true := by
  rw [sub_def]
  cases x with
  | nan => cases y <;> rfl
  | inf a => cases y <;> first | rfl | (unfold neg add; simp only; split_ifs <;> rfl)
  | fin a m =>
    cases y with
    | nan => rfl
    | inf b => rfl
    | fin b n =>
      unfold neg add
      simp only
      split_ifs
      · exact mk_isBinary64 _ _ _ (by decide)
      · exact mk_isBinary64 _ _ _ (by decide)
      · exact mk_isBinary64 _ _ _ (by decide)
      · decide

/-- Function `math.Pow(d, 2)` is the product `d * d` at every value a
`float64` holds whose square is not subnormal. -/
theorem pow2_of_squareIsNormal (d : F64) (hb : d.isBinary64 = true)
    (hs : d.squareIsNormal = true) : pow2 d = d * d := by
  cases d with
  | nan => rfl
  | inf a => cases a <;> rfl
  | fin a m =>
    simp only [isBinary64, Bool.and_eq_true, decide_eq_true_eq] at hb
    exact pow2_eq_mul a m hb.1 hb.2 (of_decide_eq_true hs)

end F64

/-! ## The two summaries -/

theorem foldl_seriesStep (metrics : List PerformanceMetric) (a : SeriesAcc) :
    (metrics.foldl seriesStep a).fpsValues = a.fpsValues ++ metrics.map PerformanceMetric.FPS ∧
    (metrics.foldl seriesStep a).memoryValues
      = a.memoryValues ++ metrics.map PerformanceMetric.MemoryUsageMB ∧
    (metrics.foldl seriesStep a).cpuValues
      = a.cpuValues ++ metrics.map PerformanceMetric.CPUPercent := by
  induction metrics generalizing a with
  | nil => simp
  | cons metric rest ih =>
    obtain ⟨h₁, h₂, h₃⟩ := ih (seriesStep a metric)
    simp only [List.foldl_cons, List.map_cons]
    rw [h₁, h₂, h₃]
    simp [seriesStep]

/-- The statistics `calculateComponentSummary` reports, as the statistics of
the three series of values. -/
theorem calculateComponentSummary_fields (metrics : List PerformanceMetric) (category : String)
    (h : metrics ≠ []) :
    ∃ S, calculateComponentSummary metrics category = some S ∧
      S.fps_avg = round2 (seriesMean (metrics.map PerformanceMetric.FPS)) ∧
      S.fps_min = round2 ((metrics.map PerformanceMetric.FPS).foldl statsStep
        { sum := 0, min := F64.maxFloat64, max := 0 }).min ∧
      S.fps_max = round2 ((metrics.map PerformanceMetric.FPS).foldl statsStep
        { sum := 0, min := F64.maxFloat64, max := 0 }).max ∧
      S.fps_std = round2 (F64.sqrt (populationVariance (metrics.map PerformanceMetric.FPS))) ∧
      S.memory_avg = round2 (seriesMean (metrics.map PerformanceMetric.MemoryUsageMB)) ∧
      S.memory_min = round2 ((metrics.map PerformanceMetric.MemoryUsageMB).foldl statsStep
        { sum := 0, min := F64.maxFloat64, max := 0 }).min ∧
      S.memory_max = round2 ((metrics.map PerformanceMetric.MemoryUsageMB).foldl statsStep
        { sum := 0, min := F64.maxFloat64, max := 0 }).max ∧
      S.memory_std
        = round2 (F64.sqrt (populationVariance (metrics.map PerformanceMetric.MemoryUsageMB))) ∧
      S.cpu_avg = round2 (seriesMean (metrics.map PerformanceMetric.CPUPercent)) ∧
      S.cpu_std
        = round2 (F64.sqrt (populationVariance (metrics.map PerformanceMetric.CPUPercent))) := by
  have hl := length_eq_zero_of_ne_nil h
  obtain ⟨h₁, h₂, h₃⟩ := foldl_seriesStep metrics
    { fpsValues := [], memoryValues := [], cpuValues := [], totalRenderTime := 0 }
  simp only [List.nil_append] at h₁ h₂ h₃
  have n₁ : metrics.map PerformanceMetric.FPS ≠ [] := by simpa using h
  have n₂ : metrics.map PerformanceMetric.MemoryUsageMB ≠ [] := by simpa using h
  have n₃ : metrics.map PerformanceMetric.CPUPercent ≠ [] := by simpa using h
  refine ⟨_, by simp only [calculateComponentSummary, if_neg hl]; rfl, ?_⟩
  simp only [h₁, h₂, h₃, calculateStatistics_some _ n₁, calculateStatistics_some _ n₂,
    calculateStatistics_some _ n₃, statsGet, and_self]

/-- The first loop of `CalculateSummary` runs the first loop of
`calculateStatistics` on the three series at once. -/
theorem foldl_summaryStep (metrics : List PerformanceMetric) (a : SummaryAcc) :
    (metrics.map PerformanceMetric.FPS).foldl statsStep
        { sum := a.totalFPS, min := a.minFPS, max := a.maxFPS }
      = { sum := (metrics.foldl summaryStep a).totalFPS
          min := (metrics.foldl summaryStep a).minFPS
          max := (metrics.foldl summaryStep a).maxFPS } ∧
    (metrics.map PerformanceMetric.MemoryUsageMB).foldl statsStep
        { sum := a.totalMemory, min := a.minMemory, max := a.maxMemory }
      = { sum := (metrics.foldl summaryStep a).totalMemory
          min := (metrics.foldl summaryStep a).minMemory
          max := (metrics.foldl summaryStep a).maxMemory } ∧
    (metrics.map PerformanceMetric.CPUPercent).foldl (fun s v => s + v) a.totalCPU
      = (metrics.foldl summaryStep a).totalCPU := by
  induction metrics generalizing a with
  | nil => exact ⟨rfl, rfl, rfl⟩
  | cons metric rest ih =>
    obtain ⟨h₁, h₂, h₃⟩ := ih (summaryStep a metric)
    simp only [List.foldl_cons, List.map_cons]
    exact ⟨h₁, h₂, h₃⟩

/-- The second loop of `CalculateSummary`, series by series. -/
theorem foldl_summaryVarianceStep (avgFPS avgMemory avgCPU : F64)
    (metrics : List PerformanceMetric) (a : SummaryVariance) :
    (metrics.foldl (summaryVarianceStep avgFPS avgMemory avgCPU) a).fpsVariance
      = (metrics.map fun metric => F64.pow2 (metric.FPS - avgFPS)).foldl
          (fun s v => s + v) a.fpsVariance ∧
    (metrics.foldl (summaryVarianceStep avgFPS avgMemory avgCPU) a).memoryVariance
      = (metrics.map fun metric => F64.pow2 (metric.MemoryUsageMB - avgMemory)).foldl
          (fun s v => s + v) a.memoryVariance ∧
    (metrics.foldl (summaryVarianceStep avgFPS avgMemory avgCPU) a).cpuVariance
      = (metrics.map fun metric => F64.pow2 (metric.CPUPercent - avgCPU)).foldl
          (fun s v => s + v) a.cpuVariance := by
  induction metrics generalizing a with
  | nil => exact ⟨rfl, rfl, rfl⟩
  | cons metric rest ih =>
    obtain ⟨h₁, h₂, h₃⟩ := ih (summaryVarianceStep avgFPS avgMemory avgCPU a metric)
    simp only [List.foldl_cons, List.map_cons]
    exact ⟨h₁, h₂, h₃⟩

/-- Where `math.Pow(d, 2)` is the product `d * d` at every deviation of a series
from `avg`, the sum of the powers is the sum of the squared deviations. -/
theorem pow2_series (metrics : List PerformanceMetric) (value : PerformanceMetric → F64)
    (avg : F64)
    (hp : ∀ metric ∈ metrics,
      F64.pow2 (value metric - avg) = (value metric - avg) * (value metric - avg)) :
    (metrics.map fun metric => F64.pow2 (value metric - avg))
      = (metrics.map value).map fun v => (v - avg) * (v - avg) := by
  rw [List.map_map]
  exact List.map_congr_left fun metric hm => hp metric hm

/-- The statistics `CalculateSummary` reports, as the statistics of the three
series of values, the variance a sum of `math.Pow(d, 2)` over the deviations. -/
theorem CalculateSummary_fields (metrics : List PerformanceMetric)
    (testName componentName componentType scenario : String) (startTime : Int)
    (systemInfo : SystemInfo) (totalFrames : Int) (now : Int) (h : metrics ≠ []) :
    ∃ s, CalculateSummary metrics testName componentName componentType scenario startTime
        systemInfo totalFrames now = some s ∧
      s.avg_fps = round2 (seriesMean (metrics.map PerformanceMetric.FPS)) ∧
      s.min_fps = round2 ((metrics.map PerformanceMetric.FPS).foldl statsStep
        { sum := 0, min := F64.maxFloat64, max := 0 }).min ∧
      s.max_fps = round2 ((metrics.map PerformanceMetric.FPS).foldl statsStep
        { sum := 0, min := F64.maxFloat64, max := 0 }).max ∧
      s.fps_std_dev = round2 (F64.sqrt (seriesSum (metrics.map fun metric =>
        F64.pow2 (metric.FPS - seriesMean (metrics.map PerformanceMetric.FPS)))
          / F64.ofNat metrics.length)) ∧
      s.avg_memory_mb = round2 (seriesMean (metrics.map PerformanceMetric.MemoryUsageMB)) ∧
      s.min_memory_mb = round2 ((metrics.map PerformanceMetric.MemoryUsageMB).foldl statsStep
        { sum := 0, min := F64.maxFloat64, max := 0 }).min ∧
      s.max_memory_mb = round2 ((metrics.map PerformanceMetric.MemoryUsageMB).foldl statsStep
        { sum := 0, min := F64.maxFloat64, max := 0 }).max ∧
      s.memory_std_dev = round2 (F64.sqrt (seriesSum (metrics.map fun metric =>
        F64.pow2 (metric.MemoryUsageMB
          - seriesMean (metrics.map PerformanceMetric.MemoryUsageMB)))
          / F64.ofNat metrics.length)) ∧
      s.avg_cpu_percent = round2 (seriesMean (metrics.map PerformanceMetric.CPUPercent)) ∧
      s.cpu_std_dev = round2 (F64.sqrt (seriesSum (metrics.map fun metric =>
        F64.pow2 (metric.CPUPercent - seriesMean (metrics.map PerformanceMetric.CPUPercent)))
          / F64.ofNat metrics.length)) := by
  have hl := length_eq_zero_of_ne_nil h
  obtain ⟨g₁, g₂, g₃⟩ := foldl_summaryStep metrics
    { totalFPS := 0, totalMemory := 0, totalCPU := 0, minFPS := F64.maxFloat64, maxFPS := 0,
      minMemory := F64.maxFloat64, maxMemory := 0 }
  have tF := congrArg StatsAcc.sum g₁
  have tM := congrArg StatsAcc.sum g₂
  rw [foldl_statsStep_sum] at tF tM
  have aF : seriesMean (metrics.map PerformanceMetric.FPS)
      = (metrics.foldl summaryStep
          { totalFPS := 0, totalMemory := 0, totalCPU := 0, minFPS := F64.maxFloat64,
            maxFPS := 0, minMemory := F64.maxFloat64, maxMemory := 0 }).totalFPS
        / F64.ofNat metrics.length := by
    unfold seriesMean seriesSum; rw [List.length_map]; exact congrArg (· / _) tF
  have aM : seriesMean (metrics.map PerformanceMetric.MemoryUsageMB)
      = (metrics.foldl summaryStep
          { totalFPS := 0, totalMemory := 0, totalCPU := 0, minFPS := F64.maxFloat64,
            maxFPS := 0, minMemory := F64.maxFloat64, maxMemory := 0 }).totalMemory
        / F64.ofNat metrics.length := by
    unfold seriesMean seriesSum; rw [List.length_map]; exact congrArg (· / _) tM
  have aC : seriesMean (metrics.map PerformanceMetric.CPUPercent)
      = (metrics.foldl summaryStep
          { totalFPS := 0, totalMemory := 0, totalCPU := 0, minFPS := F64.maxFloat64,
            maxFPS := 0, minMemory := F64.maxFloat64, maxMemory := 0 }).totalCPU
        / F64.ofNat metrics.length := by
    unfold seriesMean seriesSum; rw [List.length_map]; exact congrArg (· / _) g₃
  obtain ⟨v₁, v₂, v₃⟩ := foldl_summaryVarianceStep
    (seriesMean (metrics.map PerformanceMetric.FPS))
    (seriesMean (metrics.map PerformanceMetric.MemoryUsageMB))
    (seriesMean (metrics.map PerformanceMetric.CPUPercent)) metrics
    { fpsVariance := 0, memoryVariance := 0, cpuVariance := 0 }
  have g₁ : (metrics.map PerformanceMetric.FPS).foldl statsStep
      { sum := 0, min := F64.maxFloat64, max := 0 } = _ := g₁
  have g₂ : (metrics.map PerformanceMetric.MemoryUsageMB).foldl statsStep
      { sum := 0, min := F64.maxFloat64, max := 0 } = _ := g₂
  refine ⟨_, by simp only [CalculateSummary, if_neg hl]; rfl, ?_⟩
  rw [aF, aM, aC] at v₁ v₂ v₃
  simp only [g₁, g₂, round2, seriesSum, aF, aM, aC, v₁, v₂, v₃, and_self]

/-- The two summaries of a non-empty list of metrics report the same averages,
minima and maxima, and the same standard deviation of a series whenever
`math.Pow(d, 2)`, which `CalculateSummary` sums, is the product `d * d`, which
`calculateStatistics` sums, at every deviation `d` of that series from its
mean. -/
theorem summaries_agree_of_pow (metrics : List PerformanceMetric) (h : metrics ≠ [])
    (testName componentName componentType scenario : String) (startTime : Int)
    (systemInfo : SystemInfo) (totalFrames : Int) (now : Int) (category : String) :
    ∃ s S, CalculateSummary metrics testName componentName componentType scenario startTime
        systemInfo totalFrames now = some s ∧
      calculateComponentSummary metrics category = some S ∧
      s.avg_fps = S.fps_avg ∧ s.min_fps = S.fps_min ∧ s.max_fps = S.fps_max ∧
      s.avg_memory_mb = S.memory_avg ∧ s.min_memory_mb = S.memory_min ∧
      s.max_memory_mb = S.memory_max ∧
      s.avg_cpu_percent = S.cpu_avg ∧
      ((∀ metric ∈ metrics,
          F64.pow2 (metric.FPS - seriesMean (metrics.map PerformanceMetric.FPS))
            = (metric.FPS - seriesMean (metrics.map PerformanceMetric.FPS))
              * (metric.FPS - seriesMean (metrics.map PerformanceMetric.FPS))) →
        s.fps_std_dev = S.fps_std) ∧
      ((∀ metric ∈ metrics,
          F64.pow2 (metric.MemoryUsageMB
              - seriesMean (metrics.map PerformanceMetric.MemoryUsageMB))
            = (metric.MemoryUsageMB - seriesMean (metrics.map PerformanceMetric.MemoryUsageMB))
              * (metric.MemoryUsageMB
                - seriesMean (metrics.map PerformanceMetric.MemoryUsageMB))) →
        s.memory_std_dev = S.memory_std) ∧
      ((∀ metric ∈ metrics,
          F64.pow2 (metric.CPUPercent - seriesMean (metrics.map PerformanceMetric.CPUPercent))
            = (metric.CPUPercent - seriesMean (metrics.map PerformanceMetric.CPUPercent))
              * (metric.CPUPercent - seriesMean (metrics.map PerformanceMetric.CPUPercent))) →
        s.cpu_std_dev = S.cpu_std) := by
  obtain ⟨s, hs, a₁, a₂, a₃, a₄, a₅, a₆, a₇, a₈, a₉, a₁₀⟩ := CalculateSummary_fields metrics
    testName componentName componentType scenario startTime systemInfo totalFrames now h
  obtain ⟨S, hS, b₁, b₂, b₃, b₄, b₅, b₆, b₇, b₈, b₉, b₁₀⟩ :=
    calculateComponentSummary_fields metrics category h
  refine ⟨s, S, hs, hS, a₁.trans b₁.symm, a₂.trans b₂.symm, a₃.trans b₃.symm,
    a₅.trans b₅.symm, a₆.trans b₆.symm, a₇.trans b₇.symm, a₉.trans b₉.symm, ?_, ?_, ?_⟩
  · intro hp
    rw [a₄, b₄, pow2_series metrics PerformanceMetric.FPS _ hp]
    unfold populationVariance
    rw [List.length_map]
  · intro hp
    rw [a₈, b₈, pow2_series metrics PerformanceMetric.MemoryUsageMB _ hp]
    unfold populationVariance
    rw [List.length_map]
  · intro hp
    rw [a₁₀, b₁₀, pow2_series metrics PerformanceMetric.CPUPercent _ hp]
    unfold populationVariance
    rw [List.length_map]

/-- The category of a delta `d` under the thresholds `−10`, `0`, `20`, `50` of
the memory and CPU chains of `classifyPerformance` (lower is better). -/
theorem lowerIsBetter_cases (d : F64) :
    ((if F64.le d (-10) then "excellent" else if F64.le d 0 then "good"
        else if F64.le d 20 then "acceptable" else if F64.le d 50 then "poor" else "bad")
        = "excellent" ↔ F64.le d (-10) = true) ∧
    ((if F64.le d (-10) then "excellent" else if F64.le d 0 then "good"
        else if F64.le d 20 then "acceptable" else if F64.le d 50 then "poor" else "bad")
        = "good" ↔ (F64.lt (-10) d = true ∧ F64.le d 0 = true)) ∧
    ((if F64.le d (-10) then "excellent" else if F64.le d 0 then "good"
        else if F64.le d 20 then "acceptable" else if F64.le d 50 then "poor" else "bad")
        = "acceptable" ↔ (F64.lt 0 d = true ∧ F64.le d 20 = true)) ∧
    ((if F64.le d (-10) then "excellent" else if F64.le d 0 then "good"
        else if F64.le d 20 then "acceptable" else if F64.le d 50 then "poor" else "bad")
        = "poor" ↔ (F64.lt 20 d = true ∧ F64.le d 50 = true)) ∧
    ((if F64.le d (-10) then "excellent" else if F64.le d 0 then "good"
        else if F64.le d 20 then "acceptable" else if F64.le d 50 then "poor" else "bad")
        = "bad" ↔ (F64.lt 50 d = true ∨ F64.isNaN d = true)) := by
  have t1 : F64.le (-10) 0 = true := by decide
  have t2 : F64.le 0 20 = true := by decide
  have t3 : F64.le 20 50 = true := by decide
  have nm10 : F64.isNaN (-10 : F64) = false := by decide
  have n0 : F64.isNaN (0 : F64) = false := by decide
  have n20 : F64.isNaN (20 : F64) = false := by decide
  have n50 : F64.isNaN (50 : F64) = false := by decide
  have nl : ∀ c : F64, F64.le d c = true → F64.lt c d = false := by
    intro c h
    cases h' : F64.lt c d
    · rfl
    · rw [F64.not_le_of_lt h'] at h; exact Bool.noConfusion h
  by_cases hA : F64.le d (-10) = true
  · have hd := F64.isNaN_of_le_left hA
    have hB := F64.le_trans hA t1
    have hC := F64.le_trans hB t2
    have hD := F64.le_trans hC t3
    simp [hA, hB, hC, hD, nl _ hA, nl _ hB, nl _ hC, nl _ hD, hd]
  · have hA' : F64.le d (-10) = false := by simpa using hA
    by_cases hB : F64.le d 0 = true
    · have hd := F64.isNaN_of_le_left hB
      have hC := F64.le_trans hB t2
      have hD := F64.le_trans hC t3
      simp [hA', hB, hC, hD, F64.lt_of_not_le nm10 hd hA', nl _ hB, nl _ hC, nl _ hD, hd]
    · have hB' : F64.le d 0 = false := by simpa using hB
      by_cases hC : F64.le d 20 = true
      · have hd := F64.isNaN_of_le_left hC
        have hD := F64.le_trans hC t3
        simp [hA', hB', hC, hD, F64.lt_of_not_le n0 hd hB', nl _ hC, nl _ hD, hd]
      · have hC' : F64.le d 20 = false := by simpa using hC
        by_cases hD : F64.le d 50 = true
        · have hd := F64.isNaN_of_le_left hD
          simp [hA', hB', hC', hD, F64.lt_of_not_le n20 hd hC', nl _ hD, hd]
        · have hD' : F64.le d 50 = false := by simpa using hD
          simp only [hA', hB', hC', hD', Bool.false_eq_true, if_false, and_false]
          refine ⟨by decide, by decide, by decide, by decide, ?_⟩
          refine ⟨fun _ => ?_, fun _ => trivial⟩
          cases hd : F64.isNaN d
          · exact Or.inl (F64.lt_of_not_le n50 hd hD')
          · exact Or.inr rfl

/-- Outside the two ranges `10 < d ≤ 20` and `30 < d ≤ 50` the memory and CPU
category of `d` is the FPS category of `−d`. -/
theorem mirror_outside_ranges (fpsRatio memoryRatio cpuRatio fpsDiffPercent d : F64)
    (h₁ : (F64.lt 10 d && F64.le d 20) = false)
    (h₂ : (F64.lt 30 d && F64.le d 50) = false) :
    (classifyPerformance fpsRatio memoryRatio cpuRatio fpsDiffPercent d d).memory
      = (classifyPerformance fpsRatio memoryRatio cpuRatio fpsDiffPercent d d).cpu ∧
    (classifyPerformance fpsRatio memoryRatio cpuRatio fpsDiffPercent d d).memory
      = (classifyPerformance fpsRatio memoryRatio cpuRatio (-d) d d).fps := by
  refine ⟨rfl, ?_⟩
  have e1 : F64.le 10 (-d) = F64.le d (-10) := by
    rw [F64.neg_def, F64.neg_def, F64.le_neg_comm]
  have e2 : F64.le 0 (-d) = F64.le d 0 := by
    rw [F64.neg_def, F64.le_neg_comm, F64.le_neg_zero]
  have e3 : F64.le (-10) (-d) = F64.le d 10 := by
    rw [F64.neg_def, F64.neg_def, F64.le_neg_neg]
  have e4 : F64.le (-30) (-d) = F64.le d 30 := by
    rw [F64.neg_def, F64.neg_def, F64.le_neg_neg]
  have t1 : F64.le 10 20 = true := by decide
  have t2 : F64.le 20 30 = true := by decide
  have t3 : F64.le 30 50 = true := by decide
  have n10 : F64.isNaN (10 : F64) = false := by decide
  have n30 : F64.isNaN (30 : F64) = false := by decide
  simp only [classifyPerformance, F64.ge, e1, e2, e3, e4]
  by_cases hA : F64.le d (-10) = true
  · simp only [hA, if_true]
  · by_cases hB : F64.le d 0 = true
    · simp only [hA, hB, if_true, if_false]
    · simp only [hA, hB, if_false]
      by_cases hC : F64.le d 10 = true
      · have hC' := F64.le_trans hC t1
        simp only [hC, hC', if_true]
      · have hC0 : F64.le d 10 = false := by simpa using hC
        by_cases hC20 : F64.le d 20 = true
        · have hd := F64.isNaN_of_le_left hC20
          have hlt := F64.lt_of_not_le n10 hd hC0
          rw [hlt, hC20] at h₁
          exact Bool.noConfusion h₁
        · simp only [hC, hC20, if_false]
          by_cases hD : F64.le d 30 = true
          · have hD' := F64.le_trans hD t3
            simp only [hD, hD', if_true]
          · have hD0 : F64.le d 30 = false := by simpa using hD
            by_cases hD50 : F64.le d 50 = true
            · have hd := F64.isNaN_of_le_left hD50
              have hlt := F64.lt_of_not_le n30 hd hD0
              rw [hlt, hD50] at h₂
              exact Bool.noConfusion h₂
            · simp only [hD, hD50, if_false]

namespace F64

/-! ## The values `Round(x*100)/100` returns -/

/-- A finite product lies below `2^1024`. -/
theorem mul_fin_lt_ovf {x y : F64} {a : Bool} {m : Nat} (h : x * y = fin a m) : m < ovf := by
  rw [mul_def] at h
  cases x with
  | nan => cases y <;> cases h
  | inf b =>
    cases y with
    | nan => cases h
    | inf c => cases h
    | fin c n =>
      have h' : (if n = 0 then nan else inf (b != c)) = fin a m := h
      split_ifs at h'
  | fin b k =>
    cases y with
    | nan => cases h
    | inf c =>
      have h' : (if k = 0 then nan else inf (b != c)) = fin a m := h
      split_ifs at h'
    | fin c n =>
      rcases mk_cases (b != c) (k * n) one_u with ⟨h1, h2⟩ | ⟨h1, h2⟩
      · have : mul (fin b k) (fin c n) = fin (b != c) (roundMag (k * n) one_u) := h2
        rw [this] at h
        cases h
        exact h1
      · have : mul (fin b k) (fin c n) = inf (b != c) := h2
        rw [this] at h
        cases h

/-- Division of a finite value by a positive finite one. -/
theorem fin_div_pos (a : Bool) (r k : Nat) (hk : 0 < k) :
    fin a r / fin false k = mk a (r * one_u) k := by
  rw [div_def]
  show (if k = 0 then _ else mk (a != false) (r * one_u) k) = _
  rw [if_neg (Nat.pos_iff_ne_zero.mp hk), Bool.bne_false]

end F64

/-- A value `Round(x*100)/100` is one a `float64` holds. -/
theorem round2_isBinary64 (x : F64) : (round2 x).isBinary64 = true := by
  unfold round2
  rw [F64.hundred_eq, F64.div_def]
  cases F64.round (x * F64.fin false (100 * F64.one_u)) with
  | nan => rfl
  | inf a => rfl
  | fin a r =>
    show (F64.fin a r / F64.fin false (100 * F64.one_u)).isBinary64 = true
    rw [F64.fin_div_pos a r _ (by decide)]
    exact F64.mk_isBinary64 _ _ _ (by decide)

/-- A finite value `Round(x*100)/100` lies below `2^1018`: its double does not
overflow. -/
theorem round2_double_lt_ovf (x : F64) (s : Bool) (c : Nat) (h : round2 x = F64.fin s c) :
    2 * c < F64.ovf := by
  unfold round2 at h
  rw [F64.hundred_eq] at h
  cases hy : x * F64.fin false (100 * F64.one_u) with
  | nan => rw [hy] at h; cases h
  | inf a => rw [hy] at h; cases h
  | fin a m =>
    have hm : m < F64.ovf := F64.mul_fin_lt_ovf hy
    rw [hy] at h
    have h' : F64.fin a (F64.roundInt m) / F64.fin false (100 * F64.one_u) = F64.fin s c := h
    rw [F64.fin_div_pos a _ _ (by decide)] at h'
    rcases F64.mk_cases a (F64.roundInt m * F64.one_u) (100 * F64.one_u) with
      ⟨_, e⟩ | ⟨_, e⟩
    · rw [e] at h'
      cases h'
      have h1 : F64.roundInt m ≤ F64.roundInt F64.ovf := F64.roundInt_mono (Nat.le_of_lt hm)
      have h2 := F64.roundMag_mono (100 * F64.one_u) (by decide)
        (Nat.mul_le_mul_right F64.one_u h1)
      have h3 : 2 * F64.roundMag (F64.roundInt F64.ovf * F64.one_u) (100 * F64.one_u)
          < F64.ovf := by decide
      omega
    · rw [e] at h'
      cases h'

namespace F64

/-! ## Rounding errors -/

/-- The nearest integer to `n / d` is within half of `d` of `n`, scaled. -/
theorem rne_error (n d : Nat) (hd : 0 < d) :
    2 * (rne n d * d) ≤ 2 * n + d ∧ 2 * n ≤ 2 * (rne n d * d) + d := by
  have e := Nat.div_add_mod' n d
  have hr := Nat.mod_lt n hd
  unfold rne
  simp only
  split_ifs <;> (try simp only [Nat.add_mul, Nat.one_mul]) <;> omega

/-- A sum below `2^(γ+54)` rounds within `2^γ`. -/
theorem roundMag_one_error (N γ : Nat) (hN : N < 2 ^ (γ + 54)) :
    roundMag N 1 ≤ N + 2 ^ γ ∧ N ≤ roundMag N 1 + 2 ^ γ := by
  have hl : ilog2 N < γ + 54 := ilog2_lt_of_lt_pow (by omega) hN
  have hs : dropBits N ≤ γ + 1 := by unfold dropBits; omega
  have hp : 2 ^ dropBits N ≤ 2 * 2 ^ γ := by
    calc 2 ^ dropBits N ≤ 2 ^ (γ + 1) := Nat.pow_le_pow_right (by decide) hs
      _ = 2 * 2 ^ γ := by rw [pow_succ]; ring
  obtain ⟨h1, h2⟩ := rne_error N (2 ^ dropBits N) (Nat.two_pow_pos _)
  unfold roundMag
  simp only [Nat.div_one, Nat.one_mul]
  omega

/-- A multiple `k × 2^j` with `k ≤ 2^53` is representable. -/
theorem mul_pow_representable (k j : Nat) (hk : k ≤ 2 ^ 53) :
    (k * 2 ^ j) % 2 ^ dropBits (k * 2 ^ j) = 0 := by
  apply Nat.mod_eq_zero_of_dvd
  rcases Nat.eq_or_lt_of_le hk with rfl | hlt
  · have : 2 ^ 53 * 2 ^ j = 2 ^ (53 + j) := by rw [pow_add]
    rw [this]
    apply Nat.pow_dvd_pow 2
    unfold dropBits
    have := ilog2_lt_of_lt_pow (Nat.succ_pos _)
      (Nat.pow_lt_pow_right (by decide : 1 < 2) (Nat.lt_succ_self (53 + j)))
    omega
  · have h3 : k * 2 ^ j < 2 ^ (53 + j) := by
      rw [pow_add]
      exact Nat.mul_lt_mul_of_pos_right hlt (Nat.two_pow_pos _)
    have h5 : ilog2 (k * 2 ^ j) < 53 + j := ilog2_lt_of_lt_pow (by omega) h3
    have h6 : dropBits (k * 2 ^ j) ≤ j := by unfold dropBits; omega
    exact Dvd.dvd.mul_left (Nat.pow_dvd_pow 2 h6) k

/-- A quotient below one half rounds to zero. -/
theorem roundMag_small (n d : Nat) (h : 2 * n < d) : roundMag n d = 0 := by
  have hq : n / d = 0 := Nat.div_eq_of_lt (by omega)
  unfold roundMag
  simp only [hq, dropBits, ilog2_zero, Nat.zero_sub, pow_zero, Nat.mul_one]
  unfold rne
  simp only [hq, Nat.mod_eq_of_lt (show n < d by omega), h, if_true]

/-- Rounding depends on the quotient only. -/
theorem roundMag_mul_right (n d c : Nat) (hc : 0 < c) :
    roundMag (n * c) (d * c) = roundMag n d := by
  unfold roundMag
  simp only [Nat.mul_div_mul_right _ _ hc]
  have e : d * c * 2 ^ dropBits (n / d) = d * 2 ^ dropBits (n / d) * c := by ring
  rw [e, rne_mul_right _ _ _ hc]

/-- A larger denominator gives a smaller rounded quotient. -/
theorem roundMag_anti (n : Nat) {d₁ d₂ : Nat} (h₁ : 0 < d₁) (h : d₁ ≤ d₂) :
    roundMag n d₂ ≤ roundMag n d₁ := by
  have h₂ : 0 < d₂ := Nat.lt_of_lt_of_le h₁ h
  rw [← roundMag_mul_right n d₂ d₁ h₁, ← roundMag_mul_right n d₁ d₂ h₂, Nat.mul_comm d₁ d₂]
  exact roundMag_mono _ (Nat.mul_pos h₂ h₁) (Nat.mul_le_mul_left n h)

theorem isqrtAux_sq_le (n bits r : Nat) (h : r * r ≤ n) :
    isqrtAux n bits r * isqrtAux n bits r ≤ n := by
  induction bits generalizing r with
  | zero => exact h
  | succ b ih =>
    unfold isqrtAux
    simp only
    split_ifs with hc
    · exact ih _ hc
    · exact ih _ h

theorem isqrt_sq_le (n : Nat) : isqrt n * isqrt n ≤ n :=
  isqrtAux_sq_le n _ 0 (Nat.zero_le _)

/-- The integer square root of a number up to `b²` is at most `b`. -/
theorem isqrt_le_of_le_sq {n b : Nat} (h : n ≤ b * b) : isqrt n ≤ b := by
  by_contra hc
  have h1 : b + 1 ≤ isqrt n := by omega
  have h2 := Nat.mul_le_mul h1 h1
  have h3 := isqrt_sq_le n
  have h4 : (b + 1) * (b + 1) = b * b + 2 * b + 1 := by ring
  omega

/-- The rounded square root of a magnitude up to `b² / 2^1074` is at most `2b`. -/
theorem sqrtMag_le (m b : Nat) (hb : 1 ≤ b) (h : m * one_u ≤ b * b) : sqrtMag m ≤ 2 * b := by
  have hr : isqrt (m * one_u) ≤ b := isqrt_le_of_le_sq h
  have hs : 2 ^ dropBits (isqrt (m * one_u)) ≤ b := by
    rcases Nat.eq_zero_or_pos (isqrt (m * one_u)) with h0 | hpos
    · rw [h0]
      simpa [dropBits, ilog2_zero] using hb
    · have h1 : 2 ^ ilog2 (isqrt (m * one_u)) ≤ isqrt (m * one_u) := two_pow_ilog2_le hpos
      have h2 : 2 ^ dropBits (isqrt (m * one_u)) ≤ 2 ^ ilog2 (isqrt (m * one_u)) :=
        Nat.pow_le_pow_right (by decide) (by unfold dropBits; omega)
      omega
  have hq : isqrt (m * one_u / 4 ^ dropBits (isqrt (m * one_u)))
      * 2 ^ dropBits (isqrt (m * one_u)) ≤ b := by
    generalize dropBits (isqrt (m * one_u)) = s
    have h1 := isqrt_sq_le (m * one_u / 4 ^ s)
    have h2 : isqrt (m * one_u / 4 ^ s) * 2 ^ s * (isqrt (m * one_u / 4 ^ s) * 2 ^ s)
        ≤ b * b := by
      calc isqrt (m * one_u / 4 ^ s) * 2 ^ s * (isqrt (m * one_u / 4 ^ s) * 2 ^ s)
          = isqrt (m * one_u / 4 ^ s) * isqrt (m * one_u / 4 ^ s) * 4 ^ s := by
            rw [show (4 : Nat) = 2 * 2 by rfl, Nat.mul_pow]; ring
        _ ≤ m * one_u / 4 ^ s * 4 ^ s := Nat.mul_le_mul_right _ h1
        _ ≤ m * one_u := Nat.div_mul_le_self _ _
        _ ≤ b * b := h
    by_contra hc
    have h3 : b + 1 ≤ isqrt (m * one_u / 4 ^ s) * 2 ^ s := by omega
    have h4 := Nat.mul_le_mul h3 h3
    have h5 : (b + 1) * (b + 1) = b * b + 2 * b + 1 := by ring
    omega
  unfold sqrtMag
  simp only
  split_ifs <;> (try simp only [Nat.add_mul, Nat.one_mul]) <;> omega

end F64

namespace F64

/-! ## The sum and the mean of a constant series -/

theorem add_same_sign (s : Bool) (A C : Nat) : fin s A + fin s C = mk s (A + C) 1 := by
  rw [add_def]
  unfold add
  exact if_pos rfl

theorem zero_add_fin (s : Bool) (C : Nat) (hC : 0 < C) (hrep : C % 2 ^ dropBits C = 0)
    (hlt : C < ovf) : (0 : F64) + fin s C = fin s C := by
  have e := mk_exact s C 1 (by decide) hrep hlt
  rw [Nat.mul_one] at e
  rw [zero_eq, add_def]
  cases s with
  | false =>
    have h : add (fin false 0) (fin false C) = mk false (0 + C) 1 := by
      unfold add
      exact if_pos rfl
    rw [h, Nat.zero_add, e]
  | true =>
    have h : add (fin false 0) (fin true C) = mk true (C - 0) 1 := by
      show (if false = true then mk false (0 + C) 1 else if C < 0 then mk false (0 - C) 1
        else if 0 < C then mk true (C - 0) 1 else fin false 0) = _
      rw [if_neg (by decide), if_neg (Nat.not_lt_zero C), if_pos hC]
    rw [h, Nat.sub_zero, e]

/-- The sum of `k` more copies of a magnitude `C`, when every rounding moves a
sum below `B` by at most `P`: after `j` copies in all the sum is within
`j × P` of `j × C`. -/
theorem constSum_bracket (s : Bool) (C P W B : Nat) (hW : W = C + P) (hovf : B ≤ ovf)
    (herr : ∀ N, N < B → roundMag N 1 ≤ N + P ∧ N ≤ roundMag N 1 + P) :
    ∀ (k j A : Nat), (j + k) * W < B → A ≤ j * W → j * C ≤ A + j * P →
      ∃ A', (List.replicate k (fin s C)).foldl (fun a v => a + v) (fin s A) = fin s A' ∧
        A' ≤ (j + k) * W ∧ (j + k) * C ≤ A' + (j + k) * P := by
  intro k
  induction k with
  | zero =>
    intro j A _ h1 h2
    exact ⟨A, rfl, h1, h2⟩
  | succ k ih =>
    intro j A hB h1 h2
    have e1 : (j + 1) * W = j * W + W := Nat.succ_mul j W
    have e2 : (j + 1) * C = j * C + C := Nat.succ_mul j C
    have e3 : (j + 1) * P = j * P + P := Nat.succ_mul j P
    have e4 : j + (k + 1) = j + 1 + k := by omega
    have hle : (j + 1) * W ≤ (j + (k + 1)) * W := Nat.mul_le_mul_right W (by omega)
    obtain ⟨r1, r2⟩ := herr (A + C) (by omega)
    have hfin : fin s A + fin s C = fin s (roundMag (A + C) 1) := by
      rw [add_same_sign]
      unfold mk
      exact if_pos (by omega)
    rw [List.replicate_succ, List.foldl_cons, hfin, e4]
    rw [e4] at hB
    exact ih (j + 1) (roundMag (A + C) 1) hB (by omega) (by omega)

theorem pow_split (a b γ : Nat) (hab : a + b = 53) :
    2 ^ a * (2 ^ (b + 1) * 2 ^ γ) = 2 ^ (γ + 54) := by
  rw [← pow_add, ← pow_add]
  congr 1
  omega

/-- The mean of `n ≤ 2^a` copies of a value of magnitude `C ≤ 2^(γ+b)`, with
`a + b = 53`, is a value of the same sign whose magnitude is within `2^(γ+1)`
of `C`. -/
theorem constMean_bracket (s : Bool) (C γ n a b : Nat) (hC : 0 < C)
    (hrep : C % 2 ^ dropBits C = 0) (hn : 1 ≤ n) (hn' : n ≤ 2 ^ a)
    (hab : a + b = 53) (ha : 1 ≤ a) (hb : 1 ≤ b)
    (hγ : C ≤ 2 ^ (γ + b)) (hγ' : γ + 54 ≤ 2098) :
    ∃ M, seriesMean (List.replicate n (fin s C)) = fin s M ∧ M % 2 ^ dropBits M = 0 ∧
      M < ovf ∧ C ≤ M + 2 ^ (γ + 1) ∧ M ≤ C + 2 ^ (γ + 1) := by
  have hP : 0 < 2 ^ γ := Nat.two_pow_pos γ
  have hB : 2 ^ (γ + 54) ≤ ovf := Nat.pow_le_pow_right (by decide) hγ'
  have h33 : 2 ^ (γ + b) = 2 ^ b * 2 ^ γ := by rw [pow_add]; ring
  have h54 : 2 ^ (γ + 54) = 2 ^ 54 * 2 ^ γ := by rw [pow_add]; ring
  have h1 : 2 ^ (γ + 1) = 2 * 2 ^ γ := by rw [pow_succ]; ring
  have hb52 : 2 ^ b ≤ 2 ^ 52 := Nat.pow_le_pow_right (by decide) (by omega)
  have ha52 : 2 ^ a ≤ 2 ^ 52 := Nat.pow_le_pow_right (by decide) (by omega)
  have h52 : (2 : Nat) ^ 52 + 2 ≤ 2 ^ 53 := by decide
  have h53 : (2 : Nat) ^ 53 ≤ 2 ^ 54 := by decide
  have hlt : C < ovf := by
    have : 2 ^ (γ + b) < 2 ^ (γ + 54) := Nat.pow_lt_pow_right (by decide) (by omega)
    omega
  -- the sum
  have hnW : n * (C + 2 ^ γ) < 2 ^ (γ + 54) := by
    calc n * (C + 2 ^ γ) ≤ 2 ^ a * (C + 2 ^ γ) := Nat.mul_le_mul_right _ hn'
      _ < 2 ^ a * (2 ^ (b + 1) * 2 ^ γ) := by
        apply Nat.mul_lt_mul_of_pos_left _ (Nat.two_pow_pos a)
        rw [h33] at hγ
        have : (2 : Nat) ^ (b + 1) = 2 ^ b + 2 ^ b := by rw [pow_succ]; ring
        rw [this, Nat.add_mul]
        have h2 : (2 : Nat) ^ 1 ≤ 2 ^ b := Nat.pow_le_pow_right (by decide) hb
        have : 2 ^ 1 * 2 ^ γ ≤ 2 ^ b * 2 ^ γ := Nat.mul_le_mul_right _ h2
        omega
      _ = 2 ^ (γ + 54) := pow_split a b γ hab
  obtain ⟨k, rfl⟩ : ∃ k, n = k + 1 := ⟨n - 1, by omega⟩
  obtain ⟨A, hA, a1, a2⟩ := constSum_bracket s C (2 ^ γ) (C + 2 ^ γ) (2 ^ (γ + 54)) rfl hB
    (fun N hN => roundMag_one_error N γ hN) k 1 C (by rw [Nat.add_comm 1 k]; exact hnW)
    (by omega) (by omega)
  rw [Nat.add_comm 1 k] at a1 a2
  have hsum : seriesSum (List.replicate (k + 1) (fin s C)) = fin s A := by
    unfold seriesSum
    rw [List.replicate_succ, List.foldl_cons, zero_add_fin s C hC hrep hlt]
    exact hA
  -- the two representable bounds of the mean
  have hq : C / 2 ^ γ ≤ 2 ^ b := by
    apply Nat.div_le_of_le_mul
    rw [Nat.mul_comm, ← h33]
    exact hγ
  have hdm := Nat.div_add_mod' C (2 ^ γ)
  have hml := Nat.mod_lt C hP
  have eL : (C / 2 ^ γ - 1) * 2 ^ γ = C / 2 ^ γ * 2 ^ γ - 2 ^ γ := by
    rw [Nat.sub_mul, Nat.one_mul]
  have eU : (C / 2 ^ γ + 2) * 2 ^ γ = C / 2 ^ γ * 2 ^ γ + 2 * 2 ^ γ := by
    rw [Nat.add_mul]
  have hLrep := mul_pow_representable (C / 2 ^ γ - 1) γ (by omega)
  have hUrep := mul_pow_representable (C / 2 ^ γ + 2) γ (by omega)
  have hUlt : (C / 2 ^ γ + 2) * 2 ^ γ < ovf := by
    have : (C / 2 ^ γ + 2) * 2 ^ γ < 2 ^ 54 * 2 ^ γ := by
      apply Nat.mul_lt_mul_of_pos_right _ hP
      have : (2 : Nat) ^ 53 < 2 ^ 54 := by decide
      omega
    omega
  have hku : 0 < (k + 1) * one_u := Nat.mul_pos (Nat.succ_pos k) one_u_pos
  have hnL : (C / 2 ^ γ - 1) * 2 ^ γ * ((k + 1) * one_u) ≤ A * one_u := by
    have : (k + 1) * ((C / 2 ^ γ - 1) * 2 ^ γ) ≤ A := by
      have e5 : (k + 1) * (C / 2 ^ γ * 2 ^ γ - 2 ^ γ)
          = (k + 1) * (C / 2 ^ γ * 2 ^ γ) - (k + 1) * 2 ^ γ := Nat.mul_sub _ _ _
      have e6 : (k + 1) * (C / 2 ^ γ * 2 ^ γ) ≤ (k + 1) * C :=
        Nat.mul_le_mul_left _ (by omega)
      rw [eL, e5]
      omega
    calc (C / 2 ^ γ - 1) * 2 ^ γ * ((k + 1) * one_u)
        = (k + 1) * ((C / 2 ^ γ - 1) * 2 ^ γ) * one_u := by ring
      _ ≤ A * one_u := Nat.mul_le_mul_right _ this
  have hnU : A * one_u ≤ (C / 2 ^ γ + 2) * 2 ^ γ * ((k + 1) * one_u) := by
    have : A ≤ (k + 1) * ((C / 2 ^ γ + 2) * 2 ^ γ) := by
      have e6 : (k + 1) * (C + 2 ^ γ) ≤ (k + 1) * ((C / 2 ^ γ + 2) * 2 ^ γ) :=
        Nat.mul_le_mul_left _ (by omega)
      omega
    calc A * one_u ≤ (k + 1) * ((C / 2 ^ γ + 2) * 2 ^ γ) * one_u :=
          Nat.mul_le_mul_right _ this
      _ = (C / 2 ^ γ + 2) * 2 ^ γ * ((k + 1) * one_u) := by ring
  have m1 := roundMag_mono ((k + 1) * one_u) hku hnL
  have m2 := roundMag_mono ((k + 1) * one_u) hku hnU
  rw [roundMag_exact _ _ hku hLrep] at m1
  rw [roundMag_exact _ _ hku hUrep] at m2
  have hMlt : roundMag (A * one_u) ((k + 1) * one_u) < ovf := by omega
  refine ⟨roundMag (A * one_u) ((k + 1) * one_u), ?_,
    roundMag_representable _ _ hku ?_, hMlt, by omega, by omega⟩
  · unfold seriesMean
    rw [hsum, List.length_replicate, ofNat_exact (k + 1) (by omega), fin_div_pos s A _ hku]
    unfold mk
    exact if_pos hMlt
  · apply ilog2_lt_of_lt_pow (by decide)
    have h7 : A * one_u / ((k + 1) * one_u) ≤ A * one_u := Nat.div_le_self _ _
    have h8 : A * one_u < ovf * one_u := by
      apply Nat.mul_lt_mul_of_pos_right _ one_u_pos
      omega
    have h9 : ovf * one_u < 2 ^ 8190 := by decide
    omega

end F64

namespace F64

/-! ## The sum of a series between the sums of two constant series -/

theorem add_comm (x y : F64) : x + y = y + x := by
  rw [add_def, add_def]
  cases x with
  | nan => cases y <;> rfl
  | inf a =>
    cases y with
    | nan => rfl
    | inf b =>
      show (if a = b then inf a else nan) = (if b = a then inf b else nan)
      by_cases h : a = b
      · subst h; rfl
      · rw [if_neg h, if_neg (fun e => h e.symm)]
    | fin b n => rfl
  | fin a m =>
    cases y with
    | nan => rfl
    | inf b => rfl
    | fin b n =>
      show (if a = b then mk a (m + n) 1 else if n < m then mk a (m - n) 1
          else if m < n then mk b (n - m) 1 else fin false 0)
        = (if b = a then mk b (n + m) 1 else if m < n then mk b (n - m) 1
          else if n < m then mk a (m - n) 1 else fin false 0)
      by_cases h : a = b
      · subst h
        rw [if_pos rfl, if_pos rfl, Nat.add_comm]
      · have h' : ¬ b = a := fun e => h e.symm
        simp only [h, h', if_false]
        by_cases h1 : n < m
        · have h2 : ¬ m < n := by omega
          simp only [h1, h2, if_true, if_false]
        · simp only [h1, if_false]

/-- Adding a finite value keeps the order of two numbers on the left, and a
number keeps the order of two finite values added to it. -/
theorem add_le_add_fin {x y : F64} (h : le x y = true) (a b : Bool) (m n : Nat)
    (hv : le (fin a m) (fin b n) = true) : le (x + fin a m) (y + fin b n) = true := by
  have hx := isNaN_of_le_left h
  have hy := isNaN_of_le_right h
  have h1 : le (x + fin a m) (y + fin a m) = true :=
    add_le_add_right (fin a m) h (isNaN_add_fin x a m hx) (isNaN_add_fin y a m hy)
  have h2 : le (fin a m + y) (fin b n + y) = true :=
    add_le_add_right y hv (by rw [add_comm]; exact isNaN_add_fin y a m hy)
      (by rw [add_comm]; exact isNaN_add_fin y b n hy)
  rw [add_comm (fin a m) y, add_comm (fin b n) y] at h2
  exact le_trans h1 h2

end F64

/-- The sum of a series of finite values is at least the sum of as many copies
of a finite lower bound of them. -/
theorem constSum_le_seriesSum (lo : F64) (hlo : ∃ s m, lo = F64.fin s m) (values : List F64)
    (hfin : ∀ v ∈ values, ∃ s m, v = F64.fin s m)
    (h : ∀ v ∈ values, F64.le lo v = true) (a b : F64) (hab : F64.le a b = true) :
    F64.le ((List.replicate values.length lo).foldl (fun s v => s + v) a)
      (values.foldl (fun s v => s + v) b) = true := by
  induction values generalizing a b with
  | nil => exact hab
  | cons v rest ih =>
    obtain ⟨s, m, rfl⟩ := hlo
    obtain ⟨t, n, rfl⟩ := hfin v (List.mem_cons_self _ _)
    rw [List.length_cons, List.replicate_succ, List.foldl_cons, List.foldl_cons]
    exact ih (fun w hw => hfin w (List.mem_cons_of_mem _ hw))
      (fun w hw => h w (List.mem_cons_of_mem _ hw)) _ _
      (F64.add_le_add_fin hab s t m n (h _ (List.mem_cons_self _ _)))

/-- The sum of a series of finite values is at most the sum of as many copies
of a finite upper bound of them. -/
theorem seriesSum_le_constSum (hi : F64) (hhi : ∃ s m, hi = F64.fin s m) (values : List F64)
    (hfin : ∀ v ∈ values, ∃ s m, v = F64.fin s m)
    (h : ∀ v ∈ values, F64.le v hi = true) (a b : F64) (hab : F64.le a b = true) :
    F64.le (values.foldl (fun s v => s + v) a)
      ((List.replicate values.length hi).foldl (fun s v => s + v) b) = true := by
  induction values generalizing a b with
  | nil => exact hab
  | cons v rest ih =>
    obtain ⟨s, m, rfl⟩ := hhi
    obtain ⟨t, n, rfl⟩ := hfin v (List.mem_cons_self _ _)
    rw [List.length_cons, List.replicate_succ, List.foldl_cons, List.foldl_cons]
    exact ih (fun w hw => hfin w (List.mem_cons_of_mem _ hw))
      (fun w hw => h w (List.mem_cons_of_mem _ hw)) _ _
      (F64.add_le_add_fin hab t s n m (h _ (List.mem_cons_self _ _)))

/-- The mean of a series of finite values is at least the mean of as many
copies of a finite lower bound of them. -/
theorem constMean_le_seriesMean (lo : F64) (hlo : ∃ s m, lo = F64.fin s m) (values : List F64)
    (hne : values ≠ []) (hlen : values.length < 2 ^ 63)
    (hfin : ∀ v ∈ values, ∃ s m, v = F64.fin s m) (h : ∀ v ∈ values, F64.le lo v = true) :
    F64.le (seriesMean (List.replicate values.length lo)) (seriesMean values) = true := by
  obtain ⟨k, hk, en⟩ := F64.ofNat_length_fin values.length (List.length_pos.mpr hne) hlen
  unfold seriesMean seriesSum
  rw [List.length_replicate, en]
  exact F64.div_le_div_right_fin k hk
    (constSum_le_seriesSum lo hlo values hfin h 0 0 (by decide))

/-- The mean of a series of finite values is at most the mean of as many
copies of a finite upper bound of them. -/
theorem seriesMean_le_constMean (hi : F64) (hhi : ∃ s m, hi = F64.fin s m) (values : List F64)
    (hne : values ≠ []) (hlen : values.length < 2 ^ 63)
    (hfin : ∀ v ∈ values, ∃ s m, v = F64.fin s m) (h : ∀ v ∈ values, F64.le v hi = true) :
    F64.le (seriesMean values) (seriesMean (List.replicate values.length hi)) = true := by
  obtain ⟨k, hk, en⟩ := F64.ofNat_length_fin values.length (List.length_pos.mpr hne) hlen
  unfold seriesMean seriesSum
  rw [List.length_replicate, en]
  exact F64.div_le_div_right_fin k hk
    (seriesSum_le_constSum hi hhi values hfin h 0 0 (by decide))

/-! ## The mean of a constant series against the value -/

theorem roundingMargin_eq : roundingMargin = F64.fin false (2 ^ 1063) := by decide

/-- The magnitude of a finite value, from its signed value in units. -/
theorem units_natAbs (s : Bool) (C : Nat) : (F64.fin s C).units.natAbs = C := by
  cases s <;> simp [F64.units, F64.sval]

/-- A length `n ≤ 2^31` with `n × C ≤ 2^40` (in units of `2^-1074`) lies below
a power of two `2^a` with `C ≤ 2^(41-a)`. -/
theorem length_exponent (n C : Nat) (hn : 1 ≤ n) (hn' : n ≤ 2 ^ 31)
    (h : n * C ≤ 2 ^ 40 * F64.one_u) :
    ∃ a, 1 ≤ a ∧ a ≤ 32 ∧ n ≤ 2 ^ a ∧ C ≤ 2 ^ (1115 - a) := by
  have hi : F64.ilog2 n < 32 :=
    F64.ilog2_lt_of_lt_pow (by decide) (Nat.lt_of_le_of_lt hn' (by decide))
  refine ⟨F64.ilog2 n + 1, by omega, by omega,
    Nat.le_of_lt (F64.lt_two_pow_ilog2 (by omega)), ?_⟩
  have h1 := F64.two_pow_ilog2_le hn
  have e : 2 ^ 40 * F64.one_u = 2 ^ (1115 - (F64.ilog2 n + 1)) * 2 ^ F64.ilog2 n := by
    show 2 ^ 40 * 2 ^ 1074 = _
    rw [← pow_add, ← pow_add]
    congr 1
    omega
  have h2 : C * 2 ^ F64.ilog2 n
      ≤ 2 ^ (1115 - (F64.ilog2 n + 1)) * 2 ^ F64.ilog2 n := by
    calc C * 2 ^ F64.ilog2 n ≤ C * n := Nat.mul_le_mul_left _ h1
      _ = n * C := Nat.mul_comm _ _
      _ ≤ 2 ^ (1115 - (F64.ilog2 n + 1)) * 2 ^ F64.ilog2 n := by rw [← e]; exact h
  exact Nat.le_of_mul_le_mul_right h2 (Nat.two_pow_pos _)

/-- The mean of `n ≤ 2^31` copies of a `float64` of magnitude `C` with
`n × C ≤ 2^40` is a `float64` within `2^-11` of it. -/
theorem constMean_near (s : Bool) (C n : Nat) (hrep : C % 2 ^ F64.dropBits C = 0)
    (hmag : n * C ≤ 2 ^ 40 * F64.one_u) (hn : 1 ≤ n) (hn' : n ≤ 2 ^ 31) :
    ∃ t M, seriesMean (List.replicate n (F64.fin s C)) = F64.fin t M ∧
      M % 2 ^ F64.dropBits M = 0 ∧ M < F64.ovf ∧
      F64.sval s C - 2 ^ 1063 ≤ F64.sval t M ∧ F64.sval t M ≤ F64.sval s C + 2 ^ 1063 := by
  rcases Nat.eq_zero_or_pos C with rfl | hC
  · refine ⟨false, 0, ?_, by decide, by decide, ?_, ?_⟩
    · apply seriesMean_zeros
      · intro h
        have := congrArg List.length h
        rw [List.length_replicate] at this
        simp at this
        omega
      · intro v hv
        exact ⟨s, List.eq_of_mem_replicate hv⟩
    · cases s <;> simp [F64.sval]
    · cases s <;> simp [F64.sval]
  · obtain ⟨a, ha1, ha2, hna, hCa⟩ := length_exponent n C hn hn' hmag
    have hlt : C ≤ 2 ^ (1062 + (53 - a)) := by
      have : 1062 + (53 - a) = 1115 - a := by omega
      rw [this]
      exact hCa
    obtain ⟨M, hM, hMrep, hMlt, b1, b2⟩ :=
      F64.constMean_bracket s C 1062 n a (53 - a) hC hrep hn hna (by omega) ha1 (by omega)
        hlt (by decide)
    refine ⟨s, M, hM, hMrep, hMlt, ?_, ?_⟩
    · cases s <;> simp only [F64.sval, if_true, if_false, Bool.false_eq_true]
      · have : ((C : Int)) ≤ (M : Int) + 2 ^ 1063 := by exact_mod_cast b1
        omega
      · have : ((M : Int)) ≤ (C : Int) + 2 ^ 1063 := by exact_mod_cast b2
        omega
    · cases s <;> simp only [F64.sval, if_true, if_false, Bool.false_eq_true]
      · have : ((M : Int)) ≤ (C : Int) + 2 ^ 1063 := by exact_mod_cast b2
        omega
      · have : ((C : Int)) ≤ (M : Int) + 2 ^ 1063 := by exact_mod_cast b1
        omega

/-- The mean of `n ≤ 2^31` copies of a `float64` `c` with `n × |c| ≤ 2^40`
lies between `c − 2^-11` and `c + 2^-11`. -/
theorem constMean_margin (c : F64) (hb : c.isBinary64 = true) (hf : ∃ s m, c = F64.fin s m)
    (n : Nat) (hn : 1 ≤ n) (hn' : n ≤ 2 ^ 31)
    (hmag : n * c.units.natAbs ≤ 2 ^ 40 * F64.one_u) :
    F64.le (c - roundingMargin) (seriesMean (List.replicate n c)) = true ∧
    F64.le (seriesMean (List.replicate n c)) (c + roundingMargin) = true := by
  obtain ⟨s, C, rfl⟩ := hf
  rw [units_natAbs] at hmag
  have hrep : C % 2 ^ F64.dropBits C = 0 ∧ C < F64.ovf := by
    simpa [F64.isBinary64] using hb
  obtain ⟨t, M, hM, hMrep, hMlt, b1, b2⟩ :=
    constMean_near s C n hrep.1 hmag hn hn'
  have eM := F64.mk_exact t M 1 (by decide) hMrep hMlt
  rw [Nat.mul_one] at eM
  rw [hM, roundingMargin_eq, ← eM]
  constructor
  · obtain ⟨u, N, e, hs⟩ := F64.add_fin_fin s true C (2 ^ 1063)
    have e' : F64.fin s C - F64.fin false (2 ^ 1063) = F64.mk u N 1 := e
    rw [e']
    apply F64.mk_le_mk _ _ _ _ _ (by decide)
    rw [hs, F64.sval_nonpos]
    push_cast
    omega
  · obtain ⟨u, N, e, hs⟩ := F64.add_fin_fin s false C (2 ^ 1063)
    have e' : F64.fin s C + F64.fin false (2 ^ 1063) = F64.mk u N 1 := e
    rw [e']
    apply F64.mk_le_mk _ _ _ _ _ (by decide)
    rw [hs, F64.sval_nonneg]
    push_cast
    omega

namespace F64

/-- Rounding to two decimals takes a magnitude of at most `2^-8` to zero. -/
theorem round2_small (s : Bool) (X : Nat) (h : X ≤ 2 ^ 1066) :
    F64.round (fin s X * 100) / 100 = fin s 0 := by
  have hY : roundMag (X * (100 * one_u)) one_u ≤ 100 * 2 ^ 1066 := by
    have h1 : X * (100 * one_u) ≤ 100 * 2 ^ 1066 * one_u := by
      calc X * (100 * one_u) = 100 * X * one_u := by ring
        _ ≤ 100 * 2 ^ 1066 * one_u :=
          Nat.mul_le_mul_right _ (Nat.mul_le_mul_left _ h)
    have h2 := roundMag_mono one_u one_u_pos h1
    rwa [roundMag_exact (100 * 2 ^ 1066) one_u one_u_pos (by decide)] at h2
  have hmul : fin s X * 100 = fin s (roundMag (X * (100 * one_u)) one_u) := by
    rw [hundred_eq, mul_def]
    show mk (s != false) (X * (100 * one_u)) one_u = _
    rw [Bool.bne_false]
    unfold mk
    exact if_pos (Nat.lt_of_le_of_lt hY (by decide))
  have hR : roundInt (roundMag (X * (100 * one_u)) one_u) = 0 := by
    have h1 := roundInt_mono hY
    have h2 : roundInt (100 * 2 ^ 1066) = 0 := by decide
    omega
  rw [hmul]
  show fin s (roundInt (roundMag (X * (100 * one_u)) one_u)) / 100 = fin s 0
  rw [hR, hundred_eq, zero_div_fin s false _ (by decide), Bool.bne_false]

/-- The sum of `k` more copies of a magnitude `q ≤ Q`, with `Q` a power of
two, is at most `(j + k) × Q` when it starts from at most `j × Q`. -/
theorem constSum_upper (q e : Nat) (hq : q ≤ 2 ^ e) :
    ∀ (k j A : Nat), j + k ≤ 2 ^ 53 → (j + k) * 2 ^ e < ovf → A ≤ j * 2 ^ e →
      ∃ V, (List.replicate k (fin false q)).foldl (fun a v => a + v) (fin false A)
        = fin false V ∧ V ≤ (j + k) * 2 ^ e := by
  intro k
  induction k with
  | zero =>
    intro j A _ _ h1
    exact ⟨A, rfl, h1⟩
  | succ k ih =>
    intro j A hj hovf h1
    have e1 : (j + 1) * 2 ^ e = j * 2 ^ e + 2 ^ e := Nat.succ_mul j _
    have e4 : j + (k + 1) = j + 1 + k := by omega
    have hle : (j + 1) * 2 ^ e ≤ (j + (k + 1)) * 2 ^ e := Nat.mul_le_mul_right _ (by omega)
    have hr : roundMag (A + q) 1 ≤ (j + 1) * 2 ^ e := by
      have h2 : A + q ≤ (j + 1) * 2 ^ e * 1 := by omega
      have h3 := roundMag_mono 1 (by decide) h2
      rwa [roundMag_exact _ 1 (by decide) (mul_pow_representable (j + 1) e (by omega))] at h3
    have hfin : fin false A + fin false q = fin false (roundMag (A + q) 1) := by
      rw [add_same_sign]
      unfold mk
      exact if_pos (by omega)
    rw [List.replicate_succ, List.foldl_cons, hfin, e4]
    rw [e4] at hj hovf
    exact ih (j + 1) _ hj hovf hr

/-- The deviation of a value from a value within `2^e` of it is a `float64`
of magnitude at most `2^e`. -/
theorem deviation_bound (s : Bool) (C M e : Nat) (he : 2 ^ e < ovf)
    (h1 : C ≤ M + 2 ^ e) (h2 : M ≤ C + 2 ^ e) :
    ∃ t Dv, fin s C - fin s M = fin t Dv ∧ Dv ≤ 2 ^ e := by
  obtain ⟨u, N, hN, hs⟩ := add_fin_fin s (!s) C M
  have hN' : fin s C - fin s M = mk u N 1 := hN
  have hle : N ≤ 2 ^ e * 1 := by
    rw [Nat.mul_one]
    have c1 : ((C : Int)) ≤ (M : Int) + ((2 ^ e : Nat) : Int) := by exact_mod_cast h1
    have c2 : ((M : Int)) ≤ (C : Int) + ((2 ^ e : Nat) : Int) := by exact_mod_cast h2
    have : (N : Int) ≤ ((2 ^ e : Nat) : Int) := by
      cases u <;> cases s <;>
        simp only [sval, Bool.not_true, Bool.not_false, if_true, if_false,
          Bool.false_eq_true] at hs <;> omega
    exact_mod_cast this
  have hr := roundMag_mono 1 (by decide) hle
  have hp : (2 ^ e) % 2 ^ dropBits (2 ^ e) = 0 := by
    have := mul_pow_representable 1 e (by decide)
    rwa [Nat.one_mul] at this
  rw [roundMag_exact _ 1 (by decide) hp] at hr
  refine ⟨u, roundMag N 1, ?_, hr⟩
  rw [hN']
  unfold mk
  exact if_pos (by omega)

end F64

namespace F64

theorem sqrt_fin_pos (W : Nat) :
    sqrt (fin false W) = fin false (if W = 0 then 0 else sqrtMag W) := by
  show (if W = 0 then fin false 0 else if false = true then nan else fin false (sqrtMag W)) = _
  by_cases h : W = 0
  · rw [if_pos h, if_pos h]
  · rw [if_neg h, if_neg h, if_neg (by decide)]

end F64

/-- The mean and the standard deviation before rounding of a constant series
of `n ≤ 2^31` copies of a `float64` of magnitude `C` of at least one unit,
with `n × C ≤ 2^40`: the standard deviation is at most `2^-9`, and at most
`2^-17` times the mean. -/
theorem constant_series_spread (s : Bool) (C n : Nat) (hC : 0 < C)
    (hrep : C % 2 ^ F64.dropBits C = 0) (hmag : n * C ≤ 2 ^ 40 * F64.one_u)
    (hn : 1 ≤ n) (hn' : n ≤ 2 ^ 31) :
    ∃ M R, seriesMean (List.replicate n (F64.fin s C)) = F64.fin s M ∧
      F64.sqrt (populationVariance (List.replicate n (F64.fin s C))) = F64.fin false R ∧
      R ≤ 2 ^ 1065 ∧ F64.roundMag (R * F64.one_u) M ≤ 2 ^ 1057 := by
  have hu : F64.one_u = 2 ^ 1074 := rfl
  obtain ⟨a, ha1, ha2, hna, hCa⟩ := length_exponent n C hn hn' hmag
  have hl : F64.ilog2 C < 1116 - a := by
    apply F64.ilog2_lt_of_lt_pow (by omega)
    have : 2 ^ (1115 - a) < 2 ^ (1116 - a) := Nat.pow_lt_pow_right (by decide) (by omega)
    omega
  have hlo : 2 ^ F64.ilog2 C ≤ C := F64.two_pow_ilog2_le hC
  have hhi : C < 2 ^ (F64.ilog2 C + 1) := F64.lt_two_pow_ilog2 (by omega)
  generalize hγ : F64.ilog2 C - (52 - a) = γ
  have hγ1 : γ ≤ 1063 := by omega
  have hC33 : C ≤ 2 ^ (γ + (53 - a)) :=
    Nat.le_of_lt (Nat.lt_of_lt_of_le hhi (Nat.pow_le_pow_right (by decide) (by omega)))
  obtain ⟨M, hM, hMrep, hMlt, b1, b2⟩ :=
    F64.constMean_bracket s C γ n a (53 - a) hC hrep hn hna (by omega) ha1 (by omega) hC33
      (by omega)
  have hD : 2 ^ (γ + 1) ≤ 2 ^ 1064 := Nat.pow_le_pow_right (by decide) (by omega)
  obtain ⟨t, Dv, hd, hDv⟩ := F64.deviation_bound s C M (γ + 1)
    (Nat.lt_of_le_of_lt hD (by decide)) b1 b2
  have hn53 : n < 2 ^ 53 := by
    have : (2 : Nat) ^ 31 < 2 ^ 53 := by decide
    omega
  have hnu : 0 < n * F64.one_u := Nat.mul_pos hn F64.one_u_pos
  have hvar : populationVariance (List.replicate n (F64.fin s C))
      = (List.replicate n (F64.mk false (Dv * Dv) F64.one_u)).foldl (fun a v => a + v) 0
        / F64.fin false (n * F64.one_u) := by
    unfold populationVariance seriesSum
    rw [hM, List.map_replicate, List.length_replicate, F64.ofNat_exact n hn53, hd,
      F64.mul_self_fin]
  by_cases hs : γ ≤ 535
  · -- the squared deviation underflows to zero
    have hsq : Dv * Dv ≤ 2 ^ 1072 := by
      have h1 : 2 ^ (γ + 1) ≤ 2 ^ 536 := Nat.pow_le_pow_right (by decide) (by omega)
      calc Dv * Dv ≤ 2 ^ 536 * 2 ^ 536 := Nat.mul_le_mul (by omega) (by omega)
        _ = 2 ^ 1072 := by decide
    have hq : F64.mk false (Dv * Dv) F64.one_u = F64.fin false 0 := by
      have : F64.roundMag (Dv * Dv) F64.one_u = 0 := by
        apply F64.roundMag_small
        have : 2 * 2 ^ 1072 < F64.one_u := by decide
        omega
      unfold F64.mk
      simp only [this]
      rfl
    have hsum : (List.replicate n (F64.fin false 0)).foldl (fun a v => a + v) 0
        = F64.fin false 0 :=
      seriesSum_zeros _ (fun v hv => ⟨false, List.eq_of_mem_replicate hv⟩)
    have hv0 : populationVariance (List.replicate n (F64.fin s C)) = F64.fin false 0 := by
      rw [hvar, hq, hsum]
      exact F64.zero_div_pos _ hnu
    refine ⟨M, 0, hM, by rw [hv0]; rfl, Nat.zero_le _, ?_⟩
    rw [Nat.zero_mul, F64.roundMag_zero]
    exact Nat.zero_le _
  · -- the squared deviation is at most a power of two
    have hg : 536 ≤ γ := by omega
    have hil : F64.ilog2 C = γ + (52 - a) := by omega
    obtain ⟨e, he⟩ : ∃ e, 2 * γ + 2 = e + 1074 := ⟨2 * γ + 2 - 1074, by omega⟩
    have hQ : 2 ^ e * F64.one_u = 2 ^ (γ + 1) * 2 ^ (γ + 1) := by
      rw [hu, ← pow_add, ← pow_add]
      congr 1
      omega
    have hQrep : (2 ^ e) % 2 ^ F64.dropBits (2 ^ e) = 0 := by
      have := F64.mul_pow_representable 1 e (by decide)
      rwa [Nat.one_mul] at this
    have hQlt : 2 ^ 31 * 2 ^ e < F64.ovf := by
      have h1 : 2 ^ e ≤ 2 ^ 1054 := Nat.pow_le_pow_right (by decide) (by omega)
      have h2 : 2 ^ 31 * 2 ^ 1054 < F64.ovf := by decide
      have h3 : 2 ^ 31 * 2 ^ e ≤ 2 ^ 31 * 2 ^ 1054 := Nat.mul_le_mul_left _ h1
      omega
    have hq : F64.roundMag (Dv * Dv) F64.one_u ≤ 2 ^ e := by
      have h1 : Dv * Dv ≤ 2 ^ e * F64.one_u := by
        rw [hQ]
        exact Nat.mul_le_mul hDv hDv
      have h2 := F64.roundMag_mono F64.one_u F64.one_u_pos h1
      rwa [F64.roundMag_exact _ _ F64.one_u_pos hQrep] at h2
    have hqf : F64.mk false (Dv * Dv) F64.one_u
        = F64.fin false (F64.roundMag (Dv * Dv) F64.one_u) := by
      unfold F64.mk
      exact if_pos (by
        have : 2 ^ e ≤ 2 ^ 31 * 2 ^ e := Nat.le_mul_of_pos_left _ (by decide)
        omega)
    have hnQ : n * 2 ^ e ≤ 2 ^ 31 * 2 ^ e := Nat.mul_le_mul_right _ hn'
    obtain ⟨V, hV, hVle⟩ := F64.constSum_upper _ e hq n 0 0 (by omega)
      (by rw [Nat.zero_add]; omega) (by omega)
    rw [Nat.zero_add] at hVle
    have hW : F64.roundMag (V * F64.one_u) (n * F64.one_u) ≤ 2 ^ e := by
      have h1 : V * F64.one_u ≤ 2 ^ e * (n * F64.one_u) := by
        calc V * F64.one_u ≤ n * 2 ^ e * F64.one_u := Nat.mul_le_mul_right _ hVle
          _ = 2 ^ e * (n * F64.one_u) := by ring
      have h2 := F64.roundMag_mono (n * F64.one_u) hnu h1
      rwa [F64.roundMag_exact _ _ hnu hQrep] at h2
    have hv : populationVariance (List.replicate n (F64.fin s C))
        = F64.fin false (F64.roundMag (V * F64.one_u) (n * F64.one_u)) := by
      rw [hvar, hqf, F64.zero_eq, hV, F64.fin_div_pos false V _ hnu]
      unfold F64.mk
      exact if_pos (by
        have : 2 ^ e ≤ 2 ^ 31 * 2 ^ e := Nat.le_mul_of_pos_left _ (by decide)
        omega)
    generalize F64.roundMag (V * F64.one_u) (n * F64.one_u) = W at hW hv
    have hR : (if W = 0 then 0 else F64.sqrtMag W) ≤ 2 * 2 ^ (γ + 1) := by
      split_ifs
      · exact Nat.zero_le _
      · apply F64.sqrtMag_le W _ (Nat.one_le_two_pow)
        rw [← hQ]
        exact Nat.mul_le_mul_right _ hW
    have hsq : F64.sqrt (populationVariance (List.replicate n (F64.fin s C)))
        = F64.fin false (if W = 0 then 0 else F64.sqrtMag W) := by
      rw [hv, F64.sqrt_fin_pos]
    generalize (if W = 0 then 0 else F64.sqrtMag W) = R at hR hsq
    have h2D : 2 * 2 ^ (γ + 1) = 2 ^ (γ + 2) := by rw [pow_succ 2 (γ + 1)]; ring
    rw [h2D] at hR
    refine ⟨M, R, hM, hsq, Nat.le_trans hR (Nat.pow_le_pow_right (by decide) (by omega)), ?_⟩
    -- the mean is at least half the value
    have hMlo : 2 ^ (γ + (51 - a)) ≤ M := by
      have h1 : 2 ^ (γ + (52 - a)) ≤ C := by rw [← hil]; exact hlo
      have h2 : 2 ^ (γ + (52 - a)) = 2 ^ (γ + (51 - a)) + 2 ^ (γ + (51 - a)) := by
        rw [show γ + (52 - a) = (γ + (51 - a)) + 1 by omega, pow_succ]; ring
      have h3 : 2 ^ (γ + 1) ≤ 2 ^ (γ + (51 - a)) :=
        Nat.pow_le_pow_right (by decide) (by omega)
      omega
    have hpos : 0 < 2 ^ (γ + (51 - a)) := Nat.two_pow_pos _
    have e1 : 2 ^ (γ + 2) * F64.one_u = 2 ^ (1025 + a) * 2 ^ (γ + (51 - a)) := by
      rw [hu, ← pow_add, ← pow_add]
      congr 1
      omega
    have hPrep : (2 ^ (1025 + a)) % 2 ^ F64.dropBits (2 ^ (1025 + a)) = 0 := by
      have := F64.mul_pow_representable 1 (1025 + a) (by decide)
      rwa [Nat.one_mul] at this
    calc F64.roundMag (R * F64.one_u) M
        ≤ F64.roundMag (R * F64.one_u) (2 ^ (γ + (51 - a))) := F64.roundMag_anti _ hpos hMlo
      _ ≤ F64.roundMag (2 ^ (γ + 2) * F64.one_u) (2 ^ (γ + (51 - a))) :=
          F64.roundMag_mono _ hpos (Nat.mul_le_mul_right _ hR)
      _ = 2 ^ (1025 + a) := by
          rw [e1]
          exact F64.roundMag_exact _ _ hpos hPrep
      _ ≤ 2 ^ 1057 := Nat.pow_le_pow_right (by decide) (by omega)

/-- A list whose elements all equal one value is as many copies of it. -/
theorem eq_replicate_of_all {α : Type} (l : List α) (c : α) (h : ∀ v ∈ l, v = c) :
    l = List.replicate l.length c := by
  induction l with
  | nil => rfl
  | cons v rest ih =>
    rw [List.length_cons, List.replicate_succ, h v (List.mem_cons_self _ _),
      ← ih (fun w hw => h w (List.mem_cons_of_mem _ hw))]

/-- A constant series whose mean comes out as the value: every deviation is
zero, and so are `std` and `cv`. -/
theorem constant_series_exact (values : List F64) (s : Bool) (m : Nat)
    (hne : values ≠ []) (hall : ∀ v ∈ values, v = F64.fin s m)
    (hexact : m = 0 ∨ F64.eq (seriesMean values) (F64.fin s m) = true) :
    ∃ st, calculateStatistics values = some st ∧
      F64.eq st.std 0 = true ∧ F64.eq st.cv 0 = true := by
  have hmean : F64.eq (seriesMean values) (F64.fin s m) = true := by
    rcases hexact with h0 | h
    · subst h0
      rw [seriesMean_zeros values hne (fun v hv => ⟨s, hall v hv⟩)]
      cases s <;> decide
    · exact h
  refine ⟨_, calculateStatistics_some values hne, ?_, ?_⟩ <;> simp only
  all_goals
    have hvar : populationVariance values = F64.fin false 0 := by
      unfold populationVariance
      cases hm : seriesMean values with
      | nan => rw [hm] at hmean; simp [F64.eq] at hmean
      | inf a => rw [hm] at hmean; simp [F64.eq] at hmean
      | fin s' m' =>
        rw [hm] at hmean
        have hs : F64.sval s' m' = F64.sval s m := by simpa [F64.eq] using hmean
        rw [seriesSum_zeros]
        · rcases F64.ofNat_pos values.length (List.length_pos.mpr hne) with ⟨k, hk, e⟩ | e
          · rw [e]; exact F64.zero_div_pos k hk
          · rw [e]; rfl
        · intro w hw
          obtain ⟨v, hv, rfl⟩ := List.mem_map.mp hw
          rw [hall v hv]
          exact ⟨false, squared_deviation_zero s s' m m' hs⟩
    have hstd : F64.sqrt (populationVariance values) = F64.fin false 0 := by
      rw [hvar]; rfl
  · rw [hstd, round2_signed_zero]
    rfl
  · rw [hstd]
    cases hm : seriesMean values with
    | nan => rw [hm] at hmean; simp [F64.eq] at hmean
    | inf a => rw [hm] at hmean; simp [F64.eq] at hmean
    | fin s' m' =>
      by_cases h0 : F64.ne (F64.fin s' m') 0 = true
      · have hm' : m' ≠ 0 := by
          intro hz
          subst hz
          rw [F64.ne, F64.eq_zero_of_mag_zero] at h0
          exact Bool.noConfusion h0
        simp only [h0, if_true]
        rw [F64.zero_div_fin false s' m' hm', F64.hundred_eq, F64.zero_mul_fin,
          round2_signed_zero]
        exact F64.eq_zero_of_mag_zero _
      · simp only [h0, Bool.false_eq_true, if_false]
        decide

/-- A constant series of `N ≤ 2^31` copies of a `float64` `c` with
`N × |c| ≤ 2^40`: the deviations from the rounded mean are so small that `std`
and `cv` round to zero. -/
theorem constant_series_bounded (values : List F64) (s : Bool) (C : Nat)
    (hne : values ≠ []) (hall : ∀ v ∈ values, v = F64.fin s C)
    (hlen : values.length ≤ 2 ^ 31) (hb : F64.isBinary64 (F64.fin s C) = true)
    (hmag : values.length * C ≤ 2 ^ 40 * F64.one_u) :
    ∃ st, calculateStatistics values = some st ∧
      F64.eq st.std 0 = true ∧ F64.eq st.cv 0 = true := by
  rcases Nat.eq_zero_or_pos C with rfl | hC
  · exact constant_series_exact values s 0 hne hall (Or.inl rfl)
  have hrep : C % 2 ^ F64.dropBits C = 0 ∧ C < F64.ovf := by
    simpa [F64.isBinary64] using hb
  have hn : 1 ≤ values.length := List.length_pos.mpr hne
  obtain ⟨M, R, hM, hR, hR1, hR2⟩ :=
    constant_series_spread s C values.length hC hrep.1 hmag hn hlen
  rw [← eq_replicate_of_all values _ hall] at hM hR
  refine ⟨_, calculateStatistics_some values hne, ?_, ?_⟩ <;> simp only
  · rw [hR]
    unfold round2
    rw [F64.round2_small false R (Nat.le_trans hR1 (by decide))]
    rfl
  · rw [hR, hM]
    by_cases h0 : F64.ne (F64.fin s M) 0 = true
    · have hM0 : 0 < M := by
        rcases Nat.eq_zero_or_pos M with rfl | h
        · rw [F64.ne, F64.eq_zero_of_mag_zero] at h0
          exact Bool.noConfusion h0
        · exact h
      simp only [h0, if_true]
      have hdiv : F64.fin false R / F64.fin s M
          = F64.fin (false != s) (F64.roundMag (R * F64.one_u) M) := by
        rw [F64.div_def]
        show (if M = 0 then _ else F64.mk (false != s) (R * F64.one_u) M) = _
        rw [if_neg (by omega)]
        unfold F64.mk
        exact if_pos (Nat.lt_of_le_of_lt hR2 (by decide))
      generalize F64.roundMag (R * F64.one_u) M = X at hR2 hdiv
      have hX2 : F64.roundMag (X * (100 * F64.one_u)) F64.one_u ≤ 100 * 2 ^ 1057 := by
        have h1 : X * (100 * F64.one_u) ≤ 100 * 2 ^ 1057 * F64.one_u := by
          calc X * (100 * F64.one_u) = 100 * X * F64.one_u := by ring
            _ ≤ 100 * 2 ^ 1057 * F64.one_u :=
              Nat.mul_le_mul_right _ (Nat.mul_le_mul_left _ hR2)
        have h2 := F64.roundMag_mono F64.one_u F64.one_u_pos h1
        rwa [F64.roundMag_exact (100 * 2 ^ 1057) F64.one_u F64.one_u_pos (by decide)] at h2
      have hmul : F64.fin (false != s) X * 100
          = F64.fin ((false != s) != false)
            (F64.roundMag (X * (100 * F64.one_u)) F64.one_u) := by
        rw [F64.hundred_eq, F64.mul_def]
        show F64.mk ((false != s) != false) (X * (100 * F64.one_u)) F64.one_u = _
        unfold F64.mk
        exact if_pos (Nat.lt_of_le_of_lt hX2 (by decide))
      rw [hdiv, hmul]
      unfold round2
      rw [F64.round2_small _ _ (Nat.le_trans hX2 (by decide))]
      exact F64.eq_zero_of_mag_zero _
    · simp only [h0, Bool.false_eq_true, if_false]
      decide

/-! ## The mean of a series whose sum is exact -/

/-- The real sum of finite values is at least as many times a lower bound of
them, and at most as many times an upper bound. -/
theorem units_sum_bounds (lo hi : F64) (values : List F64)
    (hlo : ∃ s m, lo = F64.fin s m) (hhi : ∃ s m, hi = F64.fin s m)
    (hfin : ∀ v ∈ values, ∃ s m, v = F64.fin s m)
    (h : ∀ v ∈ values, F64.le lo v = true ∧ F64.le v hi = true) :
    (values.length : Int) * lo.units ≤ (values.map F64.units).sum ∧
    (values.map F64.units).sum ≤ (values.length : Int) * hi.units := by
  induction values with
  | nil => simp
  | cons v rest ih =>
    obtain ⟨i1, i2⟩ := ih (fun w hw => hfin w (List.mem_cons_of_mem _ hw))
      (fun w hw => h w (List.mem_cons_of_mem _ hw))
    obtain ⟨s, m, rfl⟩ := hlo
    obtain ⟨t, k, rfl⟩ := hhi
    obtain ⟨a, j, rfl⟩ := hfin v (List.mem_cons_self _ _)
    obtain ⟨h1, h2⟩ := h _ (List.mem_cons_self _ _)
    rw [F64.le_fin] at h1 h2
    simp only [List.length_cons, List.map_cons, List.sum_cons, F64.units] at i1 i2 ⊢
    push_cast
    constructor <;> nlinarith

/-- A finite value as the rounding of itself times a positive denominator. -/
theorem F64.sval_scale (a : Bool) (L n : Nat) : F64.sval a (L * n) = F64.sval a L * (n : Int) := by
  cases a <;> simp [F64.sval]

/-- The mean of a series whose float sum is the real sum lies between a
lower and an upper bound of the values. -/
theorem seriesMean_exact_between (lo hi : F64) (values : List F64) (hne : values ≠ [])
    (hlen : values.length < 2 ^ 53)
    (hlo : lo.isBinary64 = true) (hhi : hi.isBinary64 = true)
    (hfin : ∀ v ∈ values, ∃ s m, v = F64.fin s m)
    (hflo : ∃ s m, lo = F64.fin s m) (hfhi : ∃ s m, hi = F64.fin s m)
    (h : ∀ v ∈ values, F64.le lo v = true ∧ F64.le v hi = true)
    (hex : ∃ t M, seriesSum values = F64.fin t M ∧
      F64.sval t M = (values.map F64.units).sum) :
    F64.le lo (seriesMean values) = true ∧ F64.le (seriesMean values) hi = true := by
  obtain ⟨i1, i2⟩ := units_sum_bounds lo hi values hflo hfhi hfin h
  obtain ⟨t, M, hS, hM⟩ := hex
  obtain ⟨a, L, rfl⟩ := hflo
  obtain ⟨b, U, rfl⟩ := hfhi
  have hL : L % 2 ^ F64.dropBits L = 0 ∧ L < F64.ovf := by simpa [F64.isBinary64] using hlo
  have hU : U % 2 ^ F64.dropBits U = 0 ∧ U < F64.ovf := by simpa [F64.isBinary64] using hhi
  have hn : 0 < values.length := List.length_pos.mpr hne
  have hnu : 0 < values.length * F64.one_u := Nat.mul_pos hn F64.one_u_pos
  have hmean : seriesMean values = F64.mk t (M * F64.one_u) (values.length * F64.one_u) := by
    unfold seriesMean
    rw [hS, F64.ofNat_exact _ hlen, F64.fin_div_pos t M _ hnu]
  rw [hmean, ← hM] at *
  simp only [F64.units] at i1 i2
  constructor
  · rw [← F64.mk_exact a L _ hnu hL.1 hL.2]
    apply F64.mk_le_mk _ _ _ _ _ hnu
    have e : L * (values.length * F64.one_u) = L * values.length * F64.one_u := by ring
    rw [e]
    apply F64.sval_mul_le
    rw [F64.sval_scale]
    linarith
  · rw [← F64.mk_exact b U _ hnu hU.1 hU.2]
    apply F64.mk_le_mk _ _ _ _ _ hnu
    have e : U * (values.length * F64.one_u) = U * values.length * F64.one_u := by ring
    rw [e]
    apply F64.sval_mul_le
    rw [F64.sval_scale]
    linarith

/-- The reading of a calculator reached from `NewFPSCalculator` by `AddFrame`,
`GetFPS` and `Reset` calls is a number above zero. -/
theorem reading_of_calls (n : Nat) (t₀ : Int) (cs : List FPSCall) (c : GetFPSClock) :
    F64.isNaN (((NewFPSCalculator n t₀).calls cs).GetFPS c.sinceNow c.calcNow c.updateNow).1
      = false ∧
    F64.le (((NewFPSCalculator n t₀).calls cs).GetFPS c.sinceNow c.calcNow c.updateNow).1 0
      = false := by
  obtain ⟨hm, hl, hv⟩ := calls_held n cs (NewFPSCalculator n t₀) rfl (Nat.zero_le _)
    (Or.inl sixty_lit_eq)
  obtain ⟨-, -, hg, he⟩ := GetFPS_held n _ c hm hl hv
  rw [← he] at hg
  rcases hg with h | ⟨k, h₁, -, h⟩
  · rw [h]
    exact ⟨by decide, by decide⟩
  · rw [h]
    exact ⟨F64.isNaN_ofNat k, (ofNat_count_bounds k k h₁ (Nat.le_refl k)).1⟩

/-- The float sum of a series of magnitudes at most `Cm`, when every rounding
moves a sum below `B` by at most `P`: after `j` values in all the sum is
within `j × P` of the real sum. -/
theorem F64.seriesSum_error (P B Cm : Nat) (hovf : B ≤ F64.ovf)
    (herr : ∀ N, N < B → F64.roundMag N 1 ≤ N + P ∧ N ≤ F64.roundMag N 1 + P) :
    ∀ (values : List F64) (j : Nat) (t : Bool) (A : Nat) (S : Int),
      (∀ v ∈ values, ∃ a m, v = F64.fin a m ∧ m ≤ Cm) →
      (j + values.length) * (Cm + P) < B →
      F64.sval t A ≤ S + (j : Int) * P → S ≤ F64.sval t A + (j : Int) * P →
      S ≤ (j : Int) * Cm → -((j : Int) * Cm) ≤ S →
      ∃ t' A', values.foldl (fun a v => a + v) (F64.fin t A) = F64.fin t' A' ∧
        F64.sval t' A' ≤ S + (values.map F64.units).sum + ((j + values.length : Nat) : Int) * P ∧
        S + (values.map F64.units).sum ≤ F64.sval t' A' + ((j + values.length : Nat) : Int) * P := by
  intro values
  induction values with
  | nil =>
    intro j t A S _ _ h1 h2 _ _
    refine ⟨t, A, rfl, ?_, ?_⟩ <;> simpa using ‹_›
  | cons v rest ih =>
    intro j t A S hv hB h1 h2 h3 h4
    obtain ⟨a, m, rfl, hm⟩ := hv _ (List.mem_cons_self _ _)
    obtain ⟨s', N, hadd, hsv⟩ := F64.add_fin_fin t a A m
    have hlen : (j + (List.length (F64.fin a m :: rest))) = j + 1 + rest.length := by
      simp only [List.length_cons]; omega
    rw [hlen] at hB ⊢
    have hle : (j + 1) * (Cm + P) ≤ (j + 1 + rest.length) * (Cm + P) :=
      Nat.mul_le_mul_right _ (by omega)
    have hBi : (((j + 1) * (Cm + P) : Nat) : Int) < (B : Int) := by
      exact_mod_cast Nat.lt_of_le_of_lt hle hB
    push_cast at hBi
    have hmi : (m : Int) ≤ Cm := by exact_mod_cast hm
    have hsa : -(m : Int) ≤ F64.sval a m ∧ F64.sval a m ≤ m := by
      cases a <;> simp only [F64.sval_nonneg, F64.sval_nonpos] <;> omega
    have hNabs : (N : Int) ≤ F64.sval s' N ∨ (N : Int) ≤ -F64.sval s' N := by
      cases s' <;> simp [F64.sval]
    have hNP : N + P < B := by
      have : (N : Int) + P < B := by
        rcases hNabs with h | h <;> nlinarith
      exact_mod_cast this
    have hNB : N < B := by omega
    obtain ⟨r1, r2⟩ := herr N hNB
    have hfin : F64.fin t A + F64.fin a m = F64.fin s' (F64.roundMag N 1) := by
      show F64.add _ _ = _
      rw [hadd]
      unfold F64.mk
      exact if_pos (by omega)
    have hR : F64.sval s' (F64.roundMag N 1) ≤ F64.sval s' N + P ∧
        F64.sval s' N ≤ F64.sval s' (F64.roundMag N 1) + P := by
      cases s' <;> simp only [F64.sval_nonneg, F64.sval_nonpos] <;> omega
    rw [List.foldl_cons, hfin]
    obtain ⟨t', A', hf, g1, g2⟩ := ih (j + 1) s' (F64.roundMag N 1) (S + F64.sval a m)
      (fun v hv' => hv v (List.mem_cons_of_mem _ hv')) hB
      (by push_cast; linarith) (by push_cast; linarith)
      (by push_cast; linarith) (by push_cast; linarith)
    refine ⟨t', A', hf, ?_, ?_⟩
    · simp only [List.map_cons, List.sum_cons, F64.units]
      linarith
    · simp only [List.map_cons, List.sum_cons, F64.units]
      linarith

/-- The float sum of `N ≤ 2^31` finite values of magnitude at most `Cm`, with
`N × Cm ≤ 2^40`, is within `N × 2^-12` of their real sum. -/
theorem seriesSum_near (values : List F64) (Cm : Nat) (hl : values.length ≤ 2 ^ 31)
    (hprod : values.length * Cm ≤ 2 ^ 40 * F64.one_u)
    (hmag : ∀ v ∈ values, ∃ a m, v = F64.fin a m ∧ m ≤ Cm) :
    ∃ t A, seriesSum values = F64.fin t A ∧
      F64.sval t A
        ≤ (values.map F64.units).sum + (values.length : Int) * ((2 ^ 1062 : Nat) : Int) ∧
      (values.map F64.units).sum
        ≤ F64.sval t A + (values.length : Int) * ((2 ^ 1062 : Nat) : Int) := by
  have hB : (0 + values.length) * (Cm + 2 ^ 1062) < 2 ^ (1062 + 54) := by
    rw [Nat.zero_add, Nat.mul_add]
    have h1 : values.length * 2 ^ 1062 ≤ 2 ^ 31 * 2 ^ 1062 := Nat.mul_le_mul_right _ hl
    have h2 : 2 ^ 40 * F64.one_u + 2 ^ 31 * 2 ^ 1062 < 2 ^ (1062 + 54) := by decide
    omega
  obtain ⟨t, A, hf, g1, g2⟩ := F64.seriesSum_error (2 ^ 1062) (2 ^ (1062 + 54))
    Cm (by decide) (fun N hN => F64.roundMag_one_error N 1062 hN)
    values 0 false 0 0 hmag hB (by simp [F64.sval]) (by simp [F64.sval]) (by simp) (by simp)
  refine ⟨t, A, ?_, ?_, ?_⟩
  · unfold seriesSum
    rw [F64.zero_eq]
    exact hf
  · have := g1
    simp only [Nat.zero_add, Int.zero_add] at this
    exact_mod_cast this
  · have := g2
    simp only [Nat.zero_add, Int.zero_add] at this
    exact_mod_cast this

/-- The mean of `N ≤ 2^31` values between `lo` and `hi`, with `N × |lo|` and
`N × |hi|` at most `2^40`, is at least `lo` when their real mean is at least
`lo + 2^-12`, and at most `hi` when their real mean is at most `hi − 2^-12`. -/
theorem seriesMean_spread (lo hi : F64) (values : List F64) (hne : values ≠ [])
    (hl : values.length ≤ 2 ^ 31)
    (hlo : lo.isBinary64 = true) (hhi : hi.isBinary64 = true)
    (hfin : ∀ v ∈ values, ∃ s m, v = F64.fin s m)
    (hflo : ∃ s m, lo = F64.fin s m) (hfhi : ∃ s m, hi = F64.fin s m)
    (hmlo : values.length * lo.units.natAbs ≤ 2 ^ 40 * F64.one_u)
    (hmhi : values.length * hi.units.natAbs ≤ 2 ^ 40 * F64.one_u)
    (h : ∀ v ∈ values, F64.le lo v = true ∧ F64.le v hi = true) :
    ((values.length : Int) * (lo.units + ((2 ^ 1062 : Nat) : Int))
        ≤ (values.map F64.units).sum →
      F64.le lo (seriesMean values) = true) ∧
    ((values.map F64.units).sum
        ≤ (values.length : Int) * (hi.units - ((2 ^ 1062 : Nat) : Int)) →
      F64.le (seriesMean values) hi = true) := by
  obtain ⟨a, L, rfl⟩ := hflo
  obtain ⟨b, U, rfl⟩ := hfhi
  rw [units_natAbs] at hmlo hmhi
  have hL : L % 2 ^ F64.dropBits L = 0 ∧ L < F64.ovf := by simpa [F64.isBinary64] using hlo
  have hU : U % 2 ^ F64.dropBits U = 0 ∧ U < F64.ovf := by simpa [F64.isBinary64] using hhi
  have hprod : values.length * max L U ≤ 2 ^ 40 * F64.one_u := by
    rcases Nat.le_total L U with hLU | hLU
    · rw [Nat.max_eq_right hLU]; exact hmhi
    · rw [Nat.max_eq_left hLU]; exact hmlo
  have hmag : ∀ v ∈ values, ∃ s m, v = F64.fin s m ∧ m ≤ max L U := by
    intro v hv
    obtain ⟨s, m, rfl⟩ := hfin v hv
    obtain ⟨h1, h2⟩ := h _ hv
    rw [F64.le_fin] at h1 h2
    refine ⟨s, m, rfl, ?_⟩
    cases a <;> cases b <;> cases s <;> simp only [F64.sval_nonneg, F64.sval_nonpos] at h1 h2 <;>
      omega
  obtain ⟨t, A, hS, g1, g2⟩ := seriesSum_near values (max L U) hl hprod hmag
  have hn : 0 < values.length := List.length_pos.mpr hne
  have hnu : 0 < values.length * F64.one_u := Nat.mul_pos hn F64.one_u_pos
  have hlen : values.length < 2 ^ 53 := Nat.lt_of_le_of_lt hl (by decide)
  have hmean : seriesMean values = F64.mk t (A * F64.one_u) (values.length * F64.one_u) := by
    unfold seriesMean
    rw [hS, F64.ofNat_exact _ hlen, F64.fin_div_pos t A _ hnu]
  rw [hmean]
  simp only [F64.units]
  constructor
  · intro hs
    rw [← F64.mk_exact a L _ hnu hL.1 hL.2]
    apply F64.mk_le_mk _ _ _ _ _ hnu
    have e : L * (values.length * F64.one_u) = L * values.length * F64.one_u := by ring
    rw [e]
    apply F64.sval_mul_le
    rw [F64.sval_scale]
    linarith
  · intro hs
    rw [← F64.mk_exact b U _ hnu hU.1 hU.2]
    apply F64.mk_le_mk _ _ _ _ _ hnu
    have e : U * (values.length * F64.one_u) = U * values.length * F64.one_u := by ring
    rw [e]
    apply F64.sval_mul_le
    rw [F64.sval_scale]
    linarith
/-! ## Claims -/

/-- C1. For every non-empty series, `calculateStatistics` returns a map whose
`avg` is the mean `sum / N` rounded to 2 decimals and whose `std` is the square
root of the population variance (the squared deviations summed and divided by
`N`, not `N - 1`) rounded to 2 decimals, all in binary64 arithmetic; on
`[10, 20, 30]` it returns `avg = 20` and `std = 8.16`. -/
theorem calculateStatistics_avg_std (values : List F64) (h : values ≠ []) :
    (∃ s, calculateStatistics values = some s ∧
      s.avg = round2 (seriesMean values) ∧
      s.std = round2 (F64.sqrt (populationVariance values))) ∧
    (∃ s, calculateStatistics [10, 20, 30] = some s ∧ s.avg = 20 ∧ s.std = 8.16) := by
  refine ⟨?_, ⟨_, rfl, by decide, by decide⟩⟩
  have hl := length_eq_zero_of_ne_nil h
  refine ⟨_, by simp only [calculateStatistics, if_neg hl]; rfl, ?_, ?_⟩
  · simp only [round2, seriesMean, seriesSum, foldl_statsStep_sum]
  · simp only [round2, populationVariance, seriesMean, seriesSum, foldl_statsStep_sum,
      foldl_varianceStep]

theorem calculateStatistics_avg_std_witness :
    ([5, 5, 5] : List F64) ≠ [] ∧
    ((∃ s, calculateStatistics [5, 5, 5] = some s ∧
      s.avg = round2 (seriesMean [5, 5, 5]) ∧
      s.std = round2 (F64.sqrt (populationVariance [5, 5, 5]))) ∧
    (∃ s, calculateStatistics [10, 20, 30] = some s ∧ s.avg = 20 ∧ s.std = 8.16)) :=
  ⟨by simp, calculateStatistics_avg_std [5, 5, 5] (by simp)⟩

/-- C2 (the code departs from it). On the series `[-3, -1]` the code reports
`max = 0`, which is no element of the series (the largest is `-1`), while
`min = -3` is the smallest: `max` starts from zero where `min` starts from
`math.MaxFloat64`.  On `[10, 20, 30]` it reports `min = 10` and `max = 30`. -/
theorem calculateStatistics_max_of_negative_series :
    (calculateStatistics [-3, -1]).map Stats.max = some 0 ∧
    (calculateStatistics [-3, -1]).map Stats.min = some (-3) ∧
    F64.lt (-3) (-1) = true ∧ F64.lt (-1) 0 = true ∧
    (calculateStatistics [10, 20, 30]).map Stats.min = some 10 ∧
    (calculateStatistics [10, 20, 30]).map Stats.max = some 30 := by
  decide

/-- C3. For every non-empty series, `calculateStatistics` returns `cv = 0` when
the mean `sum / N` equals zero, and otherwise `cv = std / mean × 100` taken from
the unrounded standard deviation and mean, rounded to 2 decimals; the divisor
`N` is not zero either, so no division by zero occurs; on `[10, 20, 30]` it
returns `cv = 40.82`. -/
theorem calculateStatistics_cv (values : List F64) (h : values ≠ []) :
    (∃ s, calculateStatistics values = some s ∧
      (F64.eq (seriesMean values) 0 = true → s.cv = 0) ∧
      (F64.eq (seriesMean values) 0 = false →
        s.cv = round2 (F64.sqrt (populationVariance values) / seriesMean values * 100))) ∧
    F64.eq (F64.ofNat values.length) 0 = false ∧
    (∃ s, calculateStatistics [10, 20, 30] = some s ∧ s.cv = 40.82) := by
  refine ⟨?_, ?_, ⟨_, rfl, by decide⟩⟩
  · have hl := length_eq_zero_of_ne_nil h
    refine ⟨_, by simp only [calculateStatistics, if_neg hl]; rfl, ?_, ?_⟩
    · intro h0
      have h0' : F64.eq ((values.foldl statsStep
          { sum := 0, min := F64.maxFloat64, max := 0 }).sum / F64.ofNat values.length) 0
          = true := by
        simpa only [seriesMean, seriesSum, foldl_statsStep_sum] using h0
      simp only [F64.ne, h0', Bool.not_true, Bool.false_eq_true, if_false]
      decide
    · intro h0
      have h0' : F64.eq ((values.foldl statsStep
          { sum := 0, min := F64.maxFloat64, max := 0 }).sum / F64.ofNat values.length) 0
          = false := by
        simpa only [seriesMean, seriesSum, foldl_statsStep_sum] using h0
      simp only [F64.ne, h0', Bool.not_false, if_true]
      simp only [round2, populationVariance, seriesMean, seriesSum, foldl_statsStep_sum,
        foldl_varianceStep]
  · exact F64.ofNat_ne_zero _ (List.length_pos.mpr h)

theorem calculateStatistics_cv_witness :
    ([0, 0] : List F64) ≠ [] ∧
    ((∃ s, calculateStatistics [0, 0] = some s ∧
      (F64.eq (seriesMean [0, 0]) 0 = true → s.cv = 0) ∧
      (F64.eq (seriesMean [0, 0]) 0 = false →
        s.cv = round2 (F64.sqrt (populationVariance [0, 0]) / seriesMean [0, 0] * 100))) ∧
    F64.eq (F64.ofNat ([0, 0] : List F64).length) 0 = false ∧
    (∃ s, calculateStatistics [10, 20, 30] = some s ∧ s.cv = 40.82)) :=
  ⟨by simp, calculateStatistics_cv [0, 0] (by simp)⟩

/-- C4 (amended). For every non-empty series whose elements all equal one finite
value `c`, `calculateStatistics` returns `std = 0` and `cv = 0`, numbers and
not NaN, when `c` is zero, or the computed mean `sum / N` equals `c` (as for
`[5, 5, 5]`), or the series has `N ≤ 2^31` elements and `c` is a `float64`
with `N × |c| ≤ 2^40` (as for `[0.1, 0.1, 0.1]` and for three copies of
`250000000.7`, whose means are not the value: the deviations are then so
small that `std` and `cv` round to zero).  The magnitude `m` of `c` is in
units of `2^-1074`, in which 1 is `one_u`. -/
theorem calculateStatistics_constant_series (values : List F64) (s : Bool) (m : Nat)
    (hne : values ≠ []) (hall : ∀ v ∈ values, v = F64.fin s m)
    (h : m = 0 ∨ F64.eq (seriesMean values) (F64.fin s m) = true ∨
      (values.length ≤ 2 ^ 31 ∧ F64.isBinary64 (F64.fin s m) = true ∧
        values.length * m ≤ 2 ^ 40 * F64.one_u)) :
    ∃ st, calculateStatistics values = some st ∧
      F64.eq st.std 0 = true ∧ F64.eq st.cv 0 = true := by
  rcases h with h | h | ⟨h₁, h₂, h₃⟩
  · exact constant_series_exact values s m hne hall (Or.inl h)
  · exact constant_series_exact values s m hne hall (Or.inr h)
  · exact constant_series_bounded values s m hne hall h₁ h₂ h₃

/-- Witness of C4 on `[0.1, 0.1, 0.1]` and on three copies of `250000000.7`,
whose computed means are not the value, and on `[5, 5, 5]`, whose computed
mean is `5`. -/
theorem calculateStatistics_constant_series_witness :
    (([0.1, 0.1, 0.1] : List F64) ≠ [] ∧
      (∀ v ∈ ([0.1, 0.1, 0.1] : List F64), v = F64.fin false (0x1999999999999a * 2 ^ 1018)) ∧
      F64.eq (seriesMean [0.1, 0.1, 0.1]) 0.1 = false ∧
      ([0.1, 0.1, 0.1] : List F64).length ≤ 2 ^ 31 ∧
      F64.isBinary64 (F64.fin false (0x1999999999999a * 2 ^ 1018)) = true ∧
      ([0.1, 0.1, 0.1] : List F64).length * (0x1999999999999a * 2 ^ 1018)
        ≤ 2 ^ 40 * F64.one_u ∧
      ∃ st, calculateStatistics [0.1, 0.1, 0.1] = some st ∧
        F64.eq st.std 0 = true ∧ F64.eq st.cv 0 = true) ∧
    ((∀ v ∈ ([250000000.7, 250000000.7, 250000000.7] : List F64),
        v = F64.fin false (0xee6b280b33333 * 2 ^ 1050)) ∧
      F64.eq (seriesMean [250000000.7, 250000000.7, 250000000.7]) 250000000.7 = false ∧
      ∃ st, calculateStatistics [250000000.7, 250000000.7, 250000000.7] = some st ∧
        F64.eq st.std 0 = true ∧ F64.eq st.cv 0 = true) ∧
    (([5, 5, 5] : List F64) ≠ [] ∧
      (∀ v ∈ ([5, 5, 5] : List F64), v = F64.fin false (5 * F64.one_u)) ∧
      F64.eq (seriesMean [5, 5, 5]) (F64.fin false (5 * F64.one_u)) = true ∧
      ∃ st, calculateStatistics [5, 5, 5] = some st ∧
        F64.eq st.std 0 = true ∧ F64.eq st.cv 0 = true) :=
  ⟨⟨by simp, by decide, by decide, by decide, by decide, by decide,
      calculateStatistics_constant_series [0.1, 0.1, 0.1] false (0x1999999999999a * 2 ^ 1018)
        (by simp) (by decide) (Or.inr (Or.inr ⟨by decide, by decide, by decide⟩))⟩,
    ⟨by decide, by decide,
      calculateStatistics_constant_series [250000000.7, 250000000.7, 250000000.7] false
        (0xee6b280b33333 * 2 ^ 1050) (by simp) (by decide)
        (Or.inr (Or.inr ⟨by decide, by decide, by decide⟩))⟩,
    ⟨by simp, by decide, by decide,
      calculateStatistics_constant_series [5, 5, 5] false (5 * F64.one_u) (by simp) (by decide)
        (Or.inr (Or.inl (by decide)))⟩⟩

/-- C4 as stated fails on `[1e308, 1e308]`: the sum overflows to `+Inf`, and the
code returns `std = +Inf` and `cv = NaN`.  It fails without overflow on ten
copies of `8966079744306057` (below `2^53`): the sum rounds, the mean comes
out one above the value, and the code returns `std = 1`. -/
theorem calculateStatistics_constant_series_overflow :
    (calculateStatistics [1e308, 1e308]).map Stats.std = some (F64.inf false) ∧
    (calculateStatistics [1e308, 1e308]).map Stats.cv = some F64.nan ∧
    F64.isFiniteNonzero 1e308 = true ∧
    (calculateStatistics (List.replicate 10 8966079744306057)).map Stats.std = some 1 := by
  decide

/-- C5. `CompareComponents` returns nil exactly when the custom or the native
metric list is empty, `calculateComponentSummary` returns nil exactly when its
metric list is empty, and `calculateStatistics` returns nil exactly when its
series is empty. -/
theorem nil_iff_empty_input (customMetrics nativeMetrics metrics : List PerformanceMetric)
    (componentType : String) (values : List F64) :
    (CompareComponents customMetrics nativeMetrics = none ↔
      customMetrics = [] ∨ nativeMetrics = []) ∧
    (calculateComponentSummary metrics componentType = none ↔ metrics = []) ∧
    (calculateStatistics values = none ↔ values = []) := by
  refine ⟨?_, ?_, ?_⟩
  · unfold CompareComponents
    split <;> simp_all [List.length_eq_zero]
  · unfold calculateComponentSummary
    split <;> simp_all [List.length_eq_zero]
  · unfold calculateStatistics
    split <;> simp_all [List.length_eq_zero]

/-- C6 (amended). For every metric list `X` whose summary holds finite, non-zero
FPS, memory and CPU averages, `CompareComponents X X` reports the ratios
`fps_ratio = memory_ratio = cpu_ratio = 1`, FPS, memory and CPU percent deltas
equal to zero, and a performance score equal to 100 minus the stability penalty
`0.5 × fpsCV + 0.3 × memoryCV + 0.2 × cpuCV` of `X`, clamped to `[0, 100]` and
rounded to 1 decimal. -/
theorem CompareComponents_self (X : List PerformanceMetric) (S : Summary)
    (hS : calculateComponentSummary X "custom" = some S)
    (hfps : S.fps_avg.isFiniteNonzero = true)
    (hmem : S.memory_avg.isFiniteNonzero = true)
    (hcpu : S.cpu_avg.isFiniteNonzero = true) :
    ∃ r cmp, CompareComponents X X = some r ∧ r.Comparison = some cmp ∧
      cmp.fps_ratio = 1 ∧ cmp.memory_ratio = 1 ∧ cmp.cpu_ratio = 1 ∧
      F64.eq cmp.fps_diff_percent 0 = true ∧
      F64.eq cmp.memory_diff_percent 0 = true ∧
      F64.eq cmp.cpu_diff_percent 0 = true ∧
      cmp.performance_score
        = round1 (clamp0to100 (100 - stabilityPenaltySpec S.fps_cv S.memory_cv S.cpu_cv)) := by
  have hX := ne_nil_of_summary_some X _ S hS
  have hN := calculateComponentSummary_type X "custom" "native" S hS
  obtain ⟨cmp, hcmp, r1, r2, r3, d1, d2, d3, sc⟩ :=
    scientificComparison_some S { S with component_type := "native" }
  refine ⟨_, cmp, CompareComponents_some X X hX hX, ?_, ?_⟩
  · simp only [hS, hN, hcmp]
  · simp only at r1 r2 r3 d1 d2 d3 sc
    obtain ⟨f1, f2⟩ := ratio_delta_self _ hfps
    obtain ⟨m1, m2⟩ := ratio_delta_self _ hmem
    obtain ⟨c1, c2⟩ := ratio_delta_self _ hcpu
    rw [f1, m1, c1, score_of_equal_series] at sc
    rw [f1, round3_one] at r1
    rw [m1, round3_one] at r2
    rw [c1, round3_one] at r3
    rw [← d1] at f2
    rw [← d2] at m2
    rw [← d3] at c2
    exact ⟨r1, r2, r3, f2, m2, c2, sc⟩

theorem CompareComponents_self_witness :
    ∃ S, calculateComponentSummary [busySample, idleSample] "custom" = some S ∧
      S.fps_avg.isFiniteNonzero = true ∧ S.memory_avg.isFiniteNonzero = true ∧
      S.cpu_avg.isFiniteNonzero = true ∧
      ∃ r cmp, CompareComponents [busySample, idleSample] [busySample, idleSample] = some r ∧
        r.Comparison = some cmp ∧
        cmp.fps_ratio = 1 ∧ cmp.memory_ratio = 1 ∧ cmp.cpu_ratio = 1 ∧
        F64.eq cmp.fps_diff_percent 0 = true ∧
        F64.eq cmp.memory_diff_percent 0 = true ∧
        F64.eq cmp.cpu_diff_percent 0 = true ∧
        cmp.performance_score
          = round1 (clamp0to100 (100 - stabilityPenaltySpec S.fps_cv S.memory_cv S.cpu_cv)) :=
  ⟨_, rfl, by decide, by decide, by decide,
    CompareComponents_self [busySample, idleSample] _ rfl (by decide) (by decide) (by decide)⟩

/-- C6 as stated fails on a list with an idle CPU: the CPU average is zero, the
ratio `0 / 0` is NaN, and so are the CPU percent delta and the score. -/
theorem CompareComponents_self_zero_average :
    ∃ r cmp, CompareComponents [idleSample] [idleSample] = some r ∧
      r.Comparison = some cmp ∧
      cmp.cpu_ratio = F64.nan ∧ cmp.cpu_diff_percent = F64.nan ∧
      cmp.performance_score = F64.nan ∧ F64.eq cmp.cpu_ratio 1 = false :=
  ⟨_, _, rfl, rfl, by decide, by decide, by decide, by decide⟩

/-- C7. For all inputs `calculatePerformanceScore` equals
`0.3 × fpsScore + 0.3 × memoryScore + 0.4 × cpuScore − (0.5 × fpsCV +
0.3 × memoryCV + 0.2 × cpuCV)` clamped to `[0, 100]` and rounded to 1 decimal,
where `fpsScore` is 100 if `fpsRatio ≥ 1` and `fpsRatio × 100` otherwise, and
`memoryScore`, `cpuScore` are 100 if the ratio is `≤ 1` and `(1 / ratio) × 100`
otherwise (binary64 arithmetic). -/
theorem calculatePerformanceScore_formula
    (fpsRatio memoryRatio cpuRatio fpsCV memoryCV cpuCV : F64) :
    calculatePerformanceScore fpsRatio memoryRatio cpuRatio fpsCV memoryCV cpuCV
      = round1 (clamp0to100
          (0.3 * (if F64.ge fpsRatio 1 then 100 else fpsRatio * 100)
            + 0.3 * (if F64.le memoryRatio 1 then 100 else 1 / memoryRatio * 100)
            + 0.4 * (if F64.le cpuRatio 1 then 100 else 1 / cpuRatio * 100)
            - (0.5 * fpsCV + 0.3 * memoryCV + 0.2 * cpuCV))) :=
  calculatePerformanceScore_eq_spec fpsRatio memoryRatio cpuRatio fpsCV memoryCV cpuCV

/-- C8 (the code departs from it). On two non-empty lists whose samples all
have an idle CPU (`CPUPercent = 0`) the CPU ratio is `0 / 0`, and the score the
code reports is NaN: the two clamping comparisons are false on NaN, so the
score is not in `[0, 100]`. -/
theorem CompareComponents_score_nan :
    ∃ r cmp, CompareComponents [idleSample] [idleSample] = some r ∧
      r.Comparison = some cmp ∧ cmp.performance_score = F64.nan ∧
      F64.le 0 cmp.performance_score = false ∧ F64.le cmp.performance_score 100 = false :=
  ⟨_, _, rfl, rfl, by decide, by decide, by decide⟩

/-- C9 (amended). `calculatePerformanceScore` is monotone non-decreasing in the
FPS ratio wherever it yields numbers: for fixed `memoryRatio`, `cpuRatio` and
coefficients of variation and every `r₁ ≤ r₂`, if the scores at `r₁` and at `r₂`
are not NaN, the score at `r₁` is at most the score at `r₂`. -/
theorem calculatePerformanceScore_mono_fps
    (r₁ r₂ memoryRatio cpuRatio fpsCV memoryCV cpuCV : F64)
    (h : F64.le r₁ r₂ = true)
    (h₁ : F64.isNaN (calculatePerformanceScore r₁ memoryRatio cpuRatio fpsCV memoryCV cpuCV)
      = false)
    (h₂ : F64.isNaN (calculatePerformanceScore r₂ memoryRatio cpuRatio fpsCV memoryCV cpuCV)
      = false) :
    F64.le (calculatePerformanceScore r₁ memoryRatio cpuRatio fpsCV memoryCV cpuCV)
      (calculatePerformanceScore r₂ memoryRatio cpuRatio fpsCV memoryCV cpuCV) = true := by
  rw [calculatePerformanceScore_eq_spec] at h₁ h₂ ⊢
  rw [calculatePerformanceScore_eq_spec]
  exact performanceScoreSpec_mono r₁ r₂ memoryRatio cpuRatio fpsCV memoryCV cpuCV h h₁ h₂

theorem calculatePerformanceScore_mono_fps_witness :
    F64.le 0.5 0.9 = true ∧
    F64.isNaN (calculatePerformanceScore 0.5 1.2 1.5 2 3 4) = false ∧
    F64.isNaN (calculatePerformanceScore 0.9 1.2 1.5 2 3 4) = false ∧
    F64.le (calculatePerformanceScore 0.5 1.2 1.5 2 3 4)
      (calculatePerformanceScore 0.9 1.2 1.5 2 3 4) = true :=
  ⟨by decide, by decide, by decide,
    calculatePerformanceScore_mono_fps 0.5 0.9 1.2 1.5 2 3 4 (by decide) (by decide)
      (by decide)⟩

/-- C9 as stated fails when another argument is NaN (a memory ratio `0 / 0`):
the scores at the FPS ratios `0.5 ≤ 1` are both NaN, and NaN is not `≤` NaN. -/
theorem calculatePerformanceScore_mono_fps_nan :
    F64.le 0.5 1 = true ∧
    F64.le (calculatePerformanceScore 0.5 (0 / 0) 1 0 0 0)
      (calculatePerformanceScore 1 (0 / 0) 1 0 0 0) = false := by
  decide

/-- C10. For every pair of non-empty metric lists, the comparison reports, for
each of FPS, memory and CPU, `ratio = customAvg / nativeAvg` rounded to 3
decimals and `percent delta = (customAvg − nativeAvg) / nativeAvg × 100`
rounded to 2 decimals, where `customAvg` and `nativeAvg` are the averages
stored in the two summaries (whatever the native averages are, so in
particular when they are non-zero). -/
theorem CompareComponents_ratios_deltas (customMetrics nativeMetrics : List PerformanceMetric)
    (hc : customMetrics ≠ []) (hn : nativeMetrics ≠ []) :
    ∃ r cs ns cmp, CompareComponents customMetrics nativeMetrics = some r ∧
      r.CustomSummary = some cs ∧ r.NativeSummary = some ns ∧
      r.Comparison = some cmp ∧ scientificComparison (some cs) (some ns) = some cmp ∧
      cmp.fps_ratio = round3 (cs.fps_avg / ns.fps_avg) ∧
      cmp.memory_ratio = round3 (cs.memory_avg / ns.memory_avg) ∧
      cmp.cpu_ratio = round3 (cs.cpu_avg / ns.cpu_avg) ∧
      cmp.fps_diff_percent = round2 ((cs.fps_avg - ns.fps_avg) / ns.fps_avg * 100) ∧
      cmp.memory_diff_percent
        = round2 ((cs.memory_avg - ns.memory_avg) / ns.memory_avg * 100) ∧
      cmp.cpu_diff_percent = round2 ((cs.cpu_avg - ns.cpu_avg) / ns.cpu_avg * 100) := by
  obtain ⟨cs, hcs⟩ := calculateComponentSummary_some customMetrics "custom" hc
  obtain ⟨ns, hns⟩ := calculateComponentSummary_some nativeMetrics "native" hn
  obtain ⟨cmp, hcmp, r1, r2, r3, d1, d2, d3, _⟩ := scientificComparison_some cs ns
  refine ⟨_, cs, ns, cmp, CompareComponents_some customMetrics nativeMetrics hc hn,
    ?_, ?_, ?_, hcmp, r1, r2, r3, d1, d2, d3⟩
  · simp only [hcs]
  · simp only [hns]
  · simp only [hcs, hns, hcmp]

theorem CompareComponents_ratios_deltas_witness :
    [busySample] ≠ [] ∧ [idleSample, busySample] ≠ [] ∧
    ∃ r cs ns cmp, CompareComponents [busySample] [idleSample, busySample] = some r ∧
      r.CustomSummary = some cs ∧ r.NativeSummary = some ns ∧
      r.Comparison = some cmp ∧ scientificComparison (some cs) (some ns) = some cmp ∧
      cmp.fps_ratio = round3 (cs.fps_avg / ns.fps_avg) ∧
      cmp.memory_ratio = round3 (cs.memory_avg / ns.memory_avg) ∧
      cmp.cpu_ratio = round3 (cs.cpu_avg / ns.cpu_avg) ∧
      cmp.fps_diff_percent = round2 ((cs.fps_avg - ns.fps_avg) / ns.fps_avg * 100) ∧
      cmp.memory_diff_percent
        = round2 ((cs.memory_avg - ns.memory_avg) / ns.memory_avg * 100) ∧
      cmp.cpu_diff_percent = round2 ((cs.cpu_avg - ns.cpu_avg) / ns.cpu_avg * 100) :=
  ⟨by simp, by simp,
    CompareComponents_ratios_deltas [busySample] [idleSample, busySample] (by simp) (by simp)⟩

/-- C11. For each of FPS, memory and CPU, `analyzeSignificance` marks the metric
significant if and only if the absolute value of its percent delta is strictly
greater than 2 times the coefficient of variation of that metric in the custom
summary. -/
theorem analyzeSignificance_significant (customSummary nativeSummary : Summary)
    (fpsDiffPercent memoryDiffPercent cpuDiffPercent : F64) :
    ((analyzeSignificance customSummary nativeSummary
        fpsDiffPercent memoryDiffPercent cpuDiffPercent).fps_significant = true ↔
      F64.gt (F64.abs fpsDiffPercent) (2 * customSummary.fps_cv) = true) ∧
    ((analyzeSignificance customSummary nativeSummary
        fpsDiffPercent memoryDiffPercent cpuDiffPercent).memory_significant = true ↔
      F64.gt (F64.abs memoryDiffPercent) (2 * customSummary.memory_cv) = true) ∧
    ((analyzeSignificance customSummary nativeSummary
        fpsDiffPercent memoryDiffPercent cpuDiffPercent).cpu_significant = true ↔
      F64.gt (F64.abs cpuDiffPercent) (2 * customSummary.cpu_cv) = true) := by
  refine ⟨?_, ?_, ?_⟩ <;> simp only [analyzeSignificance, F64.mul_comm (2 : F64)]

/-- C12. For every delta `d` (non-negative or not) and coefficient of variation
`cv`, `calculateConfidenceLevel d cv` is "high" when `cv` equals zero, and
otherwise "very high" when `d / cv ≥ 3`, "high" when `2 ≤ d / cv < 3`, "medium"
when `1 ≤ d / cv < 2`, and "low" when `d / cv < 1`. -/
theorem calculateConfidenceLevel_cases (d cv : F64) :
    (F64.eq cv 0 = true → calculateConfidenceLevel d cv = "high") ∧
    (F64.eq cv 0 = false → F64.ge (d / cv) 3 = true →
      calculateConfidenceLevel d cv = "very high") ∧
    (F64.eq cv 0 = false → F64.ge (d / cv) 2 = true → F64.lt (d / cv) 3 = true →
      calculateConfidenceLevel d cv = "high") ∧
    (F64.eq cv 0 = false → F64.ge (d / cv) 1 = true → F64.lt (d / cv) 2 = true →
      calculateConfidenceLevel d cv = "medium") ∧
    (F64.eq cv 0 = false → F64.lt (d / cv) 1 = true →
      calculateConfidenceLevel d cv = "low") := by
  unfold calculateConfidenceLevel F64.ge
  refine ⟨?_, ?_, ?_, ?_, ?_⟩
  · intro h
    simp [h]
  · intro h h3
    simp [h, h3]
  · intro h h2 h3
    have n3 := F64.not_le_of_lt h3
    simp [h, h2, n3]
  · intro h h1 h2
    have n2 := F64.not_le_of_lt h2
    have n3 : F64.le 3 (d / cv) = false := by
      by_contra hc
      have hc' : F64.le 3 (d / cv) = true := by simpa using hc
      have h23 : F64.le 2 3 = true := by decide
      rw [F64.le_trans h23 hc'] at n2
      exact Bool.noConfusion n2
    simp [h, h1, n2, n3]
  · intro h h1
    have n1 := F64.not_le_of_lt h1
    have n2 : F64.le 2 (d / cv) = false := by
      by_contra hc
      have hc' : F64.le 2 (d / cv) = true := by simpa using hc
      have h12 : F64.le 1 2 = true := by decide
      rw [F64.le_trans h12 hc'] at n1
      exact Bool.noConfusion n1
    have n3 : F64.le 3 (d / cv) = false := by
      by_contra hc
      have hc' : F64.le 3 (d / cv) = true := by simpa using hc
      have h13 : F64.le 1 3 = true := by decide
      rw [F64.le_trans h13 hc'] at n1
      exact Bool.noConfusion n1
    simp [h, n1, n2, n3]

/-- C13. For every FPS percent delta `d`, `classifyPerformance` assigns the FPS
category "excellent" when `d ≥ 10`, "good" when `0 ≤ d < 10`, "acceptable" when
`−10 ≤ d < 0`, "poor" when `−30 ≤ d < −10` and "bad" when `d < −30`; each case
is also the only one that gives its category, so the five are mutually
exclusive, and every `d` gets one of them (a NaN delta, which meets none of the
comparisons, gets "bad"). -/
theorem classifyPerformance_fps (fpsRatio memoryRatio cpuRatio d memoryDiffPercent
    cpuDiffPercent : F64) :
    ((classifyPerformance fpsRatio memoryRatio cpuRatio d memoryDiffPercent
        cpuDiffPercent).fps = "excellent" ↔ F64.ge d 10 = true) ∧
    ((classifyPerformance fpsRatio memoryRatio cpuRatio d memoryDiffPercent
        cpuDiffPercent).fps = "good" ↔ (F64.ge d 0 = true ∧ F64.lt d 10 = true)) ∧
    ((classifyPerformance fpsRatio memoryRatio cpuRatio d memoryDiffPercent
        cpuDiffPercent).fps = "acceptable" ↔
      (F64.ge d (-10) = true ∧ F64.lt d 0 = true)) ∧
    ((classifyPerformance fpsRatio memoryRatio cpuRatio d memoryDiffPercent
        cpuDiffPercent).fps = "poor" ↔
      (F64.ge d (-30) = true ∧ F64.lt d (-10) = true)) ∧
    ((classifyPerformance fpsRatio memoryRatio cpuRatio d memoryDiffPercent
        cpuDiffPercent).fps = "bad" ↔ (F64.lt d (-30) = true ∨ F64.isNaN d = true)) ∧
    (classifyPerformance fpsRatio memoryRatio cpuRatio d memoryDiffPercent
        cpuDiffPercent).fps ∈ ["excellent", "good", "acceptable", "poor", "bad"] := by
  have t1 : F64.le 0 10 = true := by decide
  have t2 : F64.le (-10) 0 = true := by decide
  have t3 : F64.le (-30) (-10) = true := by decide
  have n10 : F64.isNaN (10 : F64) = false := by decide
  have n0 : F64.isNaN (0 : F64) = false := by decide
  have nm10 : F64.isNaN (-10 : F64) = false := by decide
  have nm30 : F64.isNaN (-30 : F64) = false := by decide
  simp only [classifyPerformance, F64.ge]
  by_cases h10 : F64.le 10 d = true
  · have hd := F64.isNaN_of_le_right h10
    have h0 := F64.le_trans t1 h10
    have hm10 := F64.le_trans t2 h0
    have hm30 := F64.le_trans t3 hm10
    have l10 : F64.lt d 10 = false := by
      cases h : F64.lt d 10
      · rfl
      · rw [F64.not_le_of_lt h] at h10; exact Bool.noConfusion h10
    have l0 : F64.lt d 0 = false := by
      cases h : F64.lt d 0
      · rfl
      · rw [F64.not_le_of_lt h] at h0; exact Bool.noConfusion h0
    have lm10 : F64.lt d (-10) = false := by
      cases h : F64.lt d (-10)
      · rfl
      · rw [F64.not_le_of_lt h] at hm10; exact Bool.noConfusion hm10
    have lm30 : F64.lt d (-30) = false := by
      cases h : F64.lt d (-30)
      · rfl
      · rw [F64.not_le_of_lt h] at hm30; exact Bool.noConfusion hm30
    simp [h10, h0, hm10, hm30, l10, l0, lm10, lm30, hd]
  · have h10' : F64.le 10 d = false := by simpa using h10
    by_cases h0 : F64.le 0 d = true
    · have hd := F64.isNaN_of_le_right h0
      have hm10 := F64.le_trans t2 h0
      have hm30 := F64.le_trans t3 hm10
      have l10 : F64.lt d 10 = true := F64.lt_of_not_le hd n10 h10'
      have l0 : F64.lt d 0 = false := by
        cases h : F64.lt d 0
        · rfl
        · rw [F64.not_le_of_lt h] at h0; exact Bool.noConfusion h0
      have lm10 : F64.lt d (-10) = false := by
        cases h : F64.lt d (-10)
        · rfl
        · rw [F64.not_le_of_lt h] at hm10; exact Bool.noConfusion hm10
      have lm30 : F64.lt d (-30) = false := by
        cases h : F64.lt d (-30)
        · rfl
        · rw [F64.not_le_of_lt h] at hm30; exact Bool.noConfusion hm30
      simp [h10', h0, hm10, hm30, l10, l0, lm10, lm30, hd]
    · have h0' : F64.le 0 d = false := by simpa using h0
      by_cases hm10 : F64.le (-10) d = true
      · have hd := F64.isNaN_of_le_right hm10
        have hm30 := F64.le_trans t3 hm10
        have l0 : F64.lt d 0 = true := F64.lt_of_not_le hd n0 h0'
        have lm10 : F64.lt d (-10) = false := by
          cases h : F64.lt d (-10)
          · rfl
          · rw [F64.not_le_of_lt h] at hm10; exact Bool.noConfusion hm10
        have lm30 : F64.lt d (-30) = false := by
          cases h : F64.lt d (-30)
          · rfl
          · rw [F64.not_le_of_lt h] at hm30; exact Bool.noConfusion hm30
        simp [h10', h0', hm10, hm30, l0, lm10, lm30, hd]
      · have hm10' : F64.le (-10) d = false := by simpa using hm10
        by_cases hm30 : F64.le (-30) d = true
        · have hd := F64.isNaN_of_le_right hm30
          have lm10 : F64.lt d (-10) = true := F64.lt_of_not_le hd nm10 hm10'
          have lm30 : F64.lt d (-30) = false := by
            cases h : F64.lt d (-30)
            · rfl
            · rw [F64.not_le_of_lt h] at hm30; exact Bool.noConfusion hm30
          simp [h10', h0', hm10', hm30, lm10, lm30, hd]
        · have hm30' : F64.le (-30) d = false := by simpa using hm30
          simp only [h10', h0', hm10', hm30', Bool.false_eq_true, if_false, false_and]
          refine ⟨by decide, by decide, by decide, by decide, ?_, by decide⟩
          refine ⟨fun _ => ?_, fun _ => trivial⟩
          cases hd : F64.isNaN d
          · exact Or.inl (F64.lt_of_not_le hd nm30 hm30')
          · exact Or.inr rfl

/-- C14 (amended). The memory category and the CPU category that
`classifyPerformance` assigns to a percent delta `d` come from the same
thresholds `−10`, `0`, `20`, `50`: "excellent" when `d ≤ −10`, "good" when
`−10 < d ≤ 0`, "acceptable" when `0 < d ≤ 20`, "poor" when `20 < d ≤ 50`,
"bad" when `d > 50` (or `d` is NaN), each case the only one that gives its
category; so the two are equal.  They equal the FPS category of the delta
`−d` (thresholds `10`, `0`, `−10`, `−30`) for every `d` outside the two
ranges `10 < d ≤ 20` and `30 < d ≤ 50`. -/
theorem classifyPerformance_mirror (fpsRatio memoryRatio cpuRatio fpsDiffPercent d e : F64) :
    (((classifyPerformance fpsRatio memoryRatio cpuRatio fpsDiffPercent d e).memory
        = "excellent" ↔ F64.le d (-10) = true) ∧
      ((classifyPerformance fpsRatio memoryRatio cpuRatio fpsDiffPercent d e).memory
        = "good" ↔ (F64.lt (-10) d = true ∧ F64.le d 0 = true)) ∧
      ((classifyPerformance fpsRatio memoryRatio cpuRatio fpsDiffPercent d e).memory
        = "acceptable" ↔ (F64.lt 0 d = true ∧ F64.le d 20 = true)) ∧
      ((classifyPerformance fpsRatio memoryRatio cpuRatio fpsDiffPercent d e).memory
        = "poor" ↔ (F64.lt 20 d = true ∧ F64.le d 50 = true)) ∧
      ((classifyPerformance fpsRatio memoryRatio cpuRatio fpsDiffPercent d e).memory
        = "bad" ↔ (F64.lt 50 d = true ∨ F64.isNaN d = true))) ∧
    (((classifyPerformance fpsRatio memoryRatio cpuRatio fpsDiffPercent e d).cpu
        = "excellent" ↔ F64.le d (-10) = true) ∧
      ((classifyPerformance fpsRatio memoryRatio cpuRatio fpsDiffPercent e d).cpu
        = "good" ↔ (F64.lt (-10) d = true ∧ F64.le d 0 = true)) ∧
      ((classifyPerformance fpsRatio memoryRatio cpuRatio fpsDiffPercent e d).cpu
        = "acceptable" ↔ (F64.lt 0 d = true ∧ F64.le d 20 = true)) ∧
      ((classifyPerformance fpsRatio memoryRatio cpuRatio fpsDiffPercent e d).cpu
        = "poor" ↔ (F64.lt 20 d = true ∧ F64.le d 50 = true)) ∧
      ((classifyPerformance fpsRatio memoryRatio cpuRatio fpsDiffPercent e d).cpu
        = "bad" ↔ (F64.lt 50 d = true ∨ F64.isNaN d = true))) ∧
    (classifyPerformance fpsRatio memoryRatio cpuRatio fpsDiffPercent d e).memory
      = (classifyPerformance fpsRatio memoryRatio cpuRatio fpsDiffPercent e d).cpu ∧
    ((F64.lt 10 d && F64.le d 20) = false → (F64.lt 30 d && F64.le d 50) = false →
      (classifyPerformance fpsRatio memoryRatio cpuRatio fpsDiffPercent d e).memory
        = (classifyPerformance fpsRatio memoryRatio cpuRatio (-d) d d).fps ∧
      (classifyPerformance fpsRatio memoryRatio cpuRatio fpsDiffPercent e d).cpu
        = (classifyPerformance fpsRatio memoryRatio cpuRatio (-d) d d).fps) :=
  ⟨lowerIsBetter_cases d, lowerIsBetter_cases d, rfl, fun h₁ h₂ =>
    ⟨(mirror_outside_ranges fpsRatio memoryRatio cpuRatio fpsDiffPercent d h₁ h₂).2,
      (mirror_outside_ranges fpsRatio memoryRatio cpuRatio fpsDiffPercent d h₁ h₂).2⟩⟩

/-- Witness of C14 at the delta `25`, outside the two ranges: memory and CPU
are "poor", as is the FPS category of `−25`. -/
theorem classifyPerformance_mirror_witness :
    (F64.lt 10 25 && F64.le 25 20) = false ∧ (F64.lt 30 25 && F64.le 25 50) = false ∧
    (classifyPerformance 1 1 1 0 25 0).memory = "poor" ∧
    (classifyPerformance 1 1 1 0 0 25).cpu = "poor" ∧
    (classifyPerformance 1 1 1 0 25 0).memory = (classifyPerformance 1 1 1 (-25) 25 25).fps ∧
    (classifyPerformance 1 1 1 0 0 25).cpu = (classifyPerformance 1 1 1 (-25) 25 25).fps :=
  ⟨by decide, by decide,
    (classifyPerformance_mirror 1 1 1 0 25 0).1.2.2.2.1.mpr ⟨by decide, by decide⟩,
    (classifyPerformance_mirror 1 1 1 0 25 0).2.1.2.2.2.1.mpr ⟨by decide, by decide⟩,
    ((classifyPerformance_mirror 1 1 1 0 25 0).2.2.2 (by decide) (by decide)).1,
    ((classifyPerformance_mirror 1 1 1 0 25 0).2.2.2 (by decide) (by decide)).2⟩

/-- C14 as stated fails at the delta `15`: the memory and the CPU category of
`15` are "acceptable" (`15 ≤ 20`), the FPS category of `−15` is "poor"
(`−15 < −10`). -/
theorem classifyPerformance_mirror_fails :
    (classifyPerformance 1 1 1 (-15) 15 15).memory = "acceptable" ∧
    (classifyPerformance 1 1 1 (-15) 15 15).cpu = "acceptable" ∧
    (classifyPerformance 1 1 1 (-15) 15 15).fps = "poor" := by
  decide

/-- C15. For every capacity `n ≥ 1` and every sequence of `AddFrame` calls on a
calculator created with capacity `n`, after each call (after the first `k`
calls, for every `k`) the queue holds at most `n` timestamps, and they are the
most recent `min(k, n)` recorded timestamps in recording order. -/
theorem addFrames_window (n : Nat) (hn : 1 ≤ n) (t₀ : Int) (calls : List AddFrameClock)
    (k : Nat) :
    ((NewFPSCalculator n t₀).addFrames (calls.take k)).frameTimes.length ≤ n ∧
    ((NewFPSCalculator n t₀).addFrames (calls.take k)).frameTimes.length
      = min (calls.take k).length n ∧
    ((NewFPSCalculator n t₀).addFrames (calls.take k)).frameTimes
      = mostRecent n ((calls.take k).map AddFrameClock.now) := by
  obtain ⟨h, _⟩ := addFrames_frameTimes n hn t₀ (calls.take k)
  rw [h, length_mostRecent, List.length_map]
  exact ⟨Nat.min_le_right _ _, rfl, rfl⟩

theorem addFrames_window_witness :
    1 ≤ 2 ∧
    ((NewFPSCalculator 2 0).addFrames
      (List.take 3 [⟨10, 10⟩, ⟨20, 20⟩, ⟨30, 30⟩, ⟨40, 40⟩])).frameTimes.length ≤ 2 ∧
    ((NewFPSCalculator 2 0).addFrames
      (List.take 3 [⟨10, 10⟩, ⟨20, 20⟩, ⟨30, 30⟩, ⟨40, 40⟩])).frameTimes.length
      = min (List.take 3 ([⟨10, 10⟩, ⟨20, 20⟩, ⟨30, 30⟩, ⟨40, 40⟩] :
          List AddFrameClock)).length 2 ∧
    ((NewFPSCalculator 2 0).addFrames
      (List.take 3 [⟨10, 10⟩, ⟨20, 20⟩, ⟨30, 30⟩, ⟨40, 40⟩])).frameTimes
      = mostRecent 2 ((List.take 3 ([⟨10, 10⟩, ⟨20, 20⟩, ⟨30, 30⟩, ⟨40, 40⟩] :
          List AddFrameClock)).map AddFrameClock.now) :=
  ⟨by decide, addFrames_window 2 (by decide) 0 [⟨10, 10⟩, ⟨20, 20⟩, ⟨30, 30⟩, ⟨40, 40⟩] 3⟩

/-- C17. After `Reset` on any calculator the queue is empty, and every `GetFPS`
call made afterwards with no frame recorded in between, at whatever clock
readings, returns exactly 60.0 and leaves the queue empty. -/
theorem reset_then_getFPS (f : FPSCalculator) (now : Int) (reads : List GetFPSClock) :
    (f.Reset now).frameTimes = [] ∧
    ((f.Reset now).getFPSs reads).1 = List.replicate reads.length 60.0 ∧
    ((f.Reset now).getFPSs reads).2.frameTimes = [] :=
  ⟨rfl, getFPSs_of_empty reads (f.Reset now) rfl rfl⟩

/-- C18. Whenever fewer than 2 timestamps are in the queue, `calculateFPS`
returns at once: it leaves the calculator, and so the FPS value, unchanged (no
arithmetic is done). -/
theorem calculateFPS_few_samples (f : FPSCalculator) (now : Int)
    (h : f.frameTimes.length < 2) :
    f.calculateFPS now = f ∧ (f.calculateFPS now).lastFPS = f.lastFPS := by
  have e : f.calculateFPS now = f := by
    unfold FPSCalculator.calculateFPS
    simp [h]
  exact ⟨e, by rw [e]⟩

theorem calculateFPS_few_samples_witness :
    ((NewFPSCalculator 120 0).AddFrame 5 5).frameTimes.length < 2 ∧
    ((NewFPSCalculator 120 0).AddFrame 5 5).calculateFPS 7
      = (NewFPSCalculator 120 0).AddFrame 5 5 ∧
    (((NewFPSCalculator 120 0).AddFrame 5 5).calculateFPS 7).lastFPS
      = ((NewFPSCalculator 120 0).AddFrame 5 5).lastFPS :=
  ⟨by decide, calculateFPS_few_samples ((NewFPSCalculator 120 0).AddFrame 5 5) 7 (by decide)⟩

/-- C19 (the code departs from it). On a freshly created Monitor the calls
Start, Stop, Start, Stop fail at the second Stop: the first Stop closes
`stopChan`, Start never makes a new channel, and closing the closed channel
panics.  The first cycle and a Stop on a stopped Monitor go through: after
Start, Stop the Monitor is stopped, and Stop on a stopped Monitor returns it
unchanged. -/
theorem Monitor_second_cycle_panics (testName : String) (env : NewMonitorEnv)
    (e₁ e₂ : StartEnv) :
    (NewMonitor testName env).calls
        [MonitorCall.start e₁, MonitorCall.stop, MonitorCall.start e₂, MonitorCall.stop]
      = Except.error "close of closed channel" ∧
    (∃ m, (NewMonitor testName env).calls [MonitorCall.start e₁, MonitorCall.stop]
        = Except.ok m ∧ m.isRunning = false ∧ m.stopChanClosed = true) ∧
    (∀ m : Monitor, m.isRunning = false → m.Stop = Except.ok m) := by
  have h₁ := Stop_of_running_open ((NewMonitor testName env).Start e₁)
    (Start_isRunning _ _) (by rw [Start_stopChanClosed]; rfl)
  have h₂ := Stop_of_running_closed
    (Monitor.Start { (NewMonitor testName env).Start e₁ with
      isRunning := false, stopChanClosed := true } e₂)
    (Start_isRunning _ _) (by rw [Start_stopChanClosed])
  refine ⟨?_, ⟨{ (NewMonitor testName env).Start e₁ with
    isRunning := false, stopChanClosed := true }, ?_, rfl, rfl⟩, ?_⟩
  · rw [calls_start, calls_stop_ok _ _ _ h₁, calls_start, calls_stop_error _ _ _ h₂]
  · rw [calls_start, calls_stop_ok _ _ _ h₁]
    rfl
  · intro m hm
    simp [Monitor.Stop, hm]

/-- C20. `Start` on a running Monitor returns at once and leaves the whole
state unchanged (the metrics collected so far are kept); on a stopped Monitor it
sets it running, empties the metric list and zeroes the frame counter. -/
theorem Monitor_Start_effect (m : Monitor) (env : StartEnv) :
    (m.isRunning = true → m.Start env = m) ∧
    (m.isRunning = false →
      (m.Start env).isRunning = true ∧ (m.Start env).metrics = [] ∧
      (m.Start env).totalFrames = 0) := by
  constructor
  · intro h
    simp [Monitor.Start, h]
  · intro h
    unfold Monitor.Start
    simp only [h, Bool.false_eq_true, if_false]
    cases m.proc <;> cases env.cpuPercent <;> exact ⟨rfl, rfl, rfl⟩

/-- C21, as amended.  On a freshly created Monitor, `Start()`, then
`StartRecording("A", "custom", "s")`, then `Stop()`, with no sampler tick in
between, returns without a panic and leaves exactly one metric (the snapshot
of `StartRecording`); when `StopRecording()` is called before `Stop()` the
list holds exactly two. -/
theorem Start_StartRecording_Stop_metrics (testName : String) (env : NewMonitorEnv)
    (e : StartEnv) (now : Int) (r r' : SnapshotEnv) :
    (∃ m, (((NewMonitor testName env).Start e).StartRecording "A" "custom" "s" now r).Stop
        = Except.ok m ∧ m.metrics.length = 1) ∧
    (∃ m, ((((NewMonitor testName env).Start e).StartRecording "A" "custom" "s" now
        r).StopRecording r').Stop = Except.ok m ∧ m.metrics.length = 2) :=
  session_metrics (NewMonitor testName env) rfl rfl e "A" "custom" "s" now r r'

/-- C21 fails as stated: on the sample Monitor, `Start()`,
`StartRecording("A", "custom", "s")`, `Stop()` leaves a metric list of length
1, which is not at least 2. -/
theorem Start_StartRecording_Stop_single :
    ∃ m, (((NewMonitor "bench" sampleMonitorEnv).Start sampleStartEnv).StartRecording
        "A" "custom" "s" 0 sampleSnapshotEnv).Stop = Except.ok m ∧
      m.metrics.length = 1 ∧ ¬ 2 ≤ m.metrics.length := by
  obtain ⟨m, h, hl⟩ := (session_metrics (NewMonitor "bench" sampleMonitorEnv) rfl rfl
    sampleStartEnv "A" "custom" "s" 0 sampleSnapshotEnv sampleSnapshotEnv).1
  exact ⟨m, h, hl, by omega⟩

/-- C22: `StartRecording` and `StopRecording` each append exactly one metric
to the metric list and keep the earlier metrics as a prefix.  The metric of
`StartRecording c t s` is tagged with `c`, `t` and `s`; the metric of
`StopRecording` is tagged with the component, category and scenario current
before the call, and after `StopRecording` the scenario label is empty. -/
theorem recording_appends_one_snapshot (m : Monitor) (c t s : String) (now : Int)
    (env : SnapshotEnv) :
    (∃ metric, (m.StartRecording c t s now env).metrics = m.metrics ++ [metric] ∧
      metric.ComponentName = c ∧ metric.ComponentType = t ∧ metric.TestScenario = s) ∧
    (∃ metric, (m.StopRecording env).metrics = m.metrics ++ [metric] ∧
      metric.ComponentName = m.componentName ∧ metric.ComponentType = m.componentType ∧
      metric.TestScenario = m.currentScenario) ∧
    (m.StopRecording env).currentScenario = "" := by
  refine ⟨?_, ?_, rfl⟩
  · unfold Monitor.StartRecording
    exact (recordSnapshot_spec _ env).1
  · exact (recordSnapshot_spec m env).1

/-- C23: a sampler tick (`recordMetrics`) captures only while recording.  With
a non-empty scenario label it appends exactly one metric, tagged with the
current component name, category and scenario; with an empty label it leaves
the Monitor, and so the metric list, unchanged. -/
theorem recordMetrics_only_while_recording (m : Monitor) (env : SnapshotEnv) :
    (m.currentScenario ≠ "" →
      ∃ metric, (m.recordMetrics env).metrics = m.metrics ++ [metric] ∧
        metric.ComponentName = m.componentName ∧ metric.ComponentType = m.componentType ∧
        metric.TestScenario = m.currentScenario) ∧
    (m.currentScenario = "" →
      m.recordMetrics env = m ∧ (m.recordMetrics env).metrics = m.metrics) := by
  constructor
  · intro h
    have e : m.recordMetrics env = m.recordSnapshot env := by
      unfold Monitor.recordMetrics Monitor.recordSnapshot
      rw [if_neg (by simpa using h)]
    rw [e]
    exact (recordSnapshot_spec m env).1
  · intro h
    have e : m.recordMetrics env = m := by
      unfold Monitor.recordMetrics
      rw [if_pos (by simpa using h)]
    rw [e]
    exact ⟨rfl, rfl⟩

/-- C24.  A metric filled in by `collectRealMetrics` satisfies the data-model
invariant, `FPS ≥ 0.1`, `0 ≤ CPUPercent ≤ 100`, `RenderTimeMS = 1000 / FPS`
and `UpdateTimeMS = 0.3 × RenderTimeMS`, for every reading of the calculator,
every frame count and every CPU probe value.  The calculator is any one
reached from `NewFPSCalculator` by `AddFrame`, `GetFPS` and `Reset` calls at
any clock readings, with any frame count; or, more generally, its reading is
any `float64` that is a number (zero, negative and infinite readings
included) with an `int64` frame count.  The CPU value read (the probe value,
or the last known value when the probe fails, which is 0 on a new Monitor and
the latest probe value afterwards) is any `float64` that is a number. -/
theorem collectRealMetrics_invariant (m : Monitor) (metric : PerformanceMetric)
    (env : CollectEnv)
    (hfps : (∃ n t₀ cs, m.fpsCalculator = (NewFPSCalculator n t₀).calls cs) ∨
      (F64.isNaN
          (m.fpsCalculator.GetFPS env.fps.sinceNow env.fps.calcNow env.fps.updateNow).1 = false ∧
        m.totalFrames < 2 ^ 63))
    (hprobe : ∀ p, env.cpuPercent = some p → F64.isNaN p = false)
    (hlast : env.cpuPercent = none → F64.isNaN m.lastCPUPercent = false) :
    F64.ge (m.collectRealMetrics metric env).1.FPS 0.1 = true ∧
    F64.le 0 (m.collectRealMetrics metric env).1.CPUPercent = true ∧
    F64.le (m.collectRealMetrics metric env).1.CPUPercent 100 = true ∧
    (m.collectRealMetrics metric env).1.RenderTimeMS
      = 1000 / (m.collectRealMetrics metric env).1.FPS ∧
    (m.collectRealMetrics metric env).1.UpdateTimeMS
      = 0.3 * (m.collectRealMetrics metric env).1.RenderTimeMS := by
  have hF : F64.le 0.1 (m.collectRealMetrics metric env).1.FPS = true := by
    rw [collectRealMetrics_FPS]
    rcases hfps with ⟨n, t₀, cs, hcalc⟩ | ⟨hr, hframes⟩
    · obtain ⟨hn, hp⟩ := reading_of_calls n t₀ cs env.fps
      rw [← hcalc] at hn hp
      simp only [hp, Bool.false_and, Bool.false_eq_true, if_false]
      exact floorFPS_ge _ hn
    · exact floorFPS_ge _
        (fallbackFPS_isNaN _ m.totalFrames (Seconds (env.now - m.startTime)) hr hframes)
  have hpos : F64.gt (m.collectRealMetrics metric env).1.FPS 0 = true :=
    F64.lt_of_lt_of_le (by decide) hF
  have hcpu : F64.isNaN
      (match m.proc, env.cpuPercent with
        | some _, some cpuPercent => (cpuPercent, cpuPercent)
        | some _, none => (m.lastCPUPercent, m.lastCPUPercent)
        | none, _ => (m.estimateCPUPercent env.estimateMemStats, m.lastCPUPercent)).1 = false := by
    split
    · next _ p _ h => exact hprobe p h
    · next _ _ h => exact hlast h
    · exact estimateCPUPercent_isNaN m env.estimateMemStats
  have hb := clamp_bounds _ hcpu
  rw [← collectRealMetrics_CPUPercent m metric env] at hb
  obtain ⟨hR, hU⟩ := collectRealMetrics_derived m metric env
  refine ⟨hF, hb.1, hb.2, ?_, ?_⟩
  · rw [hR, if_pos hpos]
    have e : (1000.0 : F64) = 1000 := by decide
    rw [e]
  · rw [hU, F64.mul_comm]

/-- Witness of C24 on a freshly started Monitor, whose calculator has been
reset once, with the sample environment. -/
theorem collectRealMetrics_invariant_witness :
    sampleMonitor.fpsCalculator
      = (NewFPSCalculator 120 sampleMonitorEnv.fpsNow).calls
        [FPSCall.reset sampleStartEnv.resetNow] ∧
    (∀ p, sampleCollectEnv.cpuPercent = some p → F64.isNaN p = false) ∧
    (sampleCollectEnv.cpuPercent = none → F64.isNaN sampleMonitor.lastCPUPercent = false) ∧
    F64.ge (sampleMonitor.collectRealMetrics (NewPerformanceMetric "A" "custom" "s" 0)
      sampleCollectEnv).1.FPS 0.1 = true ∧
    F64.le 0 (sampleMonitor.collectRealMetrics (NewPerformanceMetric "A" "custom" "s" 0)
      sampleCollectEnv).1.CPUPercent = true ∧
    F64.le (sampleMonitor.collectRealMetrics (NewPerformanceMetric "A" "custom" "s" 0)
      sampleCollectEnv).1.CPUPercent 100 = true ∧
    (sampleMonitor.collectRealMetrics (NewPerformanceMetric "A" "custom" "s" 0)
      sampleCollectEnv).1.RenderTimeMS
      = 1000 / (sampleMonitor.collectRealMetrics (NewPerformanceMetric "A" "custom" "s" 0)
        sampleCollectEnv).1.FPS ∧
    (sampleMonitor.collectRealMetrics (NewPerformanceMetric "A" "custom" "s" 0)
      sampleCollectEnv).1.UpdateTimeMS
      = 0.3 * (sampleMonitor.collectRealMetrics (NewPerformanceMetric "A" "custom" "s" 0)
        sampleCollectEnv).1.RenderTimeMS :=
  ⟨by decide, fun p h => (by cases h; decide), fun h => (by cases h),
    collectRealMetrics_invariant sampleMonitor (NewPerformanceMetric "A" "custom" "s" 0)
      sampleCollectEnv
      (Or.inl ⟨120, sampleMonitorEnv.fpsNow, [FPSCall.reset sampleStartEnv.resetNow],
        by decide⟩)
      (fun p h => (by cases h; decide)) (fun h => (by cases h))⟩

/-- C25: for every non-empty metric list, when the file is created and every
write succeeds, `ExportMetrics` of an exporter made by `NewCSVExporter`
returns no error and the records it writes before any summary section are the
header record followed by exactly one record per metric, in list order; what
follows them is empty for a nil summary and starts with the empty separator
record otherwise.  The header and every metric record have 14 fields, in the
order timestamp, component name, component type, scenario, FPS, memory used,
memory allocated, GC count, GC time, CPU percent, render time, update time,
goroutine count, core count. -/
theorem ExportMetrics_rows (outputDir : String) (nenv : NewCSVExporterEnv)
    (metrics : List PerformanceMetric) (hne : metrics ≠ [])
    (summary : Option (List (List CSVField))) (env : ExportEnv)
    (hc : env.createError = none) (hw : ∀ k, env.writeError k = none) :
    ∃ rows, (NewCSVExporter outputDir nenv).ExportMetrics metrics summary env = Except.ok rows ∧
      rows.take (1 + metrics.length) = CSVExporter.headers :: metrics.map CSVExporter.record ∧
      (summary = none → rows.drop (1 + metrics.length) = []) ∧
      (summary ≠ none → (rows.drop (1 + metrics.length)).head? = some []) ∧
      CSVExporter.headers.length = 14 ∧
      CSVExporter.headers = [CSVField.text "timestamp", CSVField.text "component_name",
        CSVField.text "component_type", CSVField.text "test_scenario", CSVField.text "fps",
        CSVField.text "memory_usage_mb", CSVField.text "memory_alloc_mb", CSVField.text "num_gc",
        CSVField.text "gc_time_ms", CSVField.text "cpu_percent", CSVField.text "render_time_ms",
        CSVField.text "update_time_ms", CSVField.text "goroutines", CSVField.text "num_cores"] ∧
      ∀ metric ∈ metrics,
        (CSVExporter.record metric).length = 14 ∧
        CSVExporter.record metric = [CSVField.time metric.Timestamp,
          CSVField.text metric.ComponentName, CSVField.text metric.ComponentType,
          CSVField.text metric.TestScenario, CSVField.float2 metric.FPS,
          CSVField.float2 metric.MemoryUsageMB, CSVField.float2 metric.MemoryAllocMB,
          CSVField.uint metric.NumGC, CSVField.float2 metric.GCTimeMS,
          CSVField.float2 metric.CPUPercent, CSVField.float2 metric.RenderTimeMS,
          CSVField.float2 metric.UpdateTimeMS, CSVField.int metric.Goroutines,
          CSVField.int metric.NumCores] := by
  refine ⟨_, ExportMetrics_ok (NewCSVExporter outputDir nenv) rfl metrics hne summary env hc hw,
    ?_, ?_, ?_, rfl, rfl, fun metric _ => ⟨rfl, rfl⟩⟩
  · have hl : (CSVExporter.headers :: metrics.map CSVExporter.record).length
        = 1 + metrics.length := by
      simp [Nat.add_comm]
    rw [← hl, List.take_left]
  · intro hs
    have hl : (CSVExporter.headers :: metrics.map CSVExporter.record).length
        = 1 + metrics.length := by
      simp [Nat.add_comm]
    rw [← hl, List.drop_left, hs]
  · intro hs
    have hl : (CSVExporter.headers :: metrics.map CSVExporter.record).length
        = 1 + metrics.length := by
      simp [Nat.add_comm]
    rw [← hl, List.drop_left]
    cases summary with
    | none => exact absurd rfl hs
    | some summaryRows => rfl

theorem ExportMetrics_rows_witness :
    [idleSample, busySample] ≠ [] ∧
    (∃ rows, (NewCSVExporter "out" ⟨true, "20250101_120000"⟩).ExportMetrics
        [idleSample, busySample] none ⟨none, fun _ => none⟩ = Except.ok rows ∧
      rows.take (1 + [idleSample, busySample].length)
        = CSVExporter.headers :: [idleSample, busySample].map CSVExporter.record ∧
      rows.length = 3) := by
  obtain ⟨rows, h, ht, hd, -⟩ := ExportMetrics_rows "out" ⟨true, "20250101_120000"⟩
    [idleSample, busySample] (by simp) none ⟨none, fun _ => none⟩ rfl (fun _ => rfl)
  refine ⟨by simp, rows, h, ht, ?_⟩
  have e := List.take_append_drop (1 + [idleSample, busySample].length) rows
  rw [ht, hd rfl] at e
  rw [← e]
  rfl

/-- C26, as amended.  For every capacity `n` and every sequence of `AddFrame`,
`GetFPS` and `Reset` calls on a new calculator, at any clock readings, the
value held is 60 or the conversion of a whole number between 1 and `n`.  So
every `GetFPS` afterwards returns such a value: it is never `≤ 0`, it is at
most `n` unless it is the initial 60, hence never more than `max n 60`, and
`collectRealMetrics` on a Monitor with this calculator stores the value
returned as it is, without the frame-counter fallback. -/
theorem FPSCalculator_held_values (n : Nat) (t₀ : Int) (cs : List FPSCall) (c : GetFPSClock) :
    (((NewFPSCalculator n t₀).calls cs).lastFPS = 60 ∨
      ∃ k, 1 ≤ k ∧ k ≤ n ∧ ((NewFPSCalculator n t₀).calls cs).lastFPS = F64.ofNat k) ∧
    ((((NewFPSCalculator n t₀).calls cs).GetFPS c.sinceNow c.calcNow c.updateNow).1 = 60 ∨
      ∃ k, 1 ≤ k ∧ k ≤ n ∧
        (((NewFPSCalculator n t₀).calls cs).GetFPS c.sinceNow c.calcNow c.updateNow).1
          = F64.ofNat k) ∧
    F64.le (((NewFPSCalculator n t₀).calls cs).GetFPS c.sinceNow c.calcNow c.updateNow).1 0
      = false ∧
    F64.le (((NewFPSCalculator n t₀).calls cs).GetFPS c.sinceNow c.calcNow c.updateNow).1
      (F64.ofNat (max n 60)) = true ∧
    ∀ (m : Monitor) (metric : PerformanceMetric) (env : CollectEnv),
      m.fpsCalculator = (NewFPSCalculator n t₀).calls cs → env.fps = c →
      (m.collectRealMetrics metric env).1.FPS
        = (((NewFPSCalculator n t₀).calls cs).GetFPS c.sinceNow c.calcNow c.updateNow).1 := by
  obtain ⟨hm, hl, hv⟩ := calls_held n cs (NewFPSCalculator n t₀) rfl (Nat.zero_le _)
    (Or.inl sixty_lit_eq)
  obtain ⟨-, -, hg, he⟩ := GetFPS_held n _ c hm hl hv
  rw [← he] at hg
  have hb : F64.le (((NewFPSCalculator n t₀).calls cs).GetFPS c.sinceNow c.calcNow
        c.updateNow).1 0 = false ∧
      F64.lt (((NewFPSCalculator n t₀).calls cs).GetFPS c.sinceNow c.calcNow
        c.updateNow).1 0.1 = false ∧
      F64.le (((NewFPSCalculator n t₀).calls cs).GetFPS c.sinceNow c.calcNow
        c.updateNow).1 (F64.ofNat (max n 60)) = true := by
    rcases hg with h | ⟨k, h₁, h₂, h⟩
    · rw [h]
      exact ofNat_count_bounds 60 (max n 60) (by decide) (Nat.le_max_right _ _)
    · rw [h]
      exact ofNat_count_bounds k (max n 60) h₁ (Nat.le_trans h₂ (Nat.le_max_left _ _))
  refine ⟨hv, hg, hb.1, hb.2.2, ?_⟩
  intro m metric env hf hc
  rw [collectRealMetrics_FPS, hf, hc]
  simp only [hb.1, hb.2.1, Bool.false_and, Bool.false_eq_true, if_false]

/-- C26 fails as stated below capacity 60: a new calculator of capacity 10
holds the initial 60, `GetFPS` returns it, and 60 is more than 10 frames per
second. -/
theorem FPSCalculator_reports_above_capacity :
    ((NewFPSCalculator 10 0).GetFPS 0 0 0).1 = 60 ∧
    F64.le ((NewFPSCalculator 10 0).GetFPS 0 0 0).1 (F64.ofNat 10) = false ∧
    F64.gt ((NewFPSCalculator 10 0).GetFPS 0 0 0).1 10 = true := by
  decide

/-- C27: for every list of timestamps in non-decreasing order and every
threshold `t`, the count of the loop of `calculateFPS`, which scans from the
newest timestamp backwards and stops at the first timestamp that is not after
`t`, equals the number of all timestamps of the list that are after `t`; so
does the count `calculateFPS` converts when the list is the queue of a
calculator with at least two timestamps and `t` is one second before now. -/
theorem countFromNewest_refines_filter (frameTimes : List Int) (t : Int)
    (h : frameTimes.Pairwise (fun a b => a ≤ b)) :
    countFromNewest t frameTimes.reverse = recentCount frameTimes t ∧
    countFromNewest t frameTimes.reverse
      = (frameTimes.filter fun x => decide (x > t)).length ∧
    ∀ (f : FPSCalculator) (now : Int), f.frameTimes = frameTimes → 2 ≤ frameTimes.length →
      t = now + -Second → 0 < recentCount frameTimes t →
      (f.calculateFPS now).lastFPS = F64.ofNat (recentCount frameTimes t) := by
  refine ⟨countFromNewest_reverse t frameTimes h, countFromNewest_reverse t frameTimes h, ?_⟩
  intro f now hf hl ht hc
  subst hf
  have e := calculateFPS_lastFPS f now hl h
  rw [← ht, if_pos hc] at e
  exact e

theorem countFromNewest_refines_filter_witness :
    ([10, 20, 20, 35] : List Int).Pairwise (fun a b => a ≤ b) ∧
    countFromNewest 15 ([10, 20, 20, 35] : List Int).reverse = 3 ∧
    recentCount [10, 20, 20, 35] 15 = 3 ∧
    countFromNewest 15 ([10, 20, 20, 35] : List Int).reverse = recentCount [10, 20, 20, 35] 15 :=
  ⟨by decide, by decide, by decide,
    (countFromNewest_refines_filter [10, 20, 20, 35] 15 (by decide)).1⟩

/-- C28, as amended.  For every non-empty series of finite values (a slice
has fewer than `2^63` elements), the results of `calculateStatistics` satisfy
`min ≤ max` and `std ≥ 0`.  They satisfy `min ≤ avg ≤ max` when the values
are whole numbers whose sum is below `2^53`.  More generally, with `lo` a
smallest and `hi` a largest value of the series (both `float64`), they
satisfy `min ≤ avg` whenever the computed mean `sum / N`, before it is
rounded to two decimals, is at least `lo`, and `avg ≤ max` whenever it is at
most `hi`; and they satisfy both when the float sum of the series is its real
sum (and `N < 2^53`).  For a series of `N ≤ 2^31` values they satisfy
`min ≤ avg` when `N × |lo| ≤ 2^40` and `lo − 2^-11` rounds to the same two
decimals as `lo`, and `avg ≤ max` when `N × |hi| ≤ 2^40` and `hi + 2^-11`
rounds to the same two decimals as `hi`: then the value is not within `2^-11`
of the boundary between two roundings, as `0.175` is.  When both `N × |lo|` and `N × |hi|` are at most `2^40` they
also satisfy `min ≤ avg` when the real mean of the values is at least
`lo + 2^-12`, and `avg ≤ max` when it is at most `hi − 2^-12`: then the values
are not all nearly equal.  Magnitudes and sums are in units of `2^-1074`, in
which 1 is `one_u` and `2^-12` is `2^1062`. -/
theorem calculateStatistics_order (values : List F64) (h : values ≠ [])
    (hlen : values.length < 2 ^ 63) (hfin : ∀ v ∈ values, ∃ s m, v = F64.fin s m) :
    ∃ st, calculateStatistics values = some st ∧
      F64.le st.min st.max = true ∧ F64.ge st.std 0 = true ∧
      (∀ ks : List Nat, values = ks.map F64.ofNat → ks.sum < 2 ^ 53 → ks.length < 2 ^ 53 →
        F64.le st.min st.avg = true ∧ F64.le st.avg st.max = true) ∧
      ∀ lo ∈ values, ∀ hi ∈ values, lo.isBinary64 = true → hi.isBinary64 = true →
        (∀ v ∈ values, F64.le lo v = true ∧ F64.le v hi = true) →
        ((F64.le lo (seriesMean values) = true → F64.le st.min st.avg = true) ∧
          (F64.le (seriesMean values) hi = true → F64.le st.avg st.max = true)) ∧
        ((∃ t M, seriesSum values = F64.fin t M ∧
              F64.sval t M = (values.map F64.units).sum) →
            values.length < 2 ^ 53 →
            F64.le st.min st.avg = true ∧ F64.le st.avg st.max = true) ∧
        (values.length ≤ 2 ^ 31 →
            values.length * lo.units.natAbs ≤ 2 ^ 40 * F64.one_u →
            round2 (lo - roundingMargin) = round2 lo → F64.le st.min st.avg = true) ∧
        (values.length ≤ 2 ^ 31 →
            values.length * hi.units.natAbs ≤ 2 ^ 40 * F64.one_u →
            round2 (hi + roundingMargin) = round2 hi → F64.le st.avg st.max = true) ∧
        (values.length ≤ 2 ^ 31 →
            values.length * lo.units.natAbs ≤ 2 ^ 40 * F64.one_u →
            values.length * hi.units.natAbs ≤ 2 ^ 40 * F64.one_u →
            ((values.length : Int) * (lo.units + ((2 ^ 1062 : Nat) : Int))
                ≤ (values.map F64.units).sum →
              F64.le st.min st.avg = true) ∧
            ((values.map F64.units).sum
                ≤ (values.length : Int) * (hi.units - ((2 ^ 1062 : Nat) : Int)) →
              F64.le st.avg st.max = true)) := by
  obtain ⟨-, -, hf⟩ := foldl_statsStep_bounds values
    { sum := 0, min := F64.maxFloat64, max := 0 }
    (fun w hw => by obtain ⟨s, m, rfl⟩ := hfin w hw; rfl) (by decide) (by decide)
  refine ⟨_, calculateStatistics_some values h, ?_, ?_, ?_, ?_⟩
  · -- min ≤ max, through the first element
    obtain ⟨v, hv⟩ := List.exists_mem_of_ne_nil values h
    exact round2_mono (F64.le_trans (hf v hv).1 (hf v hv).2)
  · have := round2_mono (sqrt_populationVariance_nonneg values h hlen hfin)
    rw [round2_zero] at this
    exact this
  · intro ks hk hsum hl
    have hne : ks ≠ [] := by
      rintro rfl
      exact h hk
    have hlen' : values.length = ks.length := by rw [hk, List.length_map]
    obtain ⟨⟨a, ha, ha'⟩, ⟨b, hb, hb'⟩⟩ := exists_mean_bounds ks hne
    have hA : a < 2 ^ 53 := Nat.lt_of_le_of_lt (le_sum_of_mem ks a ha) hsum
    have hB : b < 2 ^ 53 := Nat.lt_of_le_of_lt (le_sum_of_mem ks b hb) hsum
    have hmean : seriesMean values
        = F64.fin false (ks.sum * F64.one_u) / F64.fin false (ks.length * F64.one_u) := by
      unfold seriesMean seriesSum
      have e := seriesSum_whole ks 0 (by omega)
      rw [Nat.zero_mul, Nat.zero_add] at e
      rw [hlen', F64.ofNat_exact _ hl, hk, F64.zero_eq, e]
    obtain ⟨q₁, q₂⟩ := F64.whole_div_bounds ks.sum ks.length a b (List.length_pos.mpr hne)
      ha' hb' hA hB
    rw [← hmean, ← F64.ofNat_exact a hA] at q₁
    rw [← hmean, ← F64.ofNat_exact b hB] at q₂
    have ma : F64.ofNat a ∈ values := by
      rw [hk]
      exact List.mem_map_of_mem _ ha
    have mb : F64.ofNat b ∈ values := by
      rw [hk]
      exact List.mem_map_of_mem _ hb
    exact ⟨round2_mono (F64.le_trans (hf _ ma).1 q₁), round2_mono (F64.le_trans q₂ (hf _ mb).2)⟩
  · intro lo hlo hi hhi blo bhi hb
    have hn : 1 ≤ values.length := List.length_pos.mpr h
    refine ⟨?_, ?_, ?_, ?_, ?_⟩
    · exact ⟨fun hm => round2_mono (F64.le_trans (hf lo hlo).1 hm),
        fun hm => round2_mono (F64.le_trans hm (hf hi hhi).2)⟩
    · intro hex hl
      obtain ⟨e₁, e₂⟩ := seriesMean_exact_between lo hi values h hl blo bhi hfin
        (hfin lo hlo) (hfin hi hhi) hb hex
      exact ⟨round2_mono (F64.le_trans (hf lo hlo).1 e₁),
        round2_mono (F64.le_trans e₂ (hf hi hhi).2)⟩
    · intro hl hmag hr
      have h₁ := round2_mono (F64.le_trans
        (constMean_margin lo blo (hfin lo hlo) values.length hn hl hmag).1
        (constMean_le_seriesMean lo (hfin lo hlo) values h hlen hfin (fun v hv => (hb v hv).1)))
      rw [hr] at h₁
      exact F64.le_trans (round2_mono (hf lo hlo).1) h₁
    · intro hl hmag hr
      have h₁ := round2_mono (F64.le_trans
        (seriesMean_le_constMean hi (hfin hi hhi) values h hlen hfin (fun v hv => (hb v hv).2))
        (constMean_margin hi bhi (hfin hi hhi) values.length hn hl hmag).2)
      rw [hr] at h₁
      exact F64.le_trans h₁ (round2_mono (hf hi hhi).2)
    · intro hl hmlo hmhi
      obtain ⟨e₁, e₂⟩ := seriesMean_spread lo hi values h hl blo bhi hfin
        (hfin lo hlo) (hfin hi hhi) hmlo hmhi hb
      exact ⟨fun hs => round2_mono (F64.le_trans (hf lo hlo).1 (e₁ hs)),
        fun hs => round2_mono (F64.le_trans (e₂ hs) (hf hi hhi).2)⟩

/-- Witness of C28.  On `[59.7, 60.2, 61.1]`, whose sum rounds, the smallest
and the largest value are away from a rounding boundary; on `[0.175, 0.9]`
the smallest value is next to a rounding boundary and the sum rounds, and the
real mean is away from both values; on `[12.345, 12.345, 12.345]` the value
is next to a rounding boundary and the computed mean is the value; on
`[10.125, 10.25, 10]` the sum is exact; on `[10, 20, 30]` the values are whole
numbers.  In the five cases `min ≤ avg ≤ max`. -/
theorem calculateStatistics_order_witness :
    (∃ st, calculateStatistics [59.7, 60.2, 61.1] = some st ∧
      F64.le st.min st.max = true ∧ F64.ge st.std 0 = true ∧
      F64.le st.min st.avg = true ∧ F64.le st.avg st.max = true) ∧
    (round2 (0.175 - roundingMargin) ≠ round2 0.175 ∧
      ∃ st, calculateStatistics [0.175, 0.9] = some st ∧
        F64.le st.min st.avg = true ∧ F64.le st.avg st.max = true) ∧
    (round2 (12.345 - roundingMargin) ≠ round2 12.345 ∧
      ∃ st, calculateStatistics [12.345, 12.345, 12.345] = some st ∧
        F64.le st.min st.avg = true ∧ F64.le st.avg st.max = true) ∧
    (∃ st, calculateStatistics [10.125, 10.25, 10] = some st ∧
      F64.le st.min st.avg = true ∧ F64.le st.avg st.max = true) ∧
    (∃ st, calculateStatistics [10, 20, 30] = some st ∧
      F64.le st.min st.avg = true ∧ F64.le st.avg st.max = true) := by
  have hf : ∀ l : List F64, (l.all fun v => F64.isFinite v) = true →
      ∀ v ∈ l, ∃ s m, v = F64.fin s m := by
    intro l hl v hv
    have := List.all_eq_true.mp hl v hv
    cases v with
    | nan => cases this
    | inf a => cases this
    | fin s m => exact ⟨s, m, rfl⟩
  refine ⟨?_, ⟨by decide, ?_⟩, ⟨by decide, ?_⟩, ?_, ?_⟩
  · obtain ⟨st, h₁, h₂, h₃, -, h₅⟩ := calculateStatistics_order [59.7, 60.2, 61.1] (by simp)
      (by decide) (hf _ (by decide))
    obtain ⟨-, -, m₁, m₂, -⟩ := h₅ 59.7 (by simp) 61.1 (by simp) (by decide) (by decide)
      (by decide)
    exact ⟨st, h₁, h₂, h₃, m₁ (by decide) (by decide) (by decide),
      m₂ (by decide) (by decide) (by decide)⟩
  · obtain ⟨st, h₁, -, -, -, h₅⟩ := calculateStatistics_order [0.175, 0.9] (by simp)
      (by decide) (hf _ (by decide))
    obtain ⟨-, -, -, -, m⟩ := h₅ 0.175 (by simp) 0.9 (by simp) (by decide) (by decide)
      (by decide)
    obtain ⟨m₁, m₂⟩ := m (by decide) (by decide) (by decide)
    exact ⟨st, h₁, m₁ (by decide), m₂ (by decide)⟩
  · obtain ⟨st, h₁, -, -, -, h₅⟩ := calculateStatistics_order [12.345, 12.345, 12.345]
      (by simp) (by decide) (hf _ (by decide))
    obtain ⟨⟨m₁, m₂⟩, -⟩ := h₅ 12.345 (by simp) 12.345 (by simp) (by decide) (by decide)
      (by decide)
    exact ⟨st, h₁, m₁ (by decide), m₂ (by decide)⟩
  · obtain ⟨st, h₁, -, -, -, h₅⟩ := calculateStatistics_order [10.125, 10.25, 10] (by simp)
      (by decide) (hf _ (by decide))
    obtain ⟨-, e, -⟩ := h₅ 10 (by simp) 10.25 (by simp) (by decide) (by decide) (by decide)
    exact ⟨st, h₁, e ⟨false, 243 * 2 ^ 1071, by decide, by decide⟩ (by decide)⟩
  · obtain ⟨st, h₁, -, -, h₄, -⟩ := calculateStatistics_order [10, 20, 30] (by simp)
      (by decide) (hf _ (by decide))
    exact ⟨st, h₁, h₄ [10, 20, 30] rfl (by decide) (by decide)⟩

/-- C28 fails as stated on `[0.175, 0.175, 0.175]`: the sum rounds, the mean
`sum / 3` is the binary64 number just below `0.175`, and the code reports
`avg = 0.17` below `min = 0.18` (and `max = 0.18`). -/
theorem calculateStatistics_avg_below_min :
    ∃ st, calculateStatistics [0.175, 0.175, 0.175] = some st ∧
      st.avg = 0.17 ∧ st.min = 0.18 ∧ st.max = 0.18 ∧ F64.le st.min st.avg = false := by
  refine ⟨_, rfl, ?_, ?_, ?_, ?_⟩ <;> decide

/-- C29, as amended.  On every non-empty list of metrics `CalculateSummary`
(the path of `Monitor.GetSummary`) and `calculateComponentSummary` report the
same average of FPS, memory and CPU and the same minimum and maximum of FPS
and memory.  They report the same standard deviation of a series (FPS, memory
or CPU) when every deviation of a value of that series from the mean is zero
or at least `2^-511` in magnitude: there `math.Pow(d, 2)`, which
`CalculateSummary` sums, is the product `d * d`, which `calculateStatistics`
sums. -/
theorem CalculateSummary_agrees (metrics : List PerformanceMetric) (h : metrics ≠ [])
    (testName componentName componentType scenario : String) (startTime : Int)
    (systemInfo : SystemInfo) (totalFrames : Int) (now : Int) (category : String) :
    ∃ s S, CalculateSummary metrics testName componentName componentType scenario startTime
        systemInfo totalFrames now = some s ∧
      calculateComponentSummary metrics category = some S ∧
      s.avg_fps = S.fps_avg ∧ s.min_fps = S.fps_min ∧ s.max_fps = S.fps_max ∧
      s.avg_memory_mb = S.memory_avg ∧ s.min_memory_mb = S.memory_min ∧
      s.max_memory_mb = S.memory_max ∧
      s.avg_cpu_percent = S.cpu_avg ∧
      ((∀ metric ∈ metrics,
          (metric.FPS - seriesMean (metrics.map PerformanceMetric.FPS)).squareIsNormal = true) →
        s.fps_std_dev = S.fps_std) ∧
      ((∀ metric ∈ metrics,
          (metric.MemoryUsageMB
            - seriesMean (metrics.map PerformanceMetric.MemoryUsageMB)).squareIsNormal = true) →
        s.memory_std_dev = S.memory_std) ∧
      ((∀ metric ∈ metrics,
          (metric.CPUPercent
            - seriesMean (metrics.map PerformanceMetric.CPUPercent)).squareIsNormal = true) →
        s.cpu_std_dev = S.cpu_std) := by
  obtain ⟨s, S, hs, hS, a₁, a₂, a₃, a₄, a₅, a₆, a₇, a₈, a₉, a₁₀⟩ :=
    summaries_agree_of_pow metrics h testName componentName componentType scenario startTime
      systemInfo totalFrames now category
  exact ⟨s, S, hs, hS, a₁, a₂, a₃, a₄, a₅, a₆, a₇,
    fun hp => a₈ fun metric hm =>
      F64.pow2_of_squareIsNormal _ (F64.sub_isBinary64 _ _) (hp metric hm),
    fun hp => a₉ fun metric hm =>
      F64.pow2_of_squareIsNormal _ (F64.sub_isBinary64 _ _) (hp metric hm),
    fun hp => a₁₀ fun metric hm =>
      F64.pow2_of_squareIsNormal _ (F64.sub_isBinary64 _ _) (hp metric hm)⟩

/-- Witness of C29 on three samples with different values: the deviations of
the three series are zero or large enough, and the ten statistics agree. -/
theorem CalculateSummary_agrees_witness :
    variedSamples ≠ [] ∧
    (∀ metric ∈ variedSamples,
      (metric.FPS - seriesMean (variedSamples.map PerformanceMetric.FPS)).squareIsNormal
        = true) ∧
    (∀ metric ∈ variedSamples,
      (metric.MemoryUsageMB
        - seriesMean (variedSamples.map PerformanceMetric.MemoryUsageMB)).squareIsNormal
        = true) ∧
    (∀ metric ∈ variedSamples,
      (metric.CPUPercent
        - seriesMean (variedSamples.map PerformanceMetric.CPUPercent)).squareIsNormal
        = true) ∧
    ∃ s S, CalculateSummary variedSamples "t" "c" "custom" "s" 0
        sampleMonitorEnv.systemInfo 0 0 = some s ∧
      calculateComponentSummary variedSamples "custom" = some S ∧
      s.avg_fps = S.fps_avg ∧ s.min_fps = S.fps_min ∧ s.max_fps = S.fps_max ∧
      s.avg_memory_mb = S.memory_avg ∧ s.min_memory_mb = S.memory_min ∧
      s.max_memory_mb = S.memory_max ∧
      s.avg_cpu_percent = S.cpu_avg ∧ s.fps_std_dev = S.fps_std ∧
      s.memory_std_dev = S.memory_std ∧ s.cpu_std_dev = S.cpu_std :=
  ⟨by decide, by decide, by decide, by decide,
    (CalculateSummary_agrees variedSamples (by decide) "t" "c" "custom" "s" 0
      sampleMonitorEnv.systemInfo 0 0 "custom").imp fun s hs => hs.imp fun S hS =>
        ⟨hS.1, hS.2.1, hS.2.2.1, hS.2.2.2.1, hS.2.2.2.2.1, hS.2.2.2.2.2.1, hS.2.2.2.2.2.2.1,
          hS.2.2.2.2.2.2.2.1, hS.2.2.2.2.2.2.2.2.1, hS.2.2.2.2.2.2.2.2.2.1 (by decide),
          hS.2.2.2.2.2.2.2.2.2.2.1 (by decide), hS.2.2.2.2.2.2.2.2.2.2.2 (by decide)⟩⟩

/-- C29 fails as stated: on a series of 90 FPS values, 45 magnitudes between
`2^-515` and `2.3` each followed by its negative, so that the mean is exactly
zero, the two standard deviations differ.  At the first, smallest values
`math.Pow(d, 2)` rounds the square of the fraction and `Ldexp` rounds the
subnormal result again (at the first value, 55904160674438 units of `2^-1074`
against 55904160674439 for the product), which leaves the sum of the powers
one unit in the last place below the sum of the products `d * d`;
`CalculateSummary` reports 0.34 and `calculateComponentSummary` 0.35. -/
theorem CalculateSummary_std_differs :
    ((CalculateSummary cancellingMetrics "t" "c" "custom" "s" 0 sampleMonitorEnv.systemInfo 0
        0).map MonitorSummary.fps_std_dev) = some 0.34 ∧
    ((calculateComponentSummary cancellingMetrics "custom").map Summary.fps_std) = some 0.35 ∧
    F64.eq 0.34 0.35 = false ∧
    seriesMean (cancellingMetrics.map PerformanceMetric.FPS) = 0 ∧
    F64.pow2 (F64.fin false (8028269367588295 * 2 ^ 507)) = F64.fin false 55904160674438 ∧
    F64.fin false (8028269367588295 * 2 ^ 507) * F64.fin false (8028269367588295 * 2 ^ 507)
      = F64.fin false 55904160674439 := by
  decide

/-- C30.  For each of the three metrics, with `d` its percent delta (a
`float64`) and `cv ≥ 0` the coefficient of variation of the custom summary, a
value `Round(x*100)/100` as `calculateStatistics` stores it: if
`analyzeSignificance` marks the metric significant (`|d| > 2 × cv`) then its
confidence label, `calculateConfidenceLevel(|d|, cv)`, is "high" or
"very high"; and if the label is "very high" then the metric is marked
significant.  Infinite and NaN deltas are included. -/
theorem analyzeSignificance_consistent (cs ns : Summary) (dF dM dC : F64) :
    (∀ x, cs.fps_cv = round2 x → F64.le 0 cs.fps_cv = true → F64.isBinary64 dF = true →
      ((analyzeSignificance cs ns dF dM dC).fps_significant = true →
        (analyzeSignificance cs ns dF dM dC).fps_confidence = "high" ∨
        (analyzeSignificance cs ns dF dM dC).fps_confidence = "very high") ∧
      ((analyzeSignificance cs ns dF dM dC).fps_confidence = "very high" →
        (analyzeSignificance cs ns dF dM dC).fps_significant = true)) ∧
    (∀ x, cs.memory_cv = round2 x → F64.le 0 cs.memory_cv = true →
      F64.isBinary64 dM = true →
      ((analyzeSignificance cs ns dF dM dC).memory_significant = true →
        (analyzeSignificance cs ns dF dM dC).memory_confidence = "high" ∨
        (analyzeSignificance cs ns dF dM dC).memory_confidence = "very high") ∧
      ((analyzeSignificance cs ns dF dM dC).memory_confidence = "very high" →
        (analyzeSignificance cs ns dF dM dC).memory_significant = true)) ∧
    (∀ x, cs.cpu_cv = round2 x → F64.le 0 cs.cpu_cv = true → F64.isBinary64 dC = true →
      ((analyzeSignificance cs ns dF dM dC).cpu_significant = true →
        (analyzeSignificance cs ns dF dM dC).cpu_confidence = "high" ∨
        (analyzeSignificance cs ns dF dM dC).cpu_confidence = "very high") ∧
      ((analyzeSignificance cs ns dF dM dC).cpu_confidence = "very high" →
        (analyzeSignificance cs ns dF dM dC).cpu_significant = true)) :=
  ⟨fun x hx h₁ h₃ => significance_confidence dF cs.fps_cv h₁
      (by rw [hx]; exact round2_isBinary64 x)
      (fun s c hc => round2_double_lt_ovf x s c (hx.symm.trans hc)) h₃,
    fun x hx h₁ h₃ => significance_confidence dM cs.memory_cv h₁
      (by rw [hx]; exact round2_isBinary64 x)
      (fun s c hc => round2_double_lt_ovf x s c (hx.symm.trans hc)) h₃,
    fun x hx h₁ h₃ => significance_confidence dC cs.cpu_cv h₁
      (by rw [hx]; exact round2_isBinary64 x)
      (fun s c hc => round2_double_lt_ovf x s c (hx.symm.trans hc)) h₃⟩

/-- Witness of C30 on a summary with the FPS coefficient of variation 2.72:
the infinite delta `+Inf` has the label "very high" and is marked
significant, and the delta 6 (more than `2 × 2.72`) is marked significant and
has the label "high". -/
theorem analyzeSignificance_consistent_witness :
    sampleSummary.fps_cv = round2 2.72 ∧ F64.le 0 sampleSummary.fps_cv = true ∧
    (analyzeSignificance sampleSummary sampleSummary (F64.inf false) 0 0).fps_confidence
      = "very high" ∧
    (analyzeSignificance sampleSummary sampleSummary (F64.inf false) 0 0).fps_significant
      = true ∧
    (analyzeSignificance sampleSummary sampleSummary 6 0 0).fps_significant = true ∧
    ((analyzeSignificance sampleSummary sampleSummary 6 0 0).fps_confidence = "high" ∨
      (analyzeSignificance sampleSummary sampleSummary 6 0 0).fps_confidence = "very high") :=
  ⟨by decide, by decide, by decide,
    ((analyzeSignificance_consistent sampleSummary sampleSummary (F64.inf false) 0 0).1 2.72
      (by decide) (by decide) (by decide)).2 (by decide),
    by decide,
    ((analyzeSignificance_consistent sampleSummary sampleSummary 6 0 0).1 2.72
      (by decide) (by decide) (by decide)).1 (by decide)⟩
